import Mathlib

/-!
Ludo rules engine (`src/lib/gameRules.js`).

A shallow embedding of the rules engine: plain JavaScript objects become
structures, arrays become lists, JavaScript numbers that hold board
positions and dice values become `Int`, strings stay strings, and a
function that can throw returns `Except JsError`.

Modelling conventions:
* `===` on numbers and strings is propositional equality;
* a property lookup that yields `undefined` is `none`; reading a field of
  `undefined` throws a `TypeError`;
* a property read on an object literal also finds the names the object
  inherits from `Object.prototype`; the value found there has no `start`;
* a result `.error .typeError` is a thrown `TypeError`; a result
  `.error .undefinedPosition` is not a throw: the code goes on with
  `undefined` in the place of a board position, which an `Int` cannot hold.
-/

set_option autoImplicit false

namespace Ludo

/-! ## Constants -/

def BOARD_SIZE : Int := 15
def PATH_LENGTH : Int := 52
def HOME_STRETCH_LENGTH : Int := 6
/-- Safe spots on the main path. -/
def STAR_CELLS : List Int := [8, 21, 34, 47]
def MAX_CONSECUTIVE_SIXES : Int := 3
def CAPTURE_BONUS_STEPS : Int := 2

/-- The string `GAME_MODES.CLASSIC`. -/
def GAME_MODES_CLASSIC : String := "classic"
/-- The string `GAME_MODES.SPEED`. -/
def GAME_MODES_SPEED : String := "speed"
/-- The string `GAME_MODES.QUICK`. -/
def GAME_MODES_QUICK : String := "quick"

/-- One entry of `COLOR_POSITIONS`. -/
structure ColorEntry where
  start : Int
  home : List Int
  deriving DecidableEq, Repr

/-- The own properties of the object `COLOR_POSITIONS`: the entry of each of
its four keys, and `none` for a name that is not one of its keys. -/
def COLOR_POSITIONS (color : String) : Option ColorEntry :=
  if color = "red" then some ⟨0, [1, 2, 3, 4, 5, 6]⟩
  else if color = "blue" then some ⟨13, [14, 15, 16, 17, 18, 19]⟩
  else if color = "yellow" then some ⟨26, [27, 28, 29, 30, 31, 32]⟩
  else if color = "green" then some ⟨39, [40, 41, 42, 43, 44, 45]⟩
  else none

/-- The property names of `Object.prototype`, which every object literal
inherits. A read `COLOR_POSITIONS[name]` with one of these names gives the
inherited value (a function, or the prototype itself for `__proto__`), which
is not `undefined` and has no property `start`. -/
def OBJECT_PROTOTYPE_KEYS : List String :=
  ["constructor", "__defineGetter__", "__defineSetter__", "hasOwnProperty",
   "__lookupGetter__", "__lookupSetter__", "isPrototypeOf", "propertyIsEnumerable",
   "toString", "valueOf", "__proto__", "toLocaleString"]

/-! ## Data model -/

/-- How a run of a JavaScript function leaves the embedding. `typeError` is
a thrown `TypeError`. `undefinedPosition` is not a throw: the function goes
on with the value `undefined` where a board position is expected (the
`start` of a value inherited from `Object.prototype`), and the embedding,
whose positions are integers, does not follow the run any further. -/
inductive JsError where
  | typeError
  | undefinedPosition
  deriving DecidableEq, Repr

/-- Equality of results is decidable, so that concrete runs can be checked. -/
instance instDecidableEqExcept {ε α : Type} [DecidableEq ε] [DecidableEq α] :
    DecidableEq (Except ε α)
  | .ok a, .ok b => if h : a = b then isTrue (by rw [h]) else isFalse (by intro h1; cases h1; exact h rfl)
  | .error a, .error b => if h : a = b then isTrue (by rw [h]) else isFalse (by intro h1; cases h1; exact h rfl)
  | .ok _, .error _ => isFalse (by intro h; cases h)
  | .error _, .ok _ => isFalse (by intro h; cases h)

/-- A token object `{ id, playerId, color, position }`. -/
structure Token where
  id : String
  playerId : String
  color : String
  position : Int
  deriving DecidableEq, Repr

/-- A move object `{ tokenId, from, to }`. -/
structure Move where
  tokenId : String
  «from» : Int
  «to» : Int
  deriving DecidableEq, Repr

/-- A player object; only `id` is read by the rules engine. -/
structure Player where
  id : String
  deriving DecidableEq, Repr

/-- The game state object. Fields that `createInitialGameState` does not set
(`lastMove`, `capturedTokens`, `bonusSteps`, `turnForfeited`) start absent;
`turnForfeited` is read for its truthiness only. -/
structure GameState where
  tokens : List Token
  currentPlayerId : String
  players : List Player
  mode : String
  lastDiceRoll : Option Int
  consecutiveSixCount : Option Int
  turnStartTime : Int
  gameStartTime : Int
  status : String
  lastMove : Option Move
  capturedTokens : Option (List String)
  bonusSteps : Option Int
  turnForfeited : Bool
  deriving DecidableEq, Repr

/-! ## Move generation -/

/-- The expression `COLOR_POSITIONS[color].start`. For one of the four keys
it is the start cell. For a name inherited from `Object.prototype` the
lookup gives a value without `start`, and the expression is `undefined`.
For every other name the lookup gives `undefined`, and reading `.start` of
it throws. -/
def colorStart (color : String) : Except JsError Int :=
  match COLOR_POSITIONS color with
  | some entry => .ok entry.start
  | none =>
    if color ∈ OBJECT_PROTOTYPE_KEYS then .error .undefinedPosition
    else .error .typeError

/-- Source `canLeaveHome(diceValue, mode)`. -/
def canLeaveHome (diceValue : Int) (mode : String) : Bool :=
  if mode = GAME_MODES_QUICK then true
  else decide (diceValue = 6)

/-- Source `canEnterFinish(currentPosition, diceValue, mode)`. -/
def canEnterFinish (currentPosition diceValue : Int) (mode : String) : Bool :=
  let distanceToFinish := PATH_LENGTH - currentPosition
  if mode = GAME_MODES_QUICK then decide (diceValue ≥ distanceToFinish)
  else decide (diceValue = distanceToFinish)

/-- Source `isSafeCell(position)`: `STAR_CELLS.includes(position)`. -/
def isSafeCell (position : Int) : Bool :=
  STAR_CELLS.contains position

/-- One iteration of the `for (const token of playerTokens)` loop of
`getLegalMoves`: the accumulator `legalMoves` after the body has run for
`token`. `push` appends at the end; `continue` ends the iteration. For a
home token whose colour is a name inherited from `Object.prototype` the
move pushed is `{ tokenId, from: -1, to: undefined }`, which is the result
`.error .undefinedPosition`. -/
def getLegalMovesStep (diceValue : Int) (mode : String) (legalMoves : List Move)
    (token : Token) : Except JsError (List Move) :=
  -- Token in home
  if token.position = -1 then
    if canLeaveHome diceValue mode then
      match colorStart token.color with
      | .error e => .error e
      | .ok startPosition => .ok (legalMoves ++ [⟨token.id, -1, startPosition⟩])
    else .ok legalMoves
  else
    -- Token on main path
    let afterPath : List Move :=
      if token.position < PATH_LENGTH then
        let newPosition := token.position + diceValue
        if newPosition ≥ PATH_LENGTH then
          if canEnterFinish token.position diceValue mode then
            legalMoves ++ [⟨token.id, token.position, PATH_LENGTH + (newPosition - PATH_LENGTH)⟩]
          else legalMoves
        else legalMoves ++ [⟨token.id, token.position, newPosition⟩]
      else legalMoves
    -- Token in finish stretch
    let afterStretch : List Move :=
      if token.position ≥ PATH_LENGTH ∧ token.position < PATH_LENGTH + HOME_STRETCH_LENGTH then
        let newPosition := token.position + diceValue
        if newPosition ≤ PATH_LENGTH + HOME_STRETCH_LENGTH then
          afterPath ++ [⟨token.id, token.position, newPosition⟩]
        else afterPath
      else afterPath
    .ok afterStretch

/-- The loop of `getLegalMoves` over the remaining tokens, from accumulator
`legalMoves`. A throw ends the loop. After a move with an undefined
destination has been pushed the loop goes on, and a later token can still
throw; if none does, the function returns a list that holds a move with an
undefined destination, which is the result `.error .undefinedPosition`. -/
def getLegalMovesLoop (diceValue : Int) (mode : String) :
    List Token → List Move → Except JsError (List Move)
  | [], legalMoves => .ok legalMoves
  | token :: rest, legalMoves =>
    match getLegalMovesStep diceValue mode legalMoves token with
    | .error .typeError => .error .typeError
    | .error .undefinedPosition =>
      match getLegalMovesLoop diceValue mode rest legalMoves with
      | .error .typeError => .error .typeError
      | _ => .error .undefinedPosition
    | .ok legalMoves1 => getLegalMovesLoop diceValue mode rest legalMoves1

/-- Source `getLegalMoves(tokens, diceValue, mode, currentPlayerId)`. -/
def getLegalMoves (tokens : List Token) (diceValue : Int) (mode : String)
    (currentPlayerId : String) : Except JsError (List Move) :=
  let playerTokens := tokens.filter (fun token => token.playerId = currentPlayerId)
  getLegalMovesLoop diceValue mode playerTokens []

/-- Source `isValidMove(state, move, diceValue, mode)`. -/
def isValidMove (state : GameState) (move : Move) (diceValue : Int) (mode : String) :
    Except JsError Bool :=
  match getLegalMoves state.tokens diceValue mode state.currentPlayerId with
  | .error e => .error e
  | .ok legalMoves =>
    .ok (legalMoves.any (fun legal =>
      legal.tokenId = move.tokenId ∧ legal.from = move.from ∧ legal.to = move.to))

/-! ## Captures and move application -/

/-- The callback of the `filter` in `checkForCapture`:
`t.position === move.to && t.playerId !== movingToken.playerId`, where
`movingToken` is what `find` returned. The right operand is evaluated only
when the left one is true, and throws when `movingToken` is `undefined`. -/
def captureFilter (movingToken : Option Token) (move : Move) (t : Token) :
    Except JsError Bool :=
  if t.position = move.to then
    match movingToken with
    | none => .error .typeError
    | some moving => .ok (decide (t.playerId ≠ moving.playerId))
  else .ok false

/-- The array method `filter` with a callback that may throw. -/
def filterExcept {α : Type} (p : α → Except JsError Bool) :
    List α → Except JsError (List α)
  | [] => .ok []
  | x :: xs =>
    match p x with
    | .error e => .error e
    | .ok keep =>
      match filterExcept p xs with
      | .error e => .error e
      | .ok rest => .ok (if keep then x :: rest else rest)

/-- Source `checkForCapture(tokens, move)`. -/
def checkForCapture (tokens : List Token) (move : Move) : Except JsError (List String) :=
  if isSafeCell move.to then .ok []
  else
    let movingToken := tokens.find? (fun t => t.id = move.tokenId)
    match filterExcept (captureFilter movingToken move) tokens with
    | .error e => .error e
    | .ok tokensAtDestination => .ok (tokensAtDestination.map (fun token => token.id))

/-- The assignment `tokens[index] = { ...tokens[index], position }` at the
index `findIndex` returned for `id`; a list without such a token (index
`-1`) is left as it is. -/
def setPositionOfFirst (id : String) (position : Int) : List Token → List Token
  | [] => []
  | t :: rest =>
    if t.id = id then { t with position := position } :: rest
    else t :: setPositionOfFirst id position rest

/-- Source `applyMove(state, move)`. -/
def applyMove (state : GameState) (move : Move) : Except JsError GameState :=
  -- Update token position
  let tokens := setPositionOfFirst move.tokenId move.to state.tokens
  -- Check for captures
  match checkForCapture tokens move with
  | .error e => .error e
  | .ok capturedTokenIds =>
    -- Reset captured tokens to home
    let tokens1 := capturedTokenIds.foldl
      (fun toks tokenId => setPositionOfFirst tokenId (-1) toks) tokens
    .ok { state with
      tokens := tokens1
      lastMove := some move
      capturedTokens := some capturedTokenIds
      bonusSteps := if capturedTokenIds.length > 0 then some CAPTURE_BONUS_STEPS
                    else state.bonusSteps }

/-! ## Turn bookkeeping -/

/-- The expression `state.consecutiveSixCount || 0`: a missing count and the
count 0 are falsy and give 0, any other count gives itself. -/
def consecutiveSixCountOrZero (state : GameState) : Int :=
  match state.consecutiveSixCount with
  | none => 0
  | some count => if count = 0 then 0 else count

/-- Source `handleConsecutiveSixes(state, diceValue)`. -/
def handleConsecutiveSixes (state : GameState) (diceValue : Int) : GameState :=
  if diceValue = 6 then
    let incremented := consecutiveSixCountOrZero state + 1
    if incremented ≥ MAX_CONSECUTIVE_SIXES then
      -- Forfeit turn
      { state with turnForfeited := true, consecutiveSixCount := some 0 }
    else { state with consecutiveSixCount := some incremented }
  else { state with consecutiveSixCount := some 0 }

/-- Source `checkGameOver(tokens, playerId)`. -/
def checkGameOver (tokens : List Token) (playerId : String) : Bool :=
  let playerTokens := tokens.filter (fun t => t.playerId = playerId)
  let finishedTokens :=
    playerTokens.filter (fun t => t.position = PATH_LENGTH + HOME_STRETCH_LENGTH)
  decide (finishedTokens.length = 4)

/-- Source `getNextPlayer(players, currentPlayerId)`. `findIndex` gives -1
when no player has the id; the remainder by the length 0 is `NaN`, and
reading `.id` of the `undefined` an index outside the array gives throws. -/
def getNextPlayer (players : List Player) (currentPlayerId : String) : Except JsError String :=
  let currentIndex : Int :=
    match players.findIdx? (fun p => p.id = currentPlayerId) with
    | some i => (i : Int)
    | none => -1
  if players.length = 0 then .error .typeError
  else
    let nextIndex : Int := Int.tmod (currentIndex + 1) (players.length : Int)
    if nextIndex < 0 then .error .typeError
    else
      match players[nextIndex.toNat]? with
      | some p => .ok p.id
      | none => .error .typeError

/-- The function `getNextPlayer` applied `k` times in a row, starting from
`currentPlayerId`. -/
def getNextPlayerTimes (players : List Player) : Nat → String → Except JsError String
  | 0, currentPlayerId => .ok currentPlayerId
  | k + 1, currentPlayerId =>
    match getNextPlayer players currentPlayerId with
    | .error e => .error e
    | .ok next => getNextPlayerTimes players k next

/-! ## Initial state -/

/-- The array `colors` of `createInitialGameState`. -/
def colors : List String := ["red", "blue", "yellow", "green"]

/-- The four tokens pushed by the loop `for (let i = 0; i < 4; i++)` for one
player; the id is the template string of the player id, a dash and `i`. -/
def createPlayerTokens (player : Player) (color : String) (startPosition : Int) : List Token :=
  (List.range 4).map
    (fun i => ⟨player.id ++ "-" ++ toString i, player.id, color, startPosition⟩)

/-- The `players.forEach((player, index) => ...)` of `createInitialGameState`
from `index` on, with the tokens pushed so far. Beyond the fourth player
`colors[index]` is `undefined`, which as a property key is the string
"undefined"; in quick mode reading `.start` of its missing entry throws. -/
def createTokensLoop (mode : String) : List Player → Nat → List Token →
    Except JsError (List Token)
  | [], _, tokens => .ok tokens
  | player :: rest, index, tokens =>
    let color : String :=
      match colors[index]? with
      | some c => c
      | none => "undefined"
    let startPosition : Except JsError Int :=
      if mode = GAME_MODES_QUICK then colorStart color
      else .ok (-1)
    match startPosition with
    | .error e => .error e
    | .ok start =>
      createTokensLoop mode rest (index + 1) (tokens ++ createPlayerTokens player color start)

/-- Source `createInitialGameState(players, mode)`; `turnNow` and `gameNow`
are the values of the two calls of `Date.now()`. Reading `players[0].id` of
an empty array throws. -/
def createInitialGameState (players : List Player) (mode : String) (turnNow gameNow : Int) :
    Except JsError GameState :=
  match createTokensLoop mode players 0 [] with
  | .error e => .error e
  | .ok tokens =>
    match players[0]? with
    | none => .error .typeError
    | some first =>
      .ok { tokens := tokens, currentPlayerId := first.id, players := players, mode := mode,
            lastDiceRoll := none, consecutiveSixCount := some 0, turnStartTime := turnNow,
            gameStartTime := gameNow, status := "playing", lastMove := none,
            capturedTokens := none, bonusSteps := none, turnForfeited := false }

/-! ## The move handler (`src/pages/api/match/[id]/move.js`) -/

/-- A row of `match_participants`: `user_id` is the column `create.js`,
`join.js` and `quick.js` write and the participant check reads; `id` is the
key of the row, which `getNextPlayer` reads when it is given the rows. -/
structure Participant where
  id : String
  user_id : String
  deriving DecidableEq, Repr

/-- A row of the table `tokens`, as the handler loads it in `match.tokens`.
`createTokensForPlayer` (`create.js`, `join.js`, `quick.js`) writes the
columns `match_id`, `user_id`, `token_number`, `color` and `position`, and
the table gives the row its `id`. The rules engine reads `id`, `color`,
`position` and `playerId` of a token. No endpoint writes a `playerId`: a
row without it has `playerId := none`, the `undefined` the read gives. -/
structure TokenRow where
  id : String
  user_id : String
  color : String
  position : Int
  playerId : Option String
  deriving DecidableEq, Repr

/-- The JSON object in the column `game_state` of a match row.

`created` is the object `create.js` and `quick.js` insert,
`{ currentPlayerId, turnStartTime, consecutiveSixCount }`, with the two
properties `lastDiceRoll` and `canMove` that `roll.js` adds to it once the
dice have been rolled (`none` before). It has no property `tokens`.

`engine` is an object with the properties of a state of the rules engine
(`createInitialGameState`, `GameStateType`), the only kind of object on
which `applyMove` returns. No endpoint inserts one. -/
inductive StoredGameState where
  | created (currentPlayerId : String) (turnStartTime consecutiveSixCount : Int)
      (lastDiceRoll : Option Int) (canMove : Option Bool)
  | engine (state : GameState)
  deriving DecidableEq, Repr

/-- The property `currentPlayerId` of the stored object. -/
def StoredGameState.currentPlayerId : StoredGameState → String
  | .created currentPlayerId _ _ _ _ => currentPlayerId
  | .engine state => state.currentPlayerId

/-- The match row the handler loads with `select('*, match_participants (*),
tokens (*)')`, with the properties it reads. `currentPlayerId` is the
property of the row itself that `isValidMove(match, …)` reads; the
endpoints write `currentPlayerId` into `game_state` only, so that a row they
have written has `currentPlayerId := none`. -/
structure Match where
  tokens : List TokenRow
  currentPlayerId : Option String
  mode : String
  status : String
  game_state : StoredGameState
  match_participants : List Participant
  deriving DecidableEq, Repr

/-- What the handler depends on in the database client, an object made by a
library outside the repository: whether the client has a function `raw`
(called in the game-over branch), and whether the update of `tokens` and the
update of `matches` report an error, which the handler throws. -/
structure SupabaseClient where
  raw : Bool
  tokenError : Bool
  updateError : Bool
  deriving DecidableEq, Repr

/-- What a successful request writes and answers: `gameState` is
`updatedGameState` and `canMove` its extra key, `status` and `winner` are
written to the match row, `nextPlayerId`, `gameOver` and `winner` are sent
in the response. -/
structure MoveResult where
  gameState : GameState
  canMove : Bool
  nextPlayerId : String
  gameOver : Bool
  winner : Option String
  status : String
  deriving DecidableEq, Repr

/-- The responses of the handler after the session and the match have been
loaded: 403, the two 400 answers, 500 from the `catch`, and 200. -/
inductive MoveResponse where
  | notParticipant
  | notYourTurn
  | invalidMove
  | internalServerError
  | success (result : MoveResult)
  deriving DecidableEq, Repr

/-- The token object the loop of `getLegalMoves` reads in a row: `id`,
`color` and `position`. The loop does not read `playerId`, which only the
filter before the loop compares. -/
def TokenRow.toToken (row : TokenRow) : Token :=
  ⟨row.id, row.playerId.getD "", row.color, row.position⟩

/-- The call `getLegalMoves(match.tokens, diceValue, match.mode,
match.currentPlayerId)` that `isValidMove(match, …)` makes. The filter
`token.playerId === currentPlayerId` compares two properties that can be
absent, and `undefined === undefined` holds. -/
def Match.legalMoves (m : Match) (diceValue : Int) : Except JsError (List Move) :=
  let playerTokens := m.tokens.filter (fun token => token.playerId = m.currentPlayerId)
  getLegalMovesLoop diceValue m.mode (playerTokens.map TokenRow.toToken) []

/-- The call `isValidMove(match, move, diceValue, match.mode)` of the
handler, with the match row in the place of the state. -/
def Match.validMove (m : Match) (move : Move) (diceValue : Int) : Except JsError Bool :=
  match m.legalMoves diceValue with
  | .error e => .error e
  | .ok legalMoves =>
    .ok (legalMoves.any (fun legal =>
      legal.tokenId = move.tokenId ∧ legal.from = move.from ∧ legal.to = move.to))

/-- The call `checkGameOver(match.tokens, userId)` of the handler, on the
token rows: a row counts for the player when its `playerId` is the user id. -/
def Match.gameOver (m : Match) (userId : String) : Bool :=
  let playerTokens := m.tokens.filter (fun t => t.playerId = some userId)
  let finishedTokens :=
    playerTokens.filter (fun t => t.position = PATH_LENGTH + HOME_STRETCH_LENGTH)
  decide (finishedTokens.length = 4)

/-- Source `handler` of `move.js` from the participant check on, for a
request body `{ tokenId, newPosition, diceValue }` of the user `userId`;
`now` is `Date.now()`. An exception thrown inside the `try` is answered
with 500. The result `.error .undefinedPosition` is a run in which
`getLegalMoves` has pushed a move with an undefined destination and the
validity of the request depends on the list. -/
def handler (supabase : SupabaseClient) (m : Match) (userId tokenId : String)
    (newPosition diceValue now : Int) : Except JsError MoveResponse :=
  -- Verify user is participant and it is their turn
  match m.match_participants.find? (fun p => p.user_id = userId) with
  | none => .ok .notParticipant
  | some _ =>
    if m.game_state.currentPlayerId ≠ userId then .ok .notYourTurn
    else
      -- Validate the move
      match m.tokens.find? (fun t => t.id = tokenId) with
      | none =>
        -- `from` is `undefined`, which the `from` of no legal move equals
        match m.legalMoves diceValue with
        | .error .typeError => .ok .internalServerError
        | _ => .ok .invalidMove
      | some token =>
        let move : Move := ⟨tokenId, token.position, newPosition⟩
        match m.validMove move diceValue with
        | .error .typeError => .ok .internalServerError
        | .error .undefinedPosition => .error .undefinedPosition
        | .ok false => .ok .invalidMove
        | .ok true =>
          -- Apply the move
          match m.game_state with
          | .created _ _ _ _ _ =>
            -- `[...newState.tokens]` throws: `tokens` is `undefined`
            .ok .internalServerError
          | .engine state =>
            match applyMove state move with
            | .error _ => .ok .internalServerError
            | .ok applied =>
              -- Handle consecutive sixes
              let sixResult := handleConsecutiveSixes applied diceValue
              let newGameState : GameState :=
                if sixResult.turnForfeited then { applied with turnForfeited := true }
                else applied
              -- Update token position
              if supabase.tokenError then .ok .internalServerError
              else
                -- Check for game over
                let isGameOver := m.gameOver userId
                let gameStatus := if isGameOver then "finished" else m.status
                let winnerId : Option String := if isGameOver then some userId else none
                -- Award coins for winning: `supabase.raw(…)` is called
                if isGameOver ∧ ¬ supabase.raw then .ok .internalServerError
                else
                  -- Determine next player
                  let nextPlayerId : Except JsError String :=
                    if diceValue ≠ 6 ∧ ¬ sixResult.turnForfeited = true ∧ ¬ isGameOver = true then
                      getNextPlayer (m.match_participants.map (fun p => ⟨p.id⟩)) userId
                    else .ok userId
                  match nextPlayerId with
                  | .error _ => .ok .internalServerError
                  | .ok next =>
                    -- Update match state
                    if supabase.updateError then .ok .internalServerError
                    else
                      .ok (.success
                        { gameState := { newGameState with
                            currentPlayerId := next, turnStartTime := now,
                            lastDiceRoll := none }
                          canMove := false
                          nextPlayerId := next
                          gameOver := isGameOver
                          winner := winnerId
                          status := gameStatus })

/-! ## Bot decision engine (`src/lib/botLogic.js`) -/

/-- The string `BOT_DIFFICULTY.EASY`. -/
def BOT_DIFFICULTY_EASY : String := "easy"
/-- The string `BOT_DIFFICULTY.MEDIUM`. -/
def BOT_DIFFICULTY_MEDIUM : String := "medium"
/-- The string `BOT_DIFFICULTY.HARD`. -/
def BOT_DIFFICULTY_HARD : String := "hard"

/-- The string `BOT_PERSONALITIES.AGGRESSIVE`. -/
def BOT_PERSONALITIES_AGGRESSIVE : String := "aggressive"
/-- The string `BOT_PERSONALITIES.DEFENSIVE`. -/
def BOT_PERSONALITIES_DEFENSIVE : String := "defensive"
/-- The string `BOT_PERSONALITIES.BALANCED`. -/
def BOT_PERSONALITIES_BALANCED : String := "balanced"
/-- The string `BOT_PERSONALITIES.SPEEDSTER`. -/
def BOT_PERSONALITIES_SPEEDSTER : String := "speedster"

/-- A result of `Math.random()`: a double in [0, 1). The doubles in [0, 1)
are the numbers `mant / 2 ^ exp` with a significand `mant` below 2^53 and an
exponent `exp` of at most 1074. A function `random : Nat → RandomDraw` gives
the results of the successive calls of `Math.random()` during one call of a
bot function, counted from 0. -/
structure RandomDraw where
  mant : Nat
  exp : Nat
  mant_lt : mant < 2 ^ 53
  exp_le : exp ≤ 1074
  lt_one : mant < 2 ^ exp

/-- The test `Math.random() < c` against a number `c = p / q`, for `q`
positive. The literal `0.3` is the double 5404319552844595 / 2^54. The
literal `0.1` is the double 3602879701896397 / 2^55, the least double that
is not below 1/10, so that a double is below it exactly when it is below
1/10 (`below_tenth`). -/
def RandomDraw.below (r : RandomDraw) (p q : Nat) : Bool :=
  decide (r.mant * q < p * 2 ^ r.exp)

/-- The number of bits by which `a` exceeds 53 bits: the least `shift` with
`a / 2 ^ shift` below 2^53, found by halving; `fuel` bounds the number of
halvings, and `a` itself is enough fuel. -/
def excessBits : Nat → Nat → Nat
  | 0, _ => 0
  | fuel + 1, a => if a < 2 ^ 53 then 0 else excessBits fuel (a / 2) + 1

/-- Rounding of a product to a double. For a double `mant / 2 ^ exp` in
[0, 1) and a natural number `n` below 2^53 the product is the exact number
`a / 2 ^ exp` with `a = mant * n`, and the double the multiplication
returns is `roundSignificand a / 2 ^ exp`: the number `a` itself when it has
at most 53 bits, and otherwise `a` rounded to its leading 53 bits, to the
nearest and in a tie to the even significand. -/
def roundSignificand (a : Nat) : Nat :=
  if a < 2 ^ 53 then a
  else
    let shift := excessBits a a
    let q := a / 2 ^ shift
    let rest := a % 2 ^ shift
    let half := 2 ^ (shift - 1)
    if rest < half then q * 2 ^ shift
    else if half < rest then (q + 1) * 2 ^ shift
    else if q % 2 = 0 then q * 2 ^ shift
    else (q + 1) * 2 ^ shift

/-- The index `Math.floor(Math.random() * n)`: the product is rounded to a
double before the floor is taken. -/
def RandomDraw.floorTimes (r : RandomDraw) (n : Nat) : Nat :=
  roundSignificand (r.mant * n) / 2 ^ r.exp

/-- Insertion of `x` into a sorted list, before the first element that
`compare` does not put before `x`. -/
def sortedInsert {α : Type} (compare : α → α → Int) (x : α) : List α → List α
  | [] => [x]
  | y :: ys => if compare x y ≤ 0 then x :: y :: ys else y :: sortedInsert compare x ys

/-- The array method `sort(compare)`: `a` comes before `b` when
`compare(a, b)` is negative, and elements that compare equal keep their
order (the sort is stable). For a comparator that is a total preorder, as
all comparators of the bot engine are, this is the insertion sort. -/
def arraySort {α : Type} (compare : α → α → Int) : List α → List α
  | [] => []
  | x :: xs => sortedInsert compare x (arraySort compare xs)

/-- The array method `map` with a callback that may throw. -/
def mapExcept {α β : Type} (f : α → Except JsError β) : List α → Except JsError (List β)
  | [] => .ok []
  | x :: xs =>
    match f x with
    | .error e => .error e
    | .ok y =>
      match mapExcept f xs with
      | .error e => .error e
      | .ok ys => .ok (y :: ys)

/-- An object `{ move, score }`. -/
structure ScoredMove where
  move : Move
  score : Int
  deriving DecidableEq, Repr

/-- Source `makeRandomMove(legalMoves)` with the draw `r`; `none` is the
`undefined` an empty array gives. -/
def makeRandomMove (legalMoves : List Move) (r : RandomDraw) : Option Move :=
  legalMoves[r.floorTimes legalMoves.length]?

/-- Source `isTokenSafe(state, position)`: a stub that returns false. -/
def isTokenSafe (_state : GameState) (_position : Int) : Bool :=
  false

/-- The callback of the `map` in `makeMediumMove`: the object
`{ move, score }` computed for `move`. -/
def mediumMoveScore (state : GameState) (move : Move) : Except JsError ScoredMove :=
  let score0 : Int := 0
  -- Factor 1: Capture opportunities
  match checkForCapture state.tokens move with
  | .error e => .error e
  | .ok capturedTokens =>
    let score1 : Int :=
      if capturedTokens.length > 0 then score0 + 100 * (capturedTokens.length : Int)
      else score0
    -- Factor 2: Progress toward finish
    let score2 : Int :=
      if move.to ≥ PATH_LENGTH then score1 + 50
      else if move.from = -1 then score1 + 30
      else score1
    let score3 : Int := score2 + move.to * 2
    -- Factor 3: Safety considerations
    let score4 : Int := if isTokenSafe state move.to then score3 + 10 else score3
    -- Factor 4: Avoid clustering
    let tokensAtDestination : Nat :=
      (state.tokens.filter
        (fun t => t.position = move.to ∧ t.playerId = state.currentPlayerId)).length
    let score5 : Int := if tokensAtDestination > 1 then score4 - 20 else score4
    .ok ⟨move, score5⟩

/-- Source `makeMediumMove(state, legalMoves)`; reading `.move` of the
`undefined` first element of an empty array throws. -/
def makeMediumMove (state : GameState) (legalMoves : List Move) : Except JsError Move :=
  match mapExcept (mediumMoveScore state) legalMoves with
  | .error e => .error e
  | .ok moveScores =>
    match (arraySort (fun a b => b.score - a.score) moveScores)[0]? with
    | none => .error .typeError
    | some best => .ok best.move

/-- Source `makeEasyMove(state, legalMoves)`: the first draw decides between
the medium move and a random move, which uses the second draw. -/
def makeEasyMove (state : GameState) (legalMoves : List Move) (random : Nat → RandomDraw) :
    Except JsError (Option Move) :=
  if (random 0).below 5404319552844595 (2 ^ 54) then
    match makeMediumMove state legalMoves with
    | .error e => .error e
    | .ok move => .ok (some move)
  else .ok (makeRandomMove legalMoves (random 1))

/-- Source `scoreMoveForMediumBot(state, move)`. -/
def scoreMoveForMediumBot (state : GameState) (move : Move) : Except JsError Int :=
  let score : Int := move.to * 2
  match checkForCapture state.tokens move with
  | .error e => .error e
  | .ok capturedTokens =>
    .ok (if capturedTokens.length > 0 then score + 100 * (capturedTokens.length : Int)
      else score)

/-- Source `assessThreats(state, move)`: a stub. -/
def assessThreats (_state : GameState) (_move : Move) : Int := 0

/-- Source `calculatePositionalAdvantage(state, move)`: a stub. -/
def calculatePositionalAdvantage (_state : GameState) (_move : Move) : Int := 0

/-- Source `isEndgame(state)`: some player has 3 or more tokens at a
position of PATH_LENGTH or more. -/
def isEndgame (state : GameState) : Bool :=
  let players := (state.tokens.map (fun t => t.playerId)).eraseDups
  players.any (fun playerId =>
    let playerTokens := state.tokens.filter (fun t => t.playerId = playerId)
    let finishTokens := playerTokens.filter (fun t => t.position ≥ PATH_LENGTH)
    decide (finishTokens.length ≥ 3))

/-- Source `calculateEndgameScore(state, move)`: a stub. -/
def calculateEndgameScore (_state : GameState) (_move : Move) : Int := 0

/-- Source `calculateBlockingScore(state, move)`: a stub. -/
def calculateBlockingScore (_state : GameState) (_move : Move) : Int := 0

/-- The callback of the `map` in `makeHardMove`. -/
def hardMoveScore (state : GameState) (move : Move) : Except JsError ScoredMove :=
  let score0 : Int := 0
  -- Use medium bot base score
  match scoreMoveForMediumBot state move with
  | .error e => .error e
  | .ok mediumScore =>
    let score1 := score0 + mediumScore
    let score2 := score1 + assessThreats state move
    let score3 := score2 + calculatePositionalAdvantage state move
    let score4 := if isEndgame state then score3 + calculateEndgameScore state move else score3
    let score5 := score4 + calculateBlockingScore state move
    .ok ⟨move, score5⟩

/-- Source `makeHardMove(state, legalMoves)`: the first draw decides whether
one of the top three moves is taken, at the index the second draw gives. -/
def makeHardMove (state : GameState) (legalMoves : List Move) (random : Nat → RandomDraw) :
    Except JsError Move :=
  match mapExcept (hardMoveScore state) legalMoves with
  | .error e => .error e
  | .ok moveScores =>
    let sorted := arraySort (fun a b => b.score - a.score) moveScores
    if (random 0).below 1 10 then
      let topMoves := sorted.take (min 3 sorted.length)
      match topMoves[(random 1).floorTimes topMoves.length]? with
      | none => .error .typeError
      | some top => .ok top.move
    else
      match sorted[0]? with
      | none => .error .typeError
      | some best => .ok best.move

/-- Source `makeBotMove(state, diceValue, mode, difficulty)`; an omitted
difficulty (`none`) is the default `BOT_DIFFICULTY.MEDIUM`, and the result
`none` is `null`. -/
def makeBotMove (state : GameState) (diceValue : Int) (mode : String)
    (difficulty : Option String) (random : Nat → RandomDraw) : Except JsError (Option Move) :=
  match getLegalMoves state.tokens diceValue mode state.currentPlayerId with
  | .error e => .error e
  | .ok legalMoves =>
    if legalMoves.length = 0 then .ok none
    else if legalMoves.length = 1 then .ok legalMoves[0]?
    else
      let level := difficulty.getD BOT_DIFFICULTY_MEDIUM
      if level = BOT_DIFFICULTY_EASY then makeEasyMove state legalMoves random
      else if level = BOT_DIFFICULTY_MEDIUM then
        match makeMediumMove state legalMoves with
        | .error e => .error e
        | .ok move => .ok (some move)
      else if level = BOT_DIFFICULTY_HARD then
        match makeHardMove state legalMoves random with
        | .error e => .error e
        | .ok move => .ok (some move)
      else .ok (makeRandomMove legalMoves (random 0))

/-- Source `canThreatenOpponents(state, move)`: a stub. -/
def canThreatenOpponents (_state : GameState) (_move : Move) : Bool := false

/-- The loop `for (const move of legalMoves)` of `makeAggressiveMove`: the
first move for which `checkForCapture` reports a capture, or `none` when
the loop ends without a `return`. -/
def firstCapturingMove (state : GameState) : List Move → Except JsError (Option Move)
  | [] => .ok none
  | move :: rest =>
    match checkForCapture state.tokens move with
    | .error e => .error e
    | .ok capturedTokens =>
      if capturedTokens.length > 0 then .ok (some move)
      else firstCapturingMove state rest

/-- Source `makeAggressiveMove(state, legalMoves)`. -/
def makeAggressiveMove (state : GameState) (legalMoves : List Move) : Except JsError Move :=
  -- Always go for captures first
  match firstCapturingMove state legalMoves with
  | .error e => .error e
  | .ok (some move) => .ok move
  | .ok none =>
    -- Look for positions that threaten opponents
    let threateningMoves := legalMoves.filter (fun move => canThreatenOpponents state move)
    match threateningMoves with
    | first :: _ => .ok first
    | [] =>
      -- Fall back to medium strategy
      makeMediumMove state legalMoves

/-- The double `Math.random() * 10` as the fraction `num / den`. -/
structure RiskScore where
  num : Nat
  den : Nat
  deriving DecidableEq, Repr

/-- The rational number a risk score stands for. -/
def RiskScore.value (q : RiskScore) : ℚ :=
  (q.num : ℚ) / (q.den : ℚ)

/-- Source `calculateRiskScore(state, move)` with the draw `r`: the product
`Math.random() * 10`, rounded to a double. -/
def calculateRiskScore (_state : GameState) (_move : Move) (r : RandomDraw) : RiskScore :=
  ⟨roundSignificand (r.mant * 10), 2 ^ r.exp⟩

/-- An object `{ move, risk }`. -/
structure RiskedMove where
  move : Move
  risk : RiskScore
  deriving DecidableEq, Repr

/-- The comparator `(a, b) => a.risk - b.risk` up to a positive factor: the
difference of the two fractions times both denominators. The difference of
two doubles is rounded, but it is negative, zero or positive as the exact
difference is, and the sort reads the sign only. -/
def compareRisk (a b : RiskedMove) : Int :=
  (a.risk.num : Int) * b.risk.den - (b.risk.num : Int) * a.risk.den

/-- The `map` of `makeDefensiveMove` that scores the risks: the move at
index `i` of the array gets the draw `index + i`. -/
def riskScoresFrom (state : GameState) (random : Nat → RandomDraw) :
    List Move → Nat → List RiskedMove
  | [], _ => []
  | move :: rest, index =>
    ⟨move, calculateRiskScore state move (random index)⟩ ::
      riskScoresFrom state random rest (index + 1)

/-- Source `makeDefensiveMove(state, legalMoves)`. -/
def makeDefensiveMove (state : GameState) (legalMoves : List Move)
    (random : Nat → RandomDraw) : Except JsError Move :=
  -- Prioritize safe moves
  let safeMoves := legalMoves.filter (fun move => isTokenSafe state move.to)
  if safeMoves.length > 0 then
    match (arraySort (fun (a b : Move) => b.to - a.to) safeMoves)[0]? with
    | none => .error .typeError
    | some best => .ok best
  else
    -- If no safe moves, pick the least risky one
    let riskScores := riskScoresFrom state random legalMoves 0
    match (arraySort compareRisk riskScores)[0]? with
    | none => .error .typeError
    | some best => .ok best.move

/-- An object `{ move, progress, isFinishMove }`. -/
structure ProgressMove where
  move : Move
  progress : Int
  isFinishMove : Bool
  deriving DecidableEq, Repr

/-- The comparator of the sort in `makeSpeedsterMove`. -/
def compareProgress (a b : ProgressMove) : Int :=
  if a.isFinishMove ∧ ¬ b.isFinishMove then -1
  else if ¬ a.isFinishMove ∧ b.isFinishMove then 1
  else b.progress - a.progress

/-- Source `makeSpeedsterMove(state, legalMoves)`. -/
def makeSpeedsterMove (_state : GameState) (legalMoves : List Move) : Except JsError Move :=
  let movesByProgress : List ProgressMove :=
    legalMoves.map (fun move => ⟨move, move.to, decide (move.to ≥ PATH_LENGTH)⟩)
  match (arraySort compareProgress movesByProgress)[0]? with
  | none => .error .typeError
  | some best => .ok best.move

/-- Source `makePersonalityMove(state, diceValue, mode, personality)`; the
result `none` is `null`. -/
def makePersonalityMove (state : GameState) (diceValue : Int) (mode : String)
    (personality : String) (random : Nat → RandomDraw) : Except JsError (Option Move) :=
  match getLegalMoves state.tokens diceValue mode state.currentPlayerId with
  | .error e => .error e
  | .ok legalMoves =>
    if legalMoves.length = 0 then .ok none
    else if legalMoves.length = 1 then .ok legalMoves[0]?
    else
      let chosen : Except JsError Move :=
        if personality = BOT_PERSONALITIES_AGGRESSIVE then makeAggressiveMove state legalMoves
        else if personality = BOT_PERSONALITIES_DEFENSIVE then
          makeDefensiveMove state legalMoves random
        else if personality = BOT_PERSONALITIES_SPEEDSTER then
          makeSpeedsterMove state legalMoves
        else makeMediumMove state legalMoves
      match chosen with
      | .error e => .error e
      | .ok move => .ok (some move)

/-! ## A sample position -/

/-- A position with two players: `p1` (red) has a token at home, one on the
ring two cells before the finish stretch, one in the finish stretch and one
finished; `p2` (blue) has a token at home, one on cell 20, one on the star
cell 8 and one on cell 30. -/
def sampleTokens : List Token :=
  [⟨"p1-0", "p1", "red", -1⟩, ⟨"p1-1", "p1", "red", 50⟩, ⟨"p1-2", "p1", "red", 55⟩,
   ⟨"p1-3", "p1", "red", 58⟩, ⟨"p2-0", "p2", "blue", -1⟩, ⟨"p2-1", "p2", "blue", 20⟩,
   ⟨"p2-2", "p2", "blue", 8⟩, ⟨"p2-3", "p2", "blue", 30⟩]

/-- A state of play over `sampleTokens` with `p1` to move. -/
def sampleState : GameState :=
  { tokens := sampleTokens, currentPlayerId := "p1", players := [⟨"p1"⟩, ⟨"p2"⟩],
    mode := "classic", lastDiceRoll := none, consecutiveSixCount := some 0,
    turnStartTime := 0, gameStartTime := 0, status := "playing", lastMove := none,
    capturedTokens := none, bonusSteps := none, turnForfeited := false }

/-- The token rows of a match in quick mode that `u1` has created and `u2`
has joined: `createTokensForPlayer` has written four red rows for `u1` and
four blue rows for `u2`, all at position 0, none with a `playerId`. -/
def quickRows : List TokenRow :=
  [⟨"t1", "u1", "red", 0, none⟩, ⟨"t2", "u1", "red", 0, none⟩,
   ⟨"t3", "u1", "red", 0, none⟩, ⟨"t4", "u1", "red", 0, none⟩,
   ⟨"t5", "u2", "blue", 0, none⟩, ⟨"t6", "u2", "blue", 0, none⟩,
   ⟨"t7", "u2", "blue", 0, none⟩, ⟨"t8", "u2", "blue", 0, none⟩]

/-- The match row of that match after `u1` has rolled a 3: `create.js` has
written `game_state` and the participant row of `u1`, `join.js` the
participant row of `u2` and the status, `roll.js` the roll. -/
def quickMatch : Match :=
  { tokens := quickRows, currentPlayerId := none, mode := "quick", status := "playing",
    game_state := .created "u1" 0 0 (some 3) (some true),
    match_participants := [⟨"mp1", "u1"⟩, ⟨"mp2", "u2"⟩] }

/-- The token rows of a match in classic mode that `u1` has created and
`u2` has joined: all eight rows are at home. -/
def classicRows : List TokenRow :=
  [⟨"t1", "u1", "red", -1, none⟩, ⟨"t2", "u1", "red", -1, none⟩,
   ⟨"t3", "u1", "red", -1, none⟩, ⟨"t4", "u1", "red", -1, none⟩,
   ⟨"t5", "u2", "blue", -1, none⟩, ⟨"t6", "u2", "blue", -1, none⟩,
   ⟨"t7", "u2", "blue", -1, none⟩, ⟨"t8", "u2", "blue", -1, none⟩]

/-- The match row of that match after `u1` has rolled a 6. -/
def classicMatch : Match :=
  { tokens := classicRows, currentPlayerId := none, mode := "classic", status := "playing",
    game_state := .created "u1" 0 0 (some 6) (some true),
    match_participants := [⟨"mp1", "u1"⟩, ⟨"mp2", "u2"⟩] }

/-- Token rows of the same shape in which `u1` has three tokens at the
finish and the fourth one cell before it. -/
def finishRows : List TokenRow :=
  [⟨"t1", "u1", "red", 58, none⟩, ⟨"t2", "u1", "red", 58, none⟩,
   ⟨"t3", "u1", "red", 58, none⟩, ⟨"t4", "u1", "red", 57, none⟩,
   ⟨"t5", "u2", "blue", -1, none⟩, ⟨"t6", "u2", "blue", 20, none⟩,
   ⟨"t7", "u2", "blue", 8, none⟩, ⟨"t8", "u2", "blue", 30, none⟩]

/-- A match row over `finishRows` with `u1` to move after a roll of 1. -/
def finishMatch : Match :=
  { tokens := finishRows, currentPlayerId := none, mode := "classic", status := "playing",
    game_state := .created "u1" 0 0 (some 1) (some true),
    match_participants := [⟨"mp1", "u1"⟩, ⟨"mp2", "u2"⟩] }

/-- The rows the rules engine would need: every token row carries the
`playerId` of its owner, the match row carries `currentPlayerId`, the
participant rows have the user id as their `id`, and `game_state` is an
engine state over the same tokens. No endpoint of the repository writes
such a row. -/
def engineRows (tokens : List Token) : List TokenRow :=
  tokens.map (fun t => ⟨t.id, t.playerId, t.color, t.position, some t.playerId⟩)

/-- The sample state after two consecutive sixes of `p1`, as a row of the
shape of `engineRows`. -/
def forfeitMatch : Match :=
  { tokens := engineRows sampleTokens, currentPlayerId := some "p1", mode := "classic",
    status := "playing",
    game_state := .engine { sampleState with consecutiveSixCount := some 2 },
    match_participants := [⟨"p1", "p1"⟩, ⟨"p2", "p2"⟩] }

/-- A position in which `p1` has three tokens at the finish and the fourth
one cell before it. -/
def finishTokens : List Token :=
  [⟨"p1-0", "p1", "red", 58⟩, ⟨"p1-1", "p1", "red", 58⟩, ⟨"p1-2", "p1", "red", 58⟩,
   ⟨"p1-3", "p1", "red", 57⟩, ⟨"p2-0", "p2", "blue", -1⟩, ⟨"p2-1", "p2", "blue", 20⟩,
   ⟨"p2-2", "p2", "blue", 8⟩, ⟨"p2-3", "p2", "blue", 30⟩]

/-- A row of the shape of `engineRows` over `finishTokens` with `p1` to
move. -/
def engineFinishMatch : Match :=
  { tokens := engineRows finishTokens, currentPlayerId := some "p1", mode := "classic",
    status := "playing",
    game_state := .engine { sampleState with tokens := finishTokens },
    match_participants := [⟨"p1", "p1"⟩, ⟨"p2", "p2"⟩] }

/-- A position for the bots: `p1` (red) has a token at home, tokens on the
cells 2 and 4 and a finished token; `p2` (blue) has a token on cell 30. -/
def botTokens : List Token :=
  [⟨"p1-0", "p1", "red", -1⟩, ⟨"p1-1", "p1", "red", 2⟩, ⟨"p1-2", "p1", "red", 4⟩,
   ⟨"p1-3", "p1", "red", 58⟩, ⟨"p2-0", "p2", "blue", 30⟩]

/-- A state over `botTokens` with `p1` to move. -/
def botState : GameState :=
  { sampleState with tokens := botTokens }

/-- The draws 0.5, 0.9, 0.1, 0.1, ... of `Math.random()`: the doubles
1 / 2, 8106479329266893 / 2^53 and 3602879701896397 / 2^55. -/
def sampleRandom (i : Nat) : RandomDraw :=
  if i = 0 then ⟨1, 1, by decide, by decide, by decide⟩
  else if i = 1 then ⟨8106479329266893, 53, by decide, by decide, by decide⟩
  else ⟨3602879701896397, 55, by decide, by decide, by decide⟩

/-- Two draws one unit in the last place apart, 8106479329266895 / 2^53 and
8106479329266894 / 2^53, followed by 0.99: the products of the first two
with 10 are the same double 9.000000000000002. -/
def tiedRandom (i : Nat) : RandomDraw :=
  if i = 0 then ⟨8106479329266895, 53, by decide, by decide, by decide⟩
  else if i = 1 then ⟨8106479329266894, 53, by decide, by decide, by decide⟩
  else ⟨4458563631096791, 52, by decide, by decide, by decide⟩

/-- A position in the home stretches: `p1` (red) has a finished token and a
token at 54; `p2` (blue) has tokens at 57 and 52. -/
def stretchTokens : List Token :=
  [⟨"p1-0", "p1", "red", 58⟩, ⟨"p1-1", "p1", "red", 54⟩,
   ⟨"p2-0", "p2", "blue", 57⟩, ⟨"p2-1", "p2", "blue", 52⟩]

/-- A state over `stretchTokens` with `p2` to move. -/
def stretchState : GameState :=
  { sampleState with tokens := stretchTokens, currentPlayerId := "p2" }

/-! ## Lemmas on the move-generation loop -/

/-- The start cell of a key of `COLOR_POSITIONS`. -/
theorem colorStart_of_some (c : String) (e : ColorEntry) (h : COLOR_POSITIONS c = some e) :
    colorStart c = .ok e.start := by
  simp [colorStart, h]

/-- The expression `COLOR_POSITIONS[color].start` is a number exactly for
the keys of `COLOR_POSITIONS`. -/
theorem colorStart_ok_iff (c : String) :
    (∃ start, colorStart c = .ok start) ↔ (COLOR_POSITIONS c).isSome = true := by
  unfold colorStart
  cases COLOR_POSITIONS c with
  | none => by_cases h : c ∈ OBJECT_PROTOTYPE_KEYS <;> simp [h]
  | some e => simp

/-- The expression `COLOR_POSITIONS[color].start` throws exactly for the
names that are neither keys of `COLOR_POSITIONS` nor inherited. -/
theorem colorStart_typeError_iff (c : String) :
    colorStart c = .error .typeError ↔
      COLOR_POSITIONS c = none ∧ c ∉ OBJECT_PROTOTYPE_KEYS := by
  unfold colorStart
  cases COLOR_POSITIONS c with
  | none => by_cases h : c ∈ OBJECT_PROTOTYPE_KEYS <;> simp [h]
  | some e => simp

/-- The body of the loop only appends to the accumulator. -/
theorem getLegalMovesStep_append (d : Int) (mode : String) (acc : List Move) (t : Token) :
    getLegalMovesStep d mode acc t =
      match getLegalMovesStep d mode [] t with
      | .ok c => .ok (acc ++ c)
      | .error e => .error e := by
  unfold getLegalMovesStep
  by_cases h1 : t.position = -1
  · simp only [h1, if_true]
    cases canLeaveHome d mode
    · simp
    · cases colorStart t.color <;> simp
  · simp only [h1, if_false]
    split_ifs <;> simp

/-- Every move pushed for a token carries its id and position, and off home
its destination is the position plus the dice value. -/
theorem mem_getLegalMovesStep (d : Int) (mode : String) (t : Token) (c : List Move) (m : Move)
    (h : getLegalMovesStep d mode [] t = .ok c) (hm : m ∈ c) :
    m.tokenId = t.id ∧ m.from = t.position ∧ (m.from ≠ -1 → m.to = m.from + d) := by
  unfold getLegalMovesStep at h
  by_cases h1 : t.position = -1
  · simp only [h1, if_true] at h
    cases hc : canLeaveHome d mode
    · simp [hc] at h; subst h; simp at hm
    · cases he : colorStart t.color
      · simp [hc, he] at h
      · simp [hc, he] at h; subst h; simp at hm; subst hm; simp [h1]
  · simp only [h1, if_false] at h
    injection h with h
    subst h
    simp only [PATH_LENGTH, HOME_STRETCH_LENGTH] at hm
    split_ifs at hm <;> simp at hm <;>
      first
        | (exfalso; omega)
        | (subst hm; simp)

/-- A move pushed for a home token shows that the token may leave home. -/
theorem canLeaveHome_of_mem_home (d : Int) (mode : String) (t : Token) (c : List Move)
    (m : Move) (h : getLegalMovesStep d mode [] t = .ok c) (hm : m ∈ c)
    (hpos : t.position = -1) : canLeaveHome d mode = true := by
  unfold getLegalMovesStep at h
  simp only [hpos, if_true] at h
  cases hc : canLeaveHome d mode
  · simp [hc] at h; subst h; simp at hm
  · rfl

/-- The body of the loop returns exactly when it does not look up the start
cell of an unknown colour. -/
theorem getLegalMovesStep_returns_iff (d : Int) (mode : String) (acc : List Move) (t : Token) :
    (∃ c, getLegalMovesStep d mode acc t = .ok c) ↔
      (t.position = -1 → canLeaveHome d mode = true → (COLOR_POSITIONS t.color).isSome = true) := by
  unfold getLegalMovesStep
  by_cases h1 : t.position = -1
  · simp only [h1, if_true]
    cases canLeaveHome d mode
    · simp
    · rw [← colorStart_ok_iff]
      cases colorStart t.color <;> simp
  · simp [h1]

/-- What the loop returns: the accumulator followed by the moves pushed for
each token, and nothing else. -/
theorem getLegalMovesLoop_spec (d : Int) (mode : String) (toks : List Token) :
    ∀ (acc ms : List Move), getLegalMovesLoop d mode toks acc = .ok ms →
      ∃ cs, ms = acc ++ cs ∧
        ∀ m, m ∈ cs ↔ ∃ u ∈ toks, ∃ c, getLegalMovesStep d mode [] u = .ok c ∧ m ∈ c := by
  induction toks with
  | nil =>
    intro acc ms h
    simp [getLegalMovesLoop] at h
    exact ⟨[], by simp [h]⟩
  | cons t rest ih =>
    intro acc ms h
    rw [getLegalMovesLoop, getLegalMovesStep_append] at h
    cases hc : getLegalMovesStep d mode [] t with
    | error e =>
      cases e with
      | typeError => simp [hc] at h
      | undefinedPosition =>
        simp only [hc] at h
        split at h <;> cases h
    | ok c =>
      simp only [hc] at h
      obtain ⟨cs, hcs, hmem⟩ := ih (acc ++ c) ms h
      refine ⟨c ++ cs, by simp [hcs], fun m => ?_⟩
      simp only [List.mem_append, List.mem_cons, hmem]
      constructor
      · rintro (hm | ⟨u, hu, c1, hc1, hm⟩)
        · exact ⟨t, Or.inl rfl, c, hc, hm⟩
        · exact ⟨u, Or.inr hu, c1, hc1, hm⟩
      · rintro ⟨u, hu | hu, c1, hc1, hm⟩
        · subst hu
          rw [hc] at hc1
          injection hc1 with hc1
          subst hc1
          exact Or.inl hm
        · exact Or.inr ⟨u, hu, c1, hc1, hm⟩

/-- The loop returns exactly when its body returns for every token. -/
theorem getLegalMovesLoop_returns_iff (d : Int) (mode : String) (toks : List Token) :
    ∀ acc : List Move, (∃ ms, getLegalMovesLoop d mode toks acc = .ok ms) ↔
      ∀ u ∈ toks, ∃ c, getLegalMovesStep d mode [] u = .ok c := by
  induction toks with
  | nil => intro acc; simp [getLegalMovesLoop]
  | cons t rest ih =>
    intro acc
    rw [getLegalMovesLoop, getLegalMovesStep_append]
    cases hc : getLegalMovesStep d mode [] t with
    | error e =>
      cases e with
      | typeError => simp [hc]
      | undefinedPosition =>
        simp only [hc]
        constructor
        · rintro ⟨ms, hms⟩
          split at hms <;> cases hms
        · intro h
          obtain ⟨c, hc1⟩ := h t (List.mem_cons_self _ _)
          rw [hc] at hc1
          cases hc1
    | ok c => simp [hc, ih (acc ++ c)]

/-- Membership in the result of `getLegalMoves`. -/
theorem mem_getLegalMoves (tokens : List Token) (d : Int) (mode pid : String) (ms : List Move)
    (h : getLegalMoves tokens d mode pid = .ok ms) (m : Move) :
    m ∈ ms ↔ ∃ u ∈ tokens, u.playerId = pid ∧
      ∃ c, getLegalMovesStep d mode [] u = .ok c ∧ m ∈ c := by
  obtain ⟨cs, hcs, hmem⟩ := getLegalMovesLoop_spec d mode _ [] ms h
  simp only [List.nil_append] at hcs
  subst hcs
  rw [hmem]
  constructor
  · rintro ⟨u, hu, c, hc, hm⟩
    simp only [List.mem_filter, decide_eq_true_eq] at hu
    exact ⟨u, hu.1, hu.2, c, hc, hm⟩
  · rintro ⟨u, hu, hp, c, hc, hm⟩
    exact ⟨u, by simp [List.mem_filter, hu, hp], c, hc, hm⟩

/-- The function `getLegalMoves` returns exactly when no home token of the
player that may leave home has a colour missing from `COLOR_POSITIONS`. -/
theorem getLegalMoves_returns_iff (tokens : List Token) (d : Int) (mode pid : String) :
    (∃ ms, getLegalMoves tokens d mode pid = .ok ms) ↔
      ∀ u ∈ tokens, u.playerId = pid → u.position = -1 → canLeaveHome d mode = true →
        (COLOR_POSITIONS u.color).isSome = true := by
  unfold getLegalMoves
  rw [getLegalMovesLoop_returns_iff]
  simp only [List.mem_filter, decide_eq_true_eq, getLegalMovesStep_returns_iff]
  constructor
  · intro h u hu hp
    exact h u ⟨hu, hp⟩
  · rintro h u ⟨hu, hp⟩
    exact h u hu hp

/-- The body of the loop throws exactly for a home token that may leave
home and whose colour is neither a key of `COLOR_POSITIONS` nor a name
inherited from `Object.prototype`. -/
theorem getLegalMovesStep_typeError_iff (d : Int) (mode : String) (acc : List Move) (t : Token) :
    getLegalMovesStep d mode acc t = .error .typeError ↔
      (t.position = -1 ∧ canLeaveHome d mode = true ∧
        COLOR_POSITIONS t.color = none ∧ t.color ∉ OBJECT_PROTOTYPE_KEYS) := by
  rw [← colorStart_typeError_iff]
  unfold getLegalMovesStep
  by_cases h1 : t.position = -1
  · simp only [h1, if_true, true_and]
    cases canLeaveHome d mode
    · simp
    · cases hcs : colorStart t.color with
      | error e => cases e <;> simp
      | ok start => simp
  · simp [h1]

/-- The loop throws exactly when its body throws for one of the tokens. -/
theorem getLegalMovesLoop_typeError_iff (d : Int) (mode : String) (toks : List Token) :
    ∀ acc : List Move, getLegalMovesLoop d mode toks acc = .error .typeError ↔
      ∃ u ∈ toks, getLegalMovesStep d mode [] u = .error .typeError := by
  induction toks with
  | nil => intro acc; simp [getLegalMovesLoop]
  | cons t rest ih =>
    intro acc
    rw [getLegalMovesLoop, getLegalMovesStep_append]
    cases hc : getLegalMovesStep d mode [] t with
    | error e =>
      cases e with
      | typeError => simp [hc]
      | undefinedPosition =>
        simp only [List.mem_cons, exists_eq_or_imp, hc]
        rw [← ih acc]
        constructor
        · intro h
          split at h
          · next heq => exact Or.inr heq
          · cases h
        · rintro (h | h)
          · cases h
          · rw [h]
    | ok c =>
      simp only [List.mem_cons, exists_eq_or_imp, hc]
      rw [ih (acc ++ c)]
      simp

/-- The function `getLegalMoves` throws exactly when some home token of the
player that may leave home has a colour that is neither a key of
`COLOR_POSITIONS` nor a name inherited from `Object.prototype`. -/
theorem getLegalMoves_typeError_iff (tokens : List Token) (d : Int) (mode pid : String) :
    getLegalMoves tokens d mode pid = .error .typeError ↔
      ∃ u ∈ tokens, u.playerId = pid ∧ u.position = -1 ∧ canLeaveHome d mode = true ∧
        COLOR_POSITIONS u.color = none ∧ u.color ∉ OBJECT_PROTOTYPE_KEYS := by
  unfold getLegalMoves
  rw [getLegalMovesLoop_typeError_iff]
  simp only [List.mem_filter, decide_eq_true_eq, getLegalMovesStep_typeError_iff]
  constructor
  · rintro ⟨u, ⟨hu, hp⟩, h⟩
    exact ⟨u, hu, hp, h⟩
  · rintro ⟨u, hu, hp, h⟩
    exact ⟨u, ⟨hu, hp⟩, h⟩

/-- The four colour names are keys of `COLOR_POSITIONS`. -/
theorem COLOR_POSITIONS_isSome_of_mem (c : String)
    (h : c ∈ ["red", "blue", "yellow", "green"]) : (COLOR_POSITIONS c).isSome = true := by
  simp only [List.mem_cons, List.mem_singleton, List.not_mem_nil, or_false] at h
  rcases h with h | h | h | h <;> subst h <;> decide

/-- The start cell of a key of `COLOR_POSITIONS` lies on the ring. -/
theorem COLOR_POSITIONS_start_range (c : String) (e : ColorEntry)
    (h : COLOR_POSITIONS c = some e) : 0 ≤ e.start ∧ e.start < 52 := by
  unfold COLOR_POSITIONS at h
  split_ifs at h <;> simp at h <;> subst h <;> simp

/-- Off home the body of the loop reads only the id and the position. -/
theorem getLegalMovesStep_congr (d : Int) (mode : String) (acc : List Move) (u t : Token)
    (hid : u.id = t.id) (hpos : u.position = t.position) (hne : t.position ≠ -1) :
    getLegalMovesStep d mode acc u = getLegalMovesStep d mode acc t := by
  unfold getLegalMovesStep
  simp [hid, hpos, hne]

/-- The moves pushed for a home token with a known colour. -/
theorem getLegalMovesStep_home (d : Int) (mode : String) (t : Token) (e : ColorEntry)
    (hpos : t.position = -1) (he : COLOR_POSITIONS t.color = some e) :
    getLegalMovesStep d mode [] t =
      .ok (if canLeaveHome d mode = true then [⟨t.id, -1, e.start⟩] else []) := by
  unfold getLegalMovesStep
  cases hc : canLeaveHome d mode <;> simp [hpos, colorStart_of_some t.color e he]

/-- The moves pushed for a token on the main path. -/
theorem getLegalMovesStep_path (d : Int) (mode : String) (t : Token)
    (hne : t.position ≠ -1) (hlt : t.position < 52) :
    getLegalMovesStep d mode [] t =
      .ok (if 52 ≤ t.position + d then
            (if canEnterFinish t.position d mode = true
              then [⟨t.id, t.position, 52 + (t.position + d - 52)⟩] else [])
          else [⟨t.id, t.position, t.position + d⟩]) := by
  unfold getLegalMovesStep
  have h2 : ¬ (t.position ≥ 52 ∧ t.position < 52 + 6) := by omega
  simp only [PATH_LENGTH, HOME_STRETCH_LENGTH, hne, hlt, h2, if_true, if_false, ge_iff_le]
  split_ifs <;> simp

/-- The moves pushed for a token in the finish stretch or at the finish. -/
theorem getLegalMovesStep_stretch (d : Int) (mode : String) (t : Token)
    (hge : 52 ≤ t.position) :
    getLegalMovesStep d mode [] t =
      .ok (if t.position < 58 ∧ t.position + d ≤ 58
            then [⟨t.id, t.position, t.position + d⟩] else []) := by
  unfold getLegalMovesStep
  have h1 : t.position ≠ -1 := by omega
  have h2 : ¬ t.position < 52 := by omega
  simp only [PATH_LENGTH, HOME_STRETCH_LENGTH, h1, h2, if_false]
  by_cases h3 : t.position < 58
  · have h4 : t.position ≥ 52 ∧ t.position < 52 + 6 := by omega
    by_cases h5 : t.position + d ≤ 58
    · have h6 : t.position + d ≤ 52 + 6 := by omega
      simp [h3, h4, h5, h6]
    · have h6 : ¬ t.position + d ≤ 52 + 6 := by omega
      simp [h4, h5, h6]
  · have h4 : ¬ (t.position ≥ 52 ∧ t.position < 52 + 6) := by omega
    simp [h3, h4]

/-- Off home, the moves of the result that carry a token's id and position
are exactly the moves pushed for that token. -/
theorem getLegalMoves_moves_of_token (tokens : List Token) (d : Int) (mode pid : String)
    (ms c : List Move) (t : Token) (hok : getLegalMoves tokens d mode pid = .ok ms)
    (ht : t ∈ tokens) (hp : t.playerId = pid) (hne : t.position ≠ -1)
    (hc : getLegalMovesStep d mode [] t = .ok c) (m : Move) :
    (m ∈ ms ∧ m.tokenId = t.id ∧ m.from = t.position) ↔ m ∈ c := by
  constructor
  · rintro ⟨hm, hid, hfrom⟩
    obtain ⟨u, _, _, cu, hcu, hmu⟩ := (mem_getLegalMoves tokens d mode pid ms hok m).1 hm
    obtain ⟨h1, h2, _⟩ := mem_getLegalMovesStep d mode u cu m hcu hmu
    rw [getLegalMovesStep_congr d mode [] u t (by rw [← h1, hid]) (by rw [← h2, hfrom]) hne,
      hc] at hcu
    injection hcu with hcu
    rw [hcu]
    exact hmu
  · intro hm
    obtain ⟨h1, h2, _⟩ := mem_getLegalMovesStep d mode t c m hc hm
    exact ⟨(mem_getLegalMoves tokens d mode pid ms hok m).2 ⟨t, ht, hp, c, hc, hm⟩, h1, h2⟩

/-- The function returns when every home token of the player has one of
the four colours. -/
theorem getLegalMoves_returns_of_home_colors (tokens : List Token) (d : Int) (mode pid : String)
    (hhome : ∀ u ∈ tokens, u.playerId = pid → u.position = -1 →
      u.color ∈ ["red", "blue", "yellow", "green"]) :
    ∃ ms, getLegalMoves tokens d mode pid = .ok ms :=
  (getLegalMoves_returns_iff tokens d mode pid).2
    (fun u hu hp hpos _ => COLOR_POSITIONS_isSome_of_mem u.color (hhome u hu hp hpos))

/-- Classic and speed are not the quick mode. -/
theorem ne_quick_of_classic_or_speed (mode : String)
    (h : mode = GAME_MODES_CLASSIC ∨ mode = GAME_MODES_SPEED) : mode ≠ GAME_MODES_QUICK := by
  rcases h with h | h <;> subst h <;> decide

/-! ## Claims on move generation -/

/-- C1: `isValidMove(state, move, diceValue, mode)` is true if and only if
`getLegalMoves(state.tokens, diceValue, mode, state.currentPlayerId)` returns
a list that contains a move with the same tokenId, from and to. -/
theorem isValidMove_iff_mem_getLegalMoves (state : GameState) (move : Move) (diceValue : Int)
    (mode : String) :
    isValidMove state move diceValue mode = .ok true ↔
      ∃ legalMoves, getLegalMoves state.tokens diceValue mode state.currentPlayerId
          = .ok legalMoves ∧
        ∃ legal ∈ legalMoves,
          legal.tokenId = move.tokenId ∧ legal.from = move.from ∧ legal.to = move.to := by
  unfold isValidMove
  cases h : getLegalMoves state.tokens diceValue mode state.currentPlayerId with
  | error e => simp
  | ok legalMoves => simp [List.any_eq_true]

/-- C2: when every position lies in [-1, 58], every colour is one of the
four and the dice value is in 1..6, `getLegalMoves` returns, and each move
has 0 <= to <= 58; a move from home lands on the ring (0 <= to < 52) and a
move from the home stretch stays in [52, 58]. -/
theorem getLegalMoves_destination_in_range (tokens : List Token) (diceValue : Int)
    (mode currentPlayerId : String)
    (hpos : ∀ t ∈ tokens, -1 ≤ t.position ∧ t.position ≤ 58)
    (hcol : ∀ t ∈ tokens, t.color ∈ ["red", "blue", "yellow", "green"])
    (hd : 1 ≤ diceValue ∧ diceValue ≤ 6) :
    ∃ ms, getLegalMoves tokens diceValue mode currentPlayerId = .ok ms ∧
      ∀ m ∈ ms,
        (0 ≤ m.to ∧ m.to ≤ PATH_LENGTH + HOME_STRETCH_LENGTH) ∧
        (m.from = -1 → 0 ≤ m.to ∧ m.to < PATH_LENGTH) ∧
        (PATH_LENGTH ≤ m.from → PATH_LENGTH ≤ m.to ∧ m.to ≤ PATH_LENGTH + HOME_STRETCH_LENGTH) := by
  obtain ⟨ms, hok⟩ := getLegalMoves_returns_of_home_colors tokens diceValue mode currentPlayerId
    (fun u hu _ _ => hcol u hu)
  refine ⟨ms, hok, fun m hm => ?_⟩
  obtain ⟨u, hu, _, c, hc, hmc⟩ :=
    (mem_getLegalMoves tokens diceValue mode currentPlayerId ms hok m).1 hm
  obtain ⟨_, hfrom, hto⟩ := mem_getLegalMovesStep diceValue mode u c m hc hmc
  have hup := hpos u hu
  simp only [PATH_LENGTH, HOME_STRETCH_LENGTH]
  by_cases h1 : u.position = -1
  · obtain ⟨e, he⟩ := Option.isSome_iff_exists.1 (COLOR_POSITIONS_isSome_of_mem u.color (hcol u hu))
    rw [getLegalMovesStep_home diceValue mode u e h1 he] at hc
    injection hc with hc
    have hr := COLOR_POSITIONS_start_range u.color e he
    subst hc
    split_ifs at hmc
    · simp only [List.mem_singleton] at hmc
      subst hmc
      simp only
      omega
    · simp at hmc
  · have hto1 := hto (by rw [hfrom]; exact h1)
    by_cases h2 : u.position < 52
    · rw [getLegalMovesStep_path diceValue mode u h1 h2] at hc
      injection hc with hc
      subst hc
      split_ifs at hmc with h3 h4
      · simp only [List.mem_singleton] at hmc
        subst hmc
        simp only
        omega
      · simp at hmc
      · simp only [List.mem_singleton] at hmc
        subst hmc
        simp only
        omega
    · rw [getLegalMovesStep_stretch diceValue mode u (by omega)] at hc
      injection hc with hc
      subst hc
      split_ifs at hmc with h3
      · simp only [List.mem_singleton] at hmc
        subst hmc
        simp only
        omega
      · simp at hmc

/-- C2 at the sample position, dice value 6, quick mode. -/
theorem getLegalMoves_destination_in_range_witness :
    ∃ ms, getLegalMoves sampleTokens 6 "quick" "p1" = .ok ms ∧
      ∀ m ∈ ms,
        (0 ≤ m.to ∧ m.to ≤ PATH_LENGTH + HOME_STRETCH_LENGTH) ∧
        (m.from = -1 → 0 ≤ m.to ∧ m.to < PATH_LENGTH) ∧
        (PATH_LENGTH ≤ m.from → PATH_LENGTH ≤ m.to ∧ m.to ≤ PATH_LENGTH + HOME_STRETCH_LENGTH) :=
  getLegalMoves_destination_in_range sampleTokens 6 "quick" "p1"
    (by decide) (by decide) (by decide)

/-- C3: for a home token (position -1) of the active player with one of the
four colours: `getLegalMoves` returns whenever every home token of the
player has such a colour, and in every list it returns: in classic and
speed mode there is a move for that token if and only if diceValue = 6 (none
for diceValue = 4), and the move is from -1 to the start cell of the colour
(red 0, blue 13, yellow 26, green 39); in quick mode that move is present
for every dice value. With pairwise distinct token ids it is the only move
carrying the id of the token. -/
theorem getLegalMoves_home_token (tokens : List Token) (t : Token) (diceValue : Int)
    (mode currentPlayerId : String)
    (ht : t ∈ tokens) (hp : t.playerId = currentPlayerId) (hpos : t.position = -1)
    (hcol : t.color ∈ ["red", "blue", "yellow", "green"]) :
    ((∀ u ∈ tokens, u.playerId = currentPlayerId → u.position = -1 →
        u.color ∈ ["red", "blue", "yellow", "green"]) →
      ∃ ms, getLegalMoves tokens diceValue mode currentPlayerId = .ok ms) ∧
    ∃ e, COLOR_POSITIONS t.color = some e ∧
      e.start = (if t.color = "red" then 0 else if t.color = "blue" then 13
        else if t.color = "yellow" then 26 else 39) ∧
      ∀ ms, getLegalMoves tokens diceValue mode currentPlayerId = .ok ms →
        ((mode = GAME_MODES_CLASSIC ∨ mode = GAME_MODES_SPEED) →
          ((∃ m ∈ ms, m.tokenId = t.id ∧ m.from = -1) ↔ diceValue = 6) ∧
          ((⟨t.id, -1, e.start⟩ : Move) ∈ ms ↔ diceValue = 6) ∧
          (diceValue = 4 → ∀ m ∈ ms, ¬ (m.tokenId = t.id ∧ m.from = -1))) ∧
        (mode = GAME_MODES_QUICK → (⟨t.id, -1, e.start⟩ : Move) ∈ ms) ∧
        ((tokens.map (fun u => u.id)).Nodup →
          ∀ m ∈ ms, m.tokenId = t.id → m = ⟨t.id, -1, e.start⟩) := by
  refine ⟨getLegalMoves_returns_of_home_colors tokens diceValue mode currentPlayerId, ?_⟩
  obtain ⟨e, he⟩ := Option.isSome_iff_exists.1 (COLOR_POSITIONS_isSome_of_mem t.color hcol)
  have hstep := getLegalMovesStep_home diceValue mode t e hpos he
  have hstart : e.start = (if t.color = "red" then 0 else if t.color = "blue" then 13
      else if t.color = "yellow" then 26 else 39) := by
    unfold COLOR_POSITIONS at he
    split_ifs at he ⊢ <;> simp at he <;> subst he <;> rfl
  refine ⟨e, he, hstart, fun ms hok => ?_⟩
  -- a move with from = -1 only comes from a home token that may leave home
  have hleave : ∀ m ∈ ms, m.from = -1 → canLeaveHome diceValue mode = true := by
    intro m hm hfrom
    obtain ⟨u, hu, hup, c, hc, hmc⟩ :=
      (mem_getLegalMoves tokens diceValue mode currentPlayerId ms hok m).1 hm
    obtain ⟨_, h2, _⟩ := mem_getLegalMovesStep diceValue mode u c m hc hmc
    have hu1 : u.position = -1 := by rw [← h2, hfrom]
    exact canLeaveHome_of_mem_home diceValue mode u c m hc hmc hu1
  have hmem : canLeaveHome diceValue mode = true → (⟨t.id, -1, e.start⟩ : Move) ∈ ms := by
    intro hcl
    refine (mem_getLegalMoves tokens diceValue mode currentPlayerId ms hok _).2
      ⟨t, ht, hp, _, hstep, ?_⟩
    simp [hcl]
  refine ⟨?_, ?_, ?_⟩
  · intro hmode
    have hq := ne_quick_of_classic_or_speed mode hmode
    have hcl : canLeaveHome diceValue mode = true ↔ diceValue = 6 := by
      simp [canLeaveHome, hq]
    refine ⟨⟨?_, ?_⟩, ⟨?_, ?_⟩, ?_⟩
    · rintro ⟨m, hm, _, hfrom⟩
      exact hcl.1 (hleave m hm hfrom)
    · intro h6
      exact ⟨_, hmem (hcl.2 h6), rfl, rfl⟩
    · intro hm
      exact hcl.1 (hleave _ hm rfl)
    · intro h6
      exact hmem (hcl.2 h6)
    · rintro h4 m hm ⟨_, hfrom⟩
      have := hcl.1 (hleave m hm hfrom)
      omega
  · intro hmode
    exact hmem (by simp [canLeaveHome, hmode])
  · intro hnodup m hm hid
    obtain ⟨u, hu, _, c, hc, hmc⟩ :=
      (mem_getLegalMoves tokens diceValue mode currentPlayerId ms hok m).1 hm
    obtain ⟨h1, _, _⟩ := mem_getLegalMovesStep diceValue mode u c m hc hmc
    have hut : u = t :=
      List.inj_on_of_nodup_map hnodup hu ht (by rw [← h1, hid])
    subst hut
    rw [hstep] at hc
    injection hc with hc
    subst hc
    split_ifs at hmc
    · simpa using hmc
    · simp at hmc

/-- C3 at the sample position: the home token `p1-0`, dice value 6, classic mode. -/
theorem getLegalMoves_home_token_witness :
    ((∀ u ∈ sampleTokens, u.playerId = "p1" → u.position = -1 →
        u.color ∈ ["red", "blue", "yellow", "green"]) →
      ∃ ms, getLegalMoves sampleTokens 6 "classic" "p1" = .ok ms) ∧
    ∃ e, COLOR_POSITIONS "red" = some e ∧
      e.start = 0 ∧
      ∀ ms, getLegalMoves sampleTokens 6 "classic" "p1" = .ok ms →
        (("classic" = GAME_MODES_CLASSIC ∨ "classic" = GAME_MODES_SPEED) →
          ((∃ m ∈ ms, m.tokenId = "p1-0" ∧ m.from = -1) ↔ (6 : Int) = 6) ∧
          ((⟨"p1-0", -1, e.start⟩ : Move) ∈ ms ↔ (6 : Int) = 6) ∧
          ((6 : Int) = 4 → ∀ m ∈ ms, ¬ (m.tokenId = "p1-0" ∧ m.from = -1))) ∧
        ("classic" = GAME_MODES_QUICK → (⟨"p1-0", -1, e.start⟩ : Move) ∈ ms) ∧
        ((sampleTokens.map (fun u => u.id)).Nodup →
          ∀ m ∈ ms, m.tokenId = "p1-0" → m = ⟨"p1-0", -1, e.start⟩) :=
  getLegalMoves_home_token sampleTokens ⟨"p1-0", "p1", "red", -1⟩ 6 "classic" "p1"
    (by decide) (by decide) (by decide) (by decide)

/-- C4: in classic and speed mode, for a token of the active player on the
ring at position p (0 <= p < 52) and a dice value d (in 1..6, or any other)
with p + d >= 52, `getLegalMoves` returns a move for that token if and only
if d = 52 - p, and its destination is 52; when p + d < 52 the token gets the
move to p + d in every mode. The function returns whenever every home token
of the player has one of the four colours, and the above holds of every list
it returns. -/
theorem getLegalMoves_path_token (tokens : List Token) (t : Token) (diceValue : Int)
    (mode currentPlayerId : String)
    (ht : t ∈ tokens) (hp : t.playerId = currentPlayerId)
    (hpos : 0 ≤ t.position ∧ t.position < 52) :
    ((∀ u ∈ tokens, u.playerId = currentPlayerId → u.position = -1 →
        u.color ∈ ["red", "blue", "yellow", "green"]) →
      ∃ ms, getLegalMoves tokens diceValue mode currentPlayerId = .ok ms) ∧
    ∀ ms, getLegalMoves tokens diceValue mode currentPlayerId = .ok ms →
      ((mode = GAME_MODES_CLASSIC ∨ mode = GAME_MODES_SPEED) → 52 ≤ t.position + diceValue →
        ((∃ m ∈ ms, m.tokenId = t.id ∧ m.from = t.position) ↔ diceValue = 52 - t.position) ∧
        (∀ m ∈ ms, m.tokenId = t.id → m.from = t.position → m.to = 52)) ∧
      (t.position + diceValue < 52 →
        (⟨t.id, t.position, t.position + diceValue⟩ : Move) ∈ ms ∧
        (∀ m ∈ ms, m.tokenId = t.id → m.from = t.position →
          m.to = t.position + diceValue)) := by
  refine ⟨getLegalMoves_returns_of_home_colors tokens diceValue mode currentPlayerId,
    fun ms hok => ?_⟩
  have hne : t.position ≠ -1 := by omega
  have hiff := getLegalMoves_moves_of_token tokens diceValue mode currentPlayerId ms _ t hok
    ht hp hne (getLegalMovesStep_path diceValue mode t hne hpos.2)
  refine ⟨?_, ?_⟩
  · intro hmode hge
    have hq := ne_quick_of_classic_or_speed mode hmode
    have hfin : canEnterFinish t.position diceValue mode = true ↔
        diceValue = 52 - t.position := by
      simp [canEnterFinish, hq, PATH_LENGTH]
    simp only [hge, if_true] at hiff
    refine ⟨⟨?_, ?_⟩, ?_⟩
    · rintro ⟨m, hm, hid, hfrom⟩
      have := (hiff m).1 ⟨hm, hid, hfrom⟩
      by_contra hcon
      rw [if_neg (fun h => hcon (hfin.1 h))] at this
      simp at this
    · intro hdv
      refine ⟨⟨t.id, t.position, 52 + (t.position + diceValue - 52)⟩, ?_, rfl, rfl⟩
      refine ((hiff _).2 ?_).1
      rw [if_pos (hfin.2 hdv)]
      simp
    · intro m hm hid hfrom
      have := (hiff m).1 ⟨hm, hid, hfrom⟩
      split_ifs at this with h1
      · simp only [List.mem_singleton] at this
        have hdv := hfin.1 h1
        subst this
        simp only
        omega
      · simp at this
  · intro hlt
    have hnot : ¬ 52 ≤ t.position + diceValue := by omega
    simp only [hnot, if_false, List.mem_singleton] at hiff
    refine ⟨((hiff _).2 rfl).1, ?_⟩
    intro m hm hid hfrom
    rw [(hiff m).1 ⟨hm, hid, hfrom⟩]

/-- C4 at the sample position: token `p1-1` at 50, dice value 4, classic
mode (no move: exact 2 required). -/
theorem getLegalMoves_path_token_witness :
    ((∀ u ∈ sampleTokens, u.playerId = "p1" → u.position = -1 →
        u.color ∈ ["red", "blue", "yellow", "green"]) →
      ∃ ms, getLegalMoves sampleTokens 4 "classic" "p1" = .ok ms) ∧
    ∀ ms, getLegalMoves sampleTokens 4 "classic" "p1" = .ok ms →
      (("classic" = GAME_MODES_CLASSIC ∨ "classic" = GAME_MODES_SPEED) → (52 : Int) ≤ 50 + 4 →
        ((∃ m ∈ ms, m.tokenId = "p1-1" ∧ m.from = 50) ↔ (4 : Int) = 52 - 50) ∧
        (∀ m ∈ ms, m.tokenId = "p1-1" → m.from = 50 → m.to = 52)) ∧
      ((50 : Int) + 4 < 52 →
        (⟨"p1-1", 50, 50 + 4⟩ : Move) ∈ ms ∧
        (∀ m ∈ ms, m.tokenId = "p1-1" → m.from = 50 → m.to = 50 + 4)) :=
  getLegalMoves_path_token sampleTokens ⟨"p1-1", "p1", "red", 50⟩ 4 "classic" "p1"
    (by decide) (by decide) (by decide)

/-- C5: in quick mode, for a token of the active player on the ring at
position p (0 <= p < 52) and a dice value d in 1..6 with p + d >= 52,
`getLegalMoves` returns a move for that token, with destination
52 + (p + d - 52), which lies in [52, 57]. The function returns whenever
every home token of the player has one of the four colours, and every list
it returns holds that move. -/
theorem getLegalMoves_path_token_quick (tokens : List Token) (t : Token) (diceValue : Int)
    (currentPlayerId : String)
    (ht : t ∈ tokens) (hp : t.playerId = currentPlayerId)
    (hpos : 0 ≤ t.position ∧ t.position < 52) (hd : 1 ≤ diceValue ∧ diceValue ≤ 6)
    (hge : 52 ≤ t.position + diceValue) :
    ((∀ u ∈ tokens, u.playerId = currentPlayerId → u.position = -1 →
        u.color ∈ ["red", "blue", "yellow", "green"]) →
      ∃ ms, getLegalMoves tokens diceValue GAME_MODES_QUICK currentPlayerId = .ok ms) ∧
    (∀ ms, getLegalMoves tokens diceValue GAME_MODES_QUICK currentPlayerId = .ok ms →
      (⟨t.id, t.position, 52 + (t.position + diceValue - 52)⟩ : Move) ∈ ms ∧
      (∀ m ∈ ms, m.tokenId = t.id → m.from = t.position →
        m.to = 52 + (t.position + diceValue - 52))) ∧
    52 ≤ 52 + (t.position + diceValue - 52) ∧ 52 + (t.position + diceValue - 52) ≤ 57 := by
  refine ⟨getLegalMoves_returns_of_home_colors tokens diceValue GAME_MODES_QUICK
    currentPlayerId, fun ms hok => ?_, by omega, by omega⟩
  have hne : t.position ≠ -1 := by omega
  have hiff := getLegalMoves_moves_of_token tokens diceValue GAME_MODES_QUICK currentPlayerId
    ms _ t hok ht hp hne (getLegalMovesStep_path diceValue GAME_MODES_QUICK t hne hpos.2)
  have hfin : canEnterFinish t.position diceValue GAME_MODES_QUICK = true := by
    simp only [canEnterFinish, PATH_LENGTH, if_true, decide_eq_true_eq]
    omega
  simp only [hge, hfin, if_true, List.mem_singleton] at hiff
  refine ⟨((hiff _).2 rfl).1, ?_⟩
  intro m hm hid hfrom
  rw [(hiff m).1 ⟨hm, hid, hfrom⟩]

/-- C5 at the sample position: token `p1-1` at 50, dice value 4, quick mode
(destination 54). -/
theorem getLegalMoves_path_token_quick_witness :
    ((∀ u ∈ sampleTokens, u.playerId = "p1" → u.position = -1 →
        u.color ∈ ["red", "blue", "yellow", "green"]) →
      ∃ ms, getLegalMoves sampleTokens 4 GAME_MODES_QUICK "p1" = .ok ms) ∧
    (∀ ms, getLegalMoves sampleTokens 4 GAME_MODES_QUICK "p1" = .ok ms →
      (⟨"p1-1", 50, 52 + (50 + 4 - 52)⟩ : Move) ∈ ms ∧
      (∀ m ∈ ms, m.tokenId = "p1-1" → m.from = 50 → m.to = 52 + (50 + 4 - 52))) ∧
    (52 : Int) ≤ 52 + (50 + 4 - 52) ∧ (52 : Int) + (50 + 4 - 52) ≤ 57 :=
  getLegalMoves_path_token_quick sampleTokens ⟨"p1-1", "p1", "red", 50⟩ 4 "p1"
    (by decide) (by decide) (by decide) (by decide) (by decide)

/-- C6: in every mode, for a token of the active player in the home
stretch at position p (52 <= p < 58) and a dice value d, `getLegalMoves`
returns a move for that token if and only if p + d <= 58, and its
destination is p + d; a token at the finish value 58 contributes no move.
The function returns whenever every home token of the player has one of the
four colours, and the above holds of every list it returns. -/
theorem getLegalMoves_stretch_token (tokens : List Token) (t : Token) (diceValue : Int)
    (mode currentPlayerId : String)
    (ht : t ∈ tokens) (hp : t.playerId = currentPlayerId)
    (hpos : 52 ≤ t.position ∧ t.position ≤ 58) :
    ((∀ u ∈ tokens, u.playerId = currentPlayerId → u.position = -1 →
        u.color ∈ ["red", "blue", "yellow", "green"]) →
      ∃ ms, getLegalMoves tokens diceValue mode currentPlayerId = .ok ms) ∧
    ∀ ms, getLegalMoves tokens diceValue mode currentPlayerId = .ok ms →
      (t.position < 58 →
        ((∃ m ∈ ms, m.tokenId = t.id ∧ m.from = t.position) ↔ t.position + diceValue ≤ 58) ∧
        (t.position + diceValue ≤ 58 →
          (⟨t.id, t.position, t.position + diceValue⟩ : Move) ∈ ms) ∧
        (∀ m ∈ ms, m.tokenId = t.id → m.from = t.position →
          m.to = t.position + diceValue)) ∧
      (t.position = 58 → ∀ m ∈ ms, ¬ (m.tokenId = t.id ∧ m.from = t.position)) := by
  refine ⟨getLegalMoves_returns_of_home_colors tokens diceValue mode currentPlayerId,
    fun ms hok => ?_⟩
  have hne : t.position ≠ -1 := by omega
  have hiff := getLegalMoves_moves_of_token tokens diceValue mode currentPlayerId ms _ t hok
    ht hp hne (getLegalMovesStep_stretch diceValue mode t hpos.1)
  refine ⟨?_, ?_⟩
  · intro hlt
    simp only [hlt, true_and] at hiff
    refine ⟨⟨?_, ?_⟩, ?_, ?_⟩
    · rintro ⟨m, hm, hid, hfrom⟩
      have := (hiff m).1 ⟨hm, hid, hfrom⟩
      by_contra hcon
      rw [if_neg hcon] at this
      simp at this
    · intro hle
      refine ⟨⟨t.id, t.position, t.position + diceValue⟩, ?_, rfl, rfl⟩
      refine ((hiff _).2 ?_).1
      rw [if_pos hle]
      simp
    · intro hle
      refine ((hiff _).2 ?_).1
      rw [if_pos hle]
      simp
    · intro m hm hid hfrom
      have := (hiff m).1 ⟨hm, hid, hfrom⟩
      split_ifs at this
      · simp only [List.mem_singleton] at this
        rw [this]
      · simp at this
  · rintro h58 m hm ⟨hid, hfrom⟩
    have := (hiff m).1 ⟨hm, hid, hfrom⟩
    have hnot : ¬ (t.position < 58 ∧ t.position + diceValue ≤ 58) := by omega
    rw [if_neg hnot] at this
    simp at this

/-- C6 at the sample position: token `p1-2` at 55, dice value 3, classic mode. -/
theorem getLegalMoves_stretch_token_witness :
    ((∀ u ∈ sampleTokens, u.playerId = "p1" → u.position = -1 →
        u.color ∈ ["red", "blue", "yellow", "green"]) →
      ∃ ms, getLegalMoves sampleTokens 3 "classic" "p1" = .ok ms) ∧
    ∀ ms, getLegalMoves sampleTokens 3 "classic" "p1" = .ok ms →
      ((55 : Int) < 58 →
        ((∃ m ∈ ms, m.tokenId = "p1-2" ∧ m.from = 55) ↔ (55 : Int) + 3 ≤ 58) ∧
        ((55 : Int) + 3 ≤ 58 → (⟨"p1-2", 55, 55 + 3⟩ : Move) ∈ ms) ∧
        (∀ m ∈ ms, m.tokenId = "p1-2" → m.from = 55 → m.to = 55 + 3)) ∧
      ((55 : Int) = 58 → ∀ m ∈ ms, ¬ (m.tokenId = "p1-2" ∧ m.from = 55)) :=
  getLegalMoves_stretch_token sampleTokens ⟨"p1-2", "p1", "red", 55⟩ 3 "classic" "p1"
    (by decide) (by decide) (by decide)

/-- C7: every move m returned by `getLegalMoves` corresponds to a token t of
the list with t.id = m.tokenId, t.playerId = the given player id and
t.position = m.from; and whenever m.from is not -1, m.to = m.from + diceValue. -/
theorem getLegalMoves_move_of_token (tokens : List Token) (diceValue : Int)
    (mode currentPlayerId : String) (ms : List Move)
    (hok : getLegalMoves tokens diceValue mode currentPlayerId = .ok ms) :
    ∀ m ∈ ms,
      (∃ t ∈ tokens, t.id = m.tokenId ∧ t.playerId = currentPlayerId ∧ t.position = m.from) ∧
      (m.from ≠ -1 → m.to = m.from + diceValue) := by
  intro m hm
  obtain ⟨u, hu, hup, c, hc, hmc⟩ :=
    (mem_getLegalMoves tokens diceValue mode currentPlayerId ms hok m).1 hm
  obtain ⟨h1, h2, h3⟩ := mem_getLegalMovesStep diceValue mode u c m hc hmc
  exact ⟨⟨u, hu, h1.symm, hup, h2.symm⟩, h3⟩

/-- C7 at the sample position: dice value 6, quick mode, where the result
holds a move from home and an overshoot into the home stretch. -/
theorem getLegalMoves_move_of_token_witness :
    getLegalMoves sampleTokens 6 "quick" "p1"
        = .ok [⟨"p1-0", -1, 0⟩, ⟨"p1-1", 50, 56⟩] ∧
      ∀ m ∈ [(⟨"p1-0", -1, 0⟩ : Move), ⟨"p1-1", 50, 56⟩],
        (∃ t ∈ sampleTokens, t.id = m.tokenId ∧ t.playerId = "p1" ∧ t.position = m.from) ∧
        (m.from ≠ -1 → m.to = m.from + 6) :=
  ⟨by decide, getLegalMoves_move_of_token sampleTokens 6 "quick" "p1" _ (by decide)⟩

/-- C8 (as amended): for every token list, dice value, mode and player id,
`getLegalMoves` returns a list of moves with numeric destinations exactly
when every home token of the player that may leave home has a colour that
is a key of `COLOR_POSITIONS` (in particular whenever every home token of
the player has one of the four colours); it throws a `TypeError` exactly
when some such token has a colour that is neither a key of
`COLOR_POSITIONS` nor a property name inherited from `Object.prototype`;
in the remaining case, where some such token has a colour that is not a key
and every such colour is an inherited name, it does not throw, and the
list it returns holds a move with the destination `undefined`. -/
theorem getLegalMoves_total_iff (tokens : List Token) (diceValue : Int)
    (mode currentPlayerId : String) :
    ((∃ ms, getLegalMoves tokens diceValue mode currentPlayerId = .ok ms) ↔
      ∀ u ∈ tokens, u.playerId = currentPlayerId → u.position = -1 →
        canLeaveHome diceValue mode = true → (COLOR_POSITIONS u.color).isSome = true) ∧
    (getLegalMoves tokens diceValue mode currentPlayerId = .error .typeError ↔
      ∃ u ∈ tokens, u.playerId = currentPlayerId ∧ u.position = -1 ∧
        canLeaveHome diceValue mode = true ∧
        COLOR_POSITIONS u.color = none ∧ u.color ∉ OBJECT_PROTOTYPE_KEYS) ∧
    (getLegalMoves tokens diceValue mode currentPlayerId = .error .undefinedPosition ↔
      (∃ u ∈ tokens, u.playerId = currentPlayerId ∧ u.position = -1 ∧
        canLeaveHome diceValue mode = true ∧ COLOR_POSITIONS u.color = none) ∧
      (∀ u ∈ tokens, u.playerId = currentPlayerId → u.position = -1 →
        canLeaveHome diceValue mode = true → COLOR_POSITIONS u.color = none →
        u.color ∈ OBJECT_PROTOTYPE_KEYS)) ∧
    ((∀ u ∈ tokens, u.playerId = currentPlayerId → u.position = -1 →
        u.color ∈ ["red", "blue", "yellow", "green"]) →
      ∃ ms, getLegalMoves tokens diceValue mode currentPlayerId = .ok ms) := by
  have hok := getLegalMoves_returns_iff tokens diceValue mode currentPlayerId
  have hthrow := getLegalMoves_typeError_iff tokens diceValue mode currentPlayerId
  refine ⟨hok, hthrow, ?_,
    getLegalMoves_returns_of_home_colors tokens diceValue mode currentPlayerId⟩
  constructor
  · intro h
    constructor
    · by_contra hno
      have : ∃ ms, getLegalMoves tokens diceValue mode currentPlayerId = .ok ms := by
        rw [hok]
        intro u hu hp hpos hc
        cases hcol : COLOR_POSITIONS u.color with
        | none => exact absurd ⟨u, hu, hp, hpos, hc, hcol⟩ hno
        | some e => rfl
      obtain ⟨ms, hms⟩ := this
      rw [hms] at h
      cases h
    · intro u hu hp hpos hc hcol
      by_contra hkey
      have : getLegalMoves tokens diceValue mode currentPlayerId = .error .typeError :=
        hthrow.2 ⟨u, hu, hp, hpos, hc, hcol, hkey⟩
      rw [this] at h
      cases h
  · rintro ⟨⟨u, hu, hp, hpos, hc, hcol⟩, hall⟩
    cases hres : getLegalMoves tokens diceValue mode currentPlayerId with
    | ok ms =>
      have := hok.1 ⟨ms, hres⟩ u hu hp hpos hc
      rw [hcol] at this
      cases this
    | error e =>
      cases e with
      | undefinedPosition => rfl
      | typeError =>
        obtain ⟨v, hv, hvp, hvpos, hvc, hvcol, hvkey⟩ := hthrow.1 hres
        exact absurd (hall v hv hvp hvpos hvc hvcol) hvkey

/-- C8 as stated fails: a home token whose colour is neither a key of
`COLOR_POSITIONS` nor an inherited name makes `getLegalMoves` throw on a 6
in classic mode. -/
theorem getLegalMoves_throws_on_unknown_color :
    getLegalMoves [⟨"p1-0", "p1", "purple", -1⟩] 6 "classic" "p1" = .error .typeError ∧
      ¬ ∃ ms, getLegalMoves [⟨"p1-0", "p1", "purple", -1⟩] 6 "classic" "p1" = .ok ms := by
  have h : getLegalMoves [⟨"p1-0", "p1", "purple", -1⟩] 6 "classic" "p1"
      = .error .typeError := by decide
  refine ⟨h, ?_⟩
  rintro ⟨ms, hms⟩
  rw [h] at hms
  cases hms

/-- A home token whose colour is the inherited name 'constructor' or
'__proto__' does not make `getLegalMoves` throw: the move pushed for it has
an undefined destination. A token with an unknown colour further down the
list still makes it throw. -/
theorem getLegalMoves_inherited_color :
    getLegalMoves [⟨"p1-0", "p1", "constructor", -1⟩] 6 "classic" "p1"
      = .error .undefinedPosition ∧
    getLegalMoves [⟨"p1-0", "p1", "__proto__", -1⟩, ⟨"p1-1", "p1", "red", 4⟩] 6 "classic" "p1"
      = .error .undefinedPosition ∧
    getLegalMoves [⟨"p1-0", "p1", "constructor", -1⟩, ⟨"p1-1", "p1", "purple", -1⟩]
      6 "classic" "p1" = .error .typeError ∧
    getLegalMoves [⟨"p1-0", "p1", "constructor", -1⟩] 5 "classic" "p1" = .ok [] := by
  decide

/-! ## Lemmas on captures and move application -/

/-- A cell is safe exactly when it is a star cell. -/
theorem isSafeCell_iff (position : Int) : isSafeCell position = true ↔ position ∈ STAR_CELLS := by
  simp [isSafeCell]

/-- With a moving token found, the capture filter never throws and is the
plain filter on position and owner. -/
theorem filterExcept_captureFilter (moving : Token) (move : Move) (tokens : List Token) :
    filterExcept (captureFilter (some moving) move) tokens =
      .ok (tokens.filter (fun t => t.position = move.to ∧ t.playerId ≠ moving.playerId)) := by
  induction tokens with
  | nil => rfl
  | cons t rest ih =>
    rw [filterExcept, ih]
    by_cases h1 : t.position = move.to
    · by_cases h2 : t.playerId = moving.playerId <;> simp [captureFilter, h1, h2, List.filter_cons]
    · simp [captureFilter, h1, List.filter_cons]

/-- Repositioning keeps the length of the token list. -/
theorem length_setPositionOfFirst (id : String) (position : Int) (tokens : List Token) :
    (setPositionOfFirst id position tokens).length = tokens.length := by
  induction tokens with
  | nil => rfl
  | cons t rest ih =>
    unfold setPositionOfFirst
    split_ifs <;> simp [ih]

/-- Repositioning changes at most the position of a token with the given id,
index by index. -/
theorem getElem?_setPositionOfFirst (id : String) (position : Int) (tokens : List Token) :
    ∀ (i : Nat) (t1 : Token), (setPositionOfFirst id position tokens)[i]? = some t1 →
      ∃ t, tokens[i]? = some t ∧
        (t1 = t ∨ (t.id = id ∧ t1 = { t with position := position })) := by
  induction tokens with
  | nil => intro i t1 h; simp [setPositionOfFirst] at h
  | cons t rest ih =>
    intro i t1 h
    unfold setPositionOfFirst at h
    by_cases hid : t.id = id
    · rw [if_pos hid] at h
      cases i with
      | zero =>
        simp only [List.getElem?_cons_zero, Option.some.injEq] at h
        exact ⟨t, by simp, Or.inr ⟨hid, h.symm⟩⟩
      | succ j =>
        simp only [List.getElem?_cons_succ] at h
        exact ⟨t1, by simp [h], Or.inl rfl⟩
    · rw [if_neg hid] at h
      cases i with
      | zero =>
        simp only [List.getElem?_cons_zero, Option.some.injEq] at h
        exact ⟨t, by simp, Or.inl h.symm⟩
      | succ j =>
        simp only [List.getElem?_cons_succ] at h
        obtain ⟨u, hu, hcase⟩ := ih j t1 h
        exact ⟨u, by simp [hu], hcase⟩

/-! ## Claims on captures -/

/-- C9: for every token list and every move whose destination is one of
STAR_CELLS (8, 21, 34, 47), `checkForCapture` returns the empty list, and
`applyMove` with that move captures nothing and resets no token to -1: each
token of the result is the input token at the same index, except that the
moved token has position move.to. -/
theorem checkForCapture_safe_cell (state : GameState) (move : Move)
    (hsafe : move.to ∈ STAR_CELLS) :
    (∀ tokens : List Token, checkForCapture tokens move = .ok []) ∧
    ∃ newState, applyMove state move = .ok newState ∧
      newState.capturedTokens = some [] ∧
      newState.tokens = setPositionOfFirst move.tokenId move.to state.tokens ∧
      newState.tokens.length = state.tokens.length ∧
      ∀ (i : Nat) (t1 : Token), newState.tokens[i]? = some t1 →
        ∃ t, state.tokens[i]? = some t ∧
          (t1 = t ∨ (t.id = move.tokenId ∧ t1 = { t with position := move.to })) ∧
          (t1.position = -1 → t.position = -1) := by
  have hcap : ∀ tokens : List Token, checkForCapture tokens move = .ok [] := by
    intro tokens
    simp [checkForCapture, (isSafeCell_iff move.to).2 hsafe]
  have hne : move.to ≠ -1 := by
    simp only [STAR_CELLS, List.mem_cons, List.mem_singleton, List.not_mem_nil, or_false]
      at hsafe
    omega
  refine ⟨hcap, ?_⟩
  simp only [applyMove, hcap]
  refine ⟨_, rfl, rfl, rfl, length_setPositionOfFirst _ _ _, ?_⟩
  intro i t1 h
  simp only [List.foldl_nil] at h
  obtain ⟨t, ht, hcase⟩ := getElem?_setPositionOfFirst _ _ _ i t1 h
  refine ⟨t, ht, hcase, ?_⟩
  intro h1
  rcases hcase with hcase | ⟨_, hcase⟩
  · rw [← hcase]; exact h1
  · rw [hcase] at h1
    exact absurd h1 hne

/-- C9 at the sample position: `p1-1` moves to the star cell 8 on which a
token of another player is placed. -/
theorem checkForCapture_safe_cell_witness :
    (∀ tokens : List Token, checkForCapture tokens ⟨"p1-1", 50, 8⟩ = .ok []) ∧
    ∃ newState, applyMove sampleState ⟨"p1-1", 50, 8⟩ = .ok newState ∧
      newState.capturedTokens = some [] ∧
      newState.tokens = setPositionOfFirst "p1-1" 8 sampleState.tokens ∧
      newState.tokens.length = sampleState.tokens.length ∧
      ∀ (i : Nat) (t1 : Token), newState.tokens[i]? = some t1 →
        ∃ t, sampleState.tokens[i]? = some t ∧
          (t1 = t ∨ (t.id = "p1-1" ∧ t1 = { t with position := 8 })) ∧
          (t1.position = -1 → t.position = -1) :=
  checkForCapture_safe_cell sampleState ⟨"p1-1", 50, 8⟩ (by decide)

/-- C10: for every token list and every move whose tokenId is in the list
and whose destination is not a safe cell, `checkForCapture` returns exactly
the ids, in list order, of the tokens t with t.position = move.to and
t.playerId different from the playerId of the moving token (the first token
with the id of the move); no token of the moving player is among the
captured tokens, and with pairwise distinct ids no id of a token of the
moving player is returned. -/
theorem checkForCapture_returns_opponents (tokens : List Token) (move : Move)
    (hmem : ∃ t ∈ tokens, t.id = move.tokenId) (hsafe : move.to ∉ STAR_CELLS) :
    ∃ movingToken, tokens.find? (fun t => t.id = move.tokenId) = some movingToken ∧
      movingToken ∈ tokens ∧ movingToken.id = move.tokenId ∧
      checkForCapture tokens move =
        .ok ((tokens.filter (fun t => t.position = move.to ∧
          t.playerId ≠ movingToken.playerId)).map (fun t => t.id)) ∧
      (∀ t ∈ tokens.filter (fun t => t.position = move.to ∧
          t.playerId ≠ movingToken.playerId), t.playerId ≠ movingToken.playerId) ∧
      ((tokens.map (fun t => t.id)).Nodup →
        ∀ ids, checkForCapture tokens move = .ok ids →
          ∀ t ∈ tokens, t.playerId = movingToken.playerId → t.id ∉ ids) := by
  cases hfind : tokens.find? (fun t => t.id = move.tokenId) with
  | none =>
    obtain ⟨t, ht, hid⟩ := hmem
    have := List.find?_eq_none.1 hfind t ht
    simp [hid] at this
  | some movingToken =>
    have hmt : movingToken ∈ tokens := List.mem_of_find?_eq_some hfind
    have hmid : movingToken.id = move.tokenId := by
      simpa using List.find?_some hfind
    have hnot : isSafeCell move.to = false := by
      cases h : isSafeCell move.to
      · rfl
      · exact absurd ((isSafeCell_iff move.to).1 h) hsafe
    have hres : checkForCapture tokens move =
        .ok ((tokens.filter (fun t => t.position = move.to ∧
          t.playerId ≠ movingToken.playerId)).map (fun t => t.id)) := by
      simp [checkForCapture, hnot, hfind, filterExcept_captureFilter]
    refine ⟨movingToken, rfl, hmt, hmid, hres, ?_, ?_⟩
    · intro t ht
      simp only [List.mem_filter, decide_eq_true_eq] at ht
      exact ht.2.2
    · intro hnodup ids hids t ht hpl hin
      rw [hres] at hids
      injection hids with hids
      subst hids
      simp only [List.mem_map, List.mem_filter, decide_eq_true_eq] at hin
      obtain ⟨u, ⟨hu, _, hne⟩, huid⟩ := hin
      have hut : u = t := List.inj_on_of_nodup_map hnodup hu ht huid
      subst hut
      exact hne hpl

/-- C10 at the sample position: a move of `p1-1` to cell 20, which holds a
token of `p2`. -/
theorem checkForCapture_returns_opponents_witness :
    ∃ movingToken, sampleTokens.find? (fun t => t.id = "p1-1") = some movingToken ∧
      movingToken ∈ sampleTokens ∧ movingToken.id = "p1-1" ∧
      checkForCapture sampleTokens ⟨"p1-1", 50, 20⟩ =
        .ok ((sampleTokens.filter (fun t => t.position = 20 ∧
          t.playerId ≠ movingToken.playerId)).map (fun t => t.id)) ∧
      (∀ t ∈ sampleTokens.filter (fun t => t.position = 20 ∧
          t.playerId ≠ movingToken.playerId), t.playerId ≠ movingToken.playerId) ∧
      ((sampleTokens.map (fun t => t.id)).Nodup →
        ∀ ids, checkForCapture sampleTokens ⟨"p1-1", 50, 20⟩ = .ok ids →
          ∀ t ∈ sampleTokens, t.playerId = movingToken.playerId → t.id ∉ ids) :=
  checkForCapture_returns_opponents sampleTokens ⟨"p1-1", 50, 20⟩ (by decide) (by decide)

/-! ## Lemmas on move application -/

/-- Repositioning leaves every function of a token that does not read the
position as it was, index by index. -/
theorem map_setPositionOfFirst {β : Type} (f : Token → β)
    (hf : ∀ (t : Token) (p : Int), f { t with position := p } = f t)
    (id : String) (position : Int) (tokens : List Token) :
    (setPositionOfFirst id position tokens).map f = tokens.map f := by
  induction tokens with
  | nil => rfl
  | cons t rest ih =>
    unfold setPositionOfFirst
    split_ifs
    · simp [hf]
    · simp [ih]

/-- Resetting a list of ids one after the other leaves every function of a
token that does not read the position as it was. -/
theorem map_foldl_setPositionOfFirst {β : Type} (f : Token → β)
    (hf : ∀ (t : Token) (p : Int), f { t with position := p } = f t)
    (position : Int) (ids : List String) :
    ∀ tokens : List Token,
      (ids.foldl (fun toks tokenId => setPositionOfFirst tokenId position toks) tokens).map f
        = tokens.map f := by
  induction ids with
  | nil => intro tokens; rfl
  | cons i rest ih =>
    intro tokens
    rw [List.foldl_cons, ih, map_setPositionOfFirst f hf]

/-- A list holds a token with a given id exactly when `find` returns one. -/
theorem find?_id_isSome (tokens : List Token) (id : String) :
    (∃ t ∈ tokens, t.id = id) ↔ ∃ mt, tokens.find? (fun t => t.id = id) = some mt := by
  constructor
  · rintro ⟨t, ht, hid⟩
    cases h : tokens.find? (fun t => t.id = id) with
    | none =>
      have := List.find?_eq_none.1 h t ht
      simp [hid] at this
    | some mt => exact ⟨mt, rfl⟩
  · rintro ⟨mt, h⟩
    exact ⟨mt, List.mem_of_find?_eq_some h, by simpa using List.find?_some h⟩

/-- What `checkForCapture` returns when the moving token is found. -/
theorem checkForCapture_of_find (tokens : List Token) (move : Move) (moving : Token)
    (h : tokens.find? (fun t => t.id = move.tokenId) = some moving) :
    checkForCapture tokens move =
      .ok (if isSafeCell move.to = true then []
        else (tokens.filter (fun t => t.position = move.to ∧
          t.playerId ≠ moving.playerId)).map (fun t => t.id)) := by
  unfold checkForCapture
  split_ifs
  · rfl
  · simp [h, filterExcept_captureFilter]

/-- Repositioning keeps the ids, so a token with the id of the move is
still found afterwards. -/
theorem find?_setPositionOfFirst_isSome (tokens : List Token) (id id1 : String)
    (position : Int) (h : ∃ t ∈ tokens, t.id = id1) :
    ∃ mt, (setPositionOfFirst id position tokens).find? (fun t => t.id = id1) = some mt := by
  apply (find?_id_isSome _ _).1
  have hmap := map_setPositionOfFirst (fun t => t.id) (fun _ _ => rfl) id position tokens
  obtain ⟨t, ht, hid⟩ := h
  have : id1 ∈ (setPositionOfFirst id position tokens).map (fun t => t.id) := by
    rw [hmap]
    exact List.mem_map.2 ⟨t, ht, hid⟩
  obtain ⟨u, hu, huid⟩ := List.mem_map.1 this
  exact ⟨u, hu, huid⟩

/-- With the token of the move present, `applyMove` returns, and its token
list is the repositioned list with the captured ids reset. -/
theorem applyMove_of_mem (state : GameState) (move : Move)
    (hmem : ∃ t ∈ state.tokens, t.id = move.tokenId) :
    ∃ newState capturedTokenIds,
      checkForCapture (setPositionOfFirst move.tokenId move.to state.tokens) move
        = .ok capturedTokenIds ∧
      applyMove state move = .ok newState ∧
      newState.tokens = capturedTokenIds.foldl
        (fun toks tokenId => setPositionOfFirst tokenId (-1) toks)
        (setPositionOfFirst move.tokenId move.to state.tokens) ∧
      newState.capturedTokens = some capturedTokenIds := by
  obtain ⟨mt, hmt⟩ := find?_setPositionOfFirst_isSome state.tokens move.tokenId move.tokenId
    move.to hmem
  have hcap := checkForCapture_of_find _ move mt hmt
  simp only [applyMove, hcap]
  exact ⟨_, _, rfl, rfl, rfl, rfl⟩

/-! ## Claims on move application -/

/-- C11: for every state and every move whose tokenId is present in
state.tokens, `applyMove` returns a token list of the same length whose i-th
token has the same id, playerId and colour as the i-th input token; the
token count is unchanged and pairwise distinct ids stay pairwise distinct. -/
theorem applyMove_preserves_tokens (state : GameState) (move : Move)
    (hmem : ∃ t ∈ state.tokens, t.id = move.tokenId) :
    ∃ newState, applyMove state move = .ok newState ∧
      newState.tokens.length = state.tokens.length ∧
      (∀ (i : Nat) (t : Token), state.tokens[i]? = some t →
        ∃ t1, newState.tokens[i]? = some t1 ∧
          t1.id = t.id ∧ t1.playerId = t.playerId ∧ t1.color = t.color) ∧
      newState.tokens.map (fun t => t.id) = state.tokens.map (fun t => t.id) ∧
      ((state.tokens.map (fun t => t.id)).Nodup →
        (newState.tokens.map (fun t => t.id)).Nodup) := by
  obtain ⟨newState, ids, _, hok, htok, _⟩ := applyMove_of_mem state move hmem
  have hframe : newState.tokens.map (fun t => (t.id, t.playerId, t.color))
      = state.tokens.map (fun t => (t.id, t.playerId, t.color)) := by
    rw [htok, map_foldl_setPositionOfFirst (fun t => (t.id, t.playerId, t.color))
      (fun _ _ => rfl), map_setPositionOfFirst (fun t => (t.id, t.playerId, t.color))
      (fun _ _ => rfl)]
  have hid : newState.tokens.map (fun t => t.id) = state.tokens.map (fun t => t.id) := by
    rw [htok, map_foldl_setPositionOfFirst (fun t => t.id) (fun _ _ => rfl),
      map_setPositionOfFirst (fun t => t.id) (fun _ _ => rfl)]
  have hlen : newState.tokens.length = state.tokens.length := by
    simpa using congrArg List.length hid
  refine ⟨newState, hok, hlen, ?_, hid, fun h => by rw [hid]; exact h⟩
  intro i t hi
  have h1 := congrArg (fun l => l[i]?) hframe
  simp only [List.getElem?_map, hi, Option.map_some'] at h1
  cases h2 : newState.tokens[i]? with
  | none => simp [h2] at h1
  | some t1 =>
    simp only [h2, Option.map_some', Option.some.injEq, Prod.mk.injEq] at h1
    exact ⟨t1, rfl, h1.1, h1.2.1, h1.2.2⟩

/-- C11 at the sample position: `p1-1` moves from 50 to 20 and captures. -/
theorem applyMove_preserves_tokens_witness :
    ∃ newState, applyMove sampleState ⟨"p1-1", 50, 20⟩ = .ok newState ∧
      newState.tokens.length = sampleState.tokens.length ∧
      (∀ (i : Nat) (t : Token), sampleState.tokens[i]? = some t →
        ∃ t1, newState.tokens[i]? = some t1 ∧
          t1.id = t.id ∧ t1.playerId = t.playerId ∧ t1.color = t.color) ∧
      newState.tokens.map (fun t => t.id) = sampleState.tokens.map (fun t => t.id) ∧
      ((sampleState.tokens.map (fun t => t.id)).Nodup →
        (newState.tokens.map (fun t => t.id)).Nodup) :=
  applyMove_preserves_tokens sampleState ⟨"p1-1", 50, 20⟩ (by decide)

/-- With pairwise distinct ids, repositioning is the map that changes the
token with the given id. -/
theorem setPositionOfFirst_eq_map (id : String) (position : Int) (tokens : List Token)
    (hnodup : (tokens.map (fun t => t.id)).Nodup) :
    setPositionOfFirst id position tokens =
      tokens.map (fun t => if t.id = id then { t with position := position } else t) := by
  induction tokens with
  | nil => rfl
  | cons t rest ih =>
    simp only [List.map_cons, List.nodup_cons, List.mem_map, not_exists, not_and] at hnodup
    unfold setPositionOfFirst
    by_cases hid : t.id = id
    · simp only [hid, if_true, List.map_cons, List.cons.injEq, true_and]
      symm
      calc rest.map (fun t => if t.id = id then { t with position := position } else t)
          = rest.map (fun t => t) := by
            apply List.map_congr_left
            intro u hu
            have : u.id ≠ id := fun h => hnodup.1 u hu (by rw [h, hid])
            simp [this]
        _ = rest := by simp
    · simp only [hid, if_false, List.map_cons, ih hnodup.2]

/-- With pairwise distinct ids, resetting a list of ids is the map that
changes the tokens whose id is in the list. -/
theorem foldl_setPositionOfFirst_eq_map (position : Int) (ids : List String) :
    ∀ tokens : List Token, (tokens.map (fun t => t.id)).Nodup →
      ids.foldl (fun toks tokenId => setPositionOfFirst tokenId position toks) tokens =
        tokens.map (fun t => if t.id ∈ ids then { t with position := position } else t) := by
  induction ids with
  | nil => intro tokens _; simp
  | cons i rest ih =>
    intro tokens hnodup
    have hids : (setPositionOfFirst i position tokens).map (fun t => t.id)
        = tokens.map (fun t => t.id) :=
      map_setPositionOfFirst (fun t => t.id) (fun _ _ => rfl) i position tokens
    rw [List.foldl_cons, ih _ (by rw [hids]; exact hnodup),
      setPositionOfFirst_eq_map i position tokens hnodup, List.map_map]
    apply List.map_congr_left
    intro t _
    by_cases h1 : t.id = i
    · simp [h1]
    · by_cases h2 : t.id ∈ rest <;> simp [h1, h2]

/-- With pairwise distinct ids, the id of the moving token is not among the
captured ids. -/
theorem tokenId_not_mem_checkForCapture (tokens : List Token) (move : Move)
    (ids : List String) (hnodup : (tokens.map (fun t => t.id)).Nodup)
    (hmem : ∃ t ∈ tokens, t.id = move.tokenId)
    (hcap : checkForCapture tokens move = .ok ids) : move.tokenId ∉ ids := by
  obtain ⟨mt, hmt⟩ := (find?_id_isSome tokens move.tokenId).1 hmem
  rw [checkForCapture_of_find tokens move mt hmt] at hcap
  injection hcap with hcap
  subst hcap
  have hmtmem : mt ∈ tokens := List.mem_of_find?_eq_some hmt
  have hmtid : mt.id = move.tokenId := by simpa using List.find?_some hmt
  split_ifs
  · simp
  · intro hin
    simp only [List.mem_map, List.mem_filter, decide_eq_true_eq] at hin
    obtain ⟨u, ⟨hu, _, hne⟩, huid⟩ := hin
    have : u = mt := List.inj_on_of_nodup_map hnodup hu hmtmem (by rw [huid, hmtid])
    exact hne (by rw [this])

/-- C12: for every state whose token ids are pairwise distinct and every
move whose tokenId is present, in the result of `applyMove` the moved token
has position move.to, capturedTokens is `checkForCapture` evaluated on the
token list after repositioning, and every token whose id is in
capturedTokens has position -1. -/
theorem applyMove_positions (state : GameState) (move : Move)
    (hnodup : (state.tokens.map (fun t => t.id)).Nodup)
    (hmem : ∃ t ∈ state.tokens, t.id = move.tokenId) :
    ∃ newState capturedTokenIds,
      applyMove state move = .ok newState ∧
      checkForCapture (setPositionOfFirst move.tokenId move.to state.tokens) move
        = .ok capturedTokenIds ∧
      setPositionOfFirst move.tokenId move.to state.tokens = state.tokens.map
        (fun t => if t.id = move.tokenId then { t with position := move.to } else t) ∧
      newState.capturedTokens = some capturedTokenIds ∧
      (∃ t ∈ newState.tokens, t.id = move.tokenId) ∧
      (∀ t ∈ newState.tokens, t.id = move.tokenId → t.position = move.to) ∧
      (∀ t ∈ newState.tokens, t.id ∈ capturedTokenIds → t.position = -1) := by
  obtain ⟨newState, ids, hcap, hok, htok, hcapt⟩ := applyMove_of_mem state move hmem
  have hids1 : (setPositionOfFirst move.tokenId move.to state.tokens).map (fun t => t.id)
      = state.tokens.map (fun t => t.id) :=
    map_setPositionOfFirst (fun t => t.id) (fun _ _ => rfl) _ _ _
  have hnodup1 : ((setPositionOfFirst move.tokenId move.to state.tokens).map
      (fun t => t.id)).Nodup := by rw [hids1]; exact hnodup
  have hmem1 : ∃ t ∈ setPositionOfFirst move.tokenId move.to state.tokens,
      t.id = move.tokenId := by
    obtain ⟨mt, hmt⟩ := find?_setPositionOfFirst_isSome state.tokens move.tokenId
      move.tokenId move.to hmem
    exact (find?_id_isSome _ _).2 ⟨mt, hmt⟩
  have hnot := tokenId_not_mem_checkForCapture _ move ids hnodup1 hmem1 hcap
  have hmap := setPositionOfFirst_eq_map move.tokenId move.to state.tokens hnodup
  rw [foldl_setPositionOfFirst_eq_map (-1) ids _ hnodup1, hmap, List.map_map] at htok
  have hidsN : newState.tokens.map (fun t => t.id) = state.tokens.map (fun t => t.id) := by
    rw [htok, List.map_map]
    apply List.map_congr_left
    intro t _
    simp only [Function.comp]
    split_ifs <;> rfl
  refine ⟨newState, ids, hok, hcap, hmap, hcapt, ?_, ?_, ?_⟩
  · obtain ⟨t, ht, hid⟩ := hmem
    have : move.tokenId ∈ newState.tokens.map (fun t => t.id) := by
      rw [hidsN]
      exact List.mem_map.2 ⟨t, ht, hid⟩
    obtain ⟨u, hu, huid⟩ := List.mem_map.1 this
    exact ⟨u, hu, huid⟩
  · intro t1 ht1 hid
    rw [htok] at ht1
    obtain ⟨t, _, rfl⟩ := List.mem_map.1 ht1
    simp only [Function.comp] at hid ⊢
    by_cases h1 : t.id = move.tokenId
    · have h2 : move.tokenId ∉ ids := hnot
      simp [h1, h2]
    · by_cases h2 : t.id ∈ ids
      · simp [h1, h2] at hid
      · simp [h1, h2] at hid
  · intro t1 ht1 hin
    rw [htok] at ht1
    obtain ⟨t, _, rfl⟩ := List.mem_map.1 ht1
    simp only [Function.comp] at hin ⊢
    have hin1 : t.id ∈ ids := by
      split_ifs at hin <;> exact hin
    by_cases h1 : t.id = move.tokenId
    · exact absurd (h1 ▸ hin1) hnot
    · simp [h1, hin1]

/-- C12 at the sample position: `p1-1` moves from 50 to 20 and captures `p2-1`. -/
theorem applyMove_positions_witness :
    ∃ newState capturedTokenIds,
      applyMove sampleState ⟨"p1-1", 50, 20⟩ = .ok newState ∧
      checkForCapture (setPositionOfFirst "p1-1" 20 sampleState.tokens) ⟨"p1-1", 50, 20⟩
        = .ok capturedTokenIds ∧
      setPositionOfFirst "p1-1" 20 sampleState.tokens = sampleState.tokens.map
        (fun t => if t.id = "p1-1" then { t with position := 20 } else t) ∧
      newState.capturedTokens = some capturedTokenIds ∧
      (∃ t ∈ newState.tokens, t.id = "p1-1") ∧
      (∀ t ∈ newState.tokens, t.id = "p1-1" → t.position = 20) ∧
      (∀ t ∈ newState.tokens, t.id ∈ capturedTokenIds → t.position = -1) :=
  applyMove_positions sampleState ⟨"p1-1", 50, 20⟩ (by decide) (by decide)

/-! ## Claims on the turn state machine -/

/-- C13: for every token list in which the given player owns exactly 4
tokens, `checkGameOver(tokens, playerId)` is true if and only if all tokens
of that player are at position PATH_LENGTH + HOME_STRETCH_LENGTH (58); with
only 3 of them at 58 it is false, and the result depends on the tokens of
that player only. -/
theorem checkGameOver_iff_all_finished (tokens : List Token) (playerId : String)
    (h4 : (tokens.filter (fun t => t.playerId = playerId)).length = 4) :
    (checkGameOver tokens playerId = true ↔
      ∀ t ∈ tokens, t.playerId = playerId →
        t.position = PATH_LENGTH + HOME_STRETCH_LENGTH) ∧
    ((tokens.filter (fun t => t.playerId = playerId ∧ t.position = 58)).length = 3 →
      checkGameOver tokens playerId = false) ∧
    (∀ tokens2 : List Token,
      tokens2.filter (fun t => t.playerId = playerId)
        = tokens.filter (fun t => t.playerId = playerId) →
      checkGameOver tokens2 playerId = checkGameOver tokens playerId) := by
  refine ⟨?_, ?_, ?_⟩
  · unfold checkGameOver
    simp only [decide_eq_true_eq]
    rw [← h4, List.filter_length_eq_length]
    simp only [List.mem_filter, decide_eq_true_eq]
    constructor
    · intro h t ht hp
      exact h t ⟨ht, hp⟩
    · rintro h t ⟨ht, hp⟩
      exact h t ht hp
  · intro h3
    unfold checkGameOver
    simp only [List.filter_filter, PATH_LENGTH, HOME_STRETCH_LENGTH] at h3 ⊢
    have : (List.filter (fun a => (decide (a.position = 58) && decide (a.playerId = playerId)))
        tokens).length = 3 := by
      rw [← h3]
      congr 1
      apply List.filter_congr
      intro t _
      rw [Bool.and_comm]
      simp
    norm_num
    rw [this]
    decide
  · intro tokens2 h
    unfold checkGameOver
    simp only [h]

/-- C13 at the sample position: `p1` owns four tokens, one of them finished. -/
theorem checkGameOver_iff_all_finished_witness :
    (checkGameOver sampleTokens "p1" = true ↔
      ∀ t ∈ sampleTokens, t.playerId = "p1" →
        t.position = PATH_LENGTH + HOME_STRETCH_LENGTH) ∧
    ((sampleTokens.filter (fun t => t.playerId = "p1" ∧ t.position = 58)).length = 3 →
      checkGameOver sampleTokens "p1" = false) ∧
    (∀ tokens2 : List Token,
      tokens2.filter (fun t => t.playerId = "p1")
        = sampleTokens.filter (fun t => t.playerId = "p1") →
      checkGameOver tokens2 "p1" = checkGameOver sampleTokens "p1") :=
  checkGameOver_iff_all_finished sampleTokens "p1" (by decide)

/-- The expression `state.consecutiveSixCount || 0` is the count, with a
missing count read as 0. -/
theorem consecutiveSixCountOrZero_eq (state : GameState) :
    consecutiveSixCountOrZero state = state.consecutiveSixCount.getD 0 := by
  unfold consecutiveSixCountOrZero
  cases h : state.consecutiveSixCount with
  | none => rfl
  | some c =>
    simp only [Option.getD_some]
    split_ifs with h0
    · exact h0.symm
    · rfl

/-- C14: for every state with consecutiveSixCount = c (a missing count read
as 0) and every dice value d, `handleConsecutiveSixes` returns a state whose
consecutiveSixCount is 0 if d is not 6, c + 1 if d = 6 and
c + 1 < MAX_CONSECUTIVE_SIXES (3), and 0 if d = 6 and c + 1 >= 3; a count in
[0, 3) on input gives a count in [0, 3) on output. -/
theorem handleConsecutiveSixes_count (state : GameState) (diceValue : Int) :
    (handleConsecutiveSixes state diceValue).consecutiveSixCount =
      some (if diceValue ≠ 6 then 0
        else if state.consecutiveSixCount.getD 0 + 1 < MAX_CONSECUTIVE_SIXES
          then state.consecutiveSixCount.getD 0 + 1
        else 0) ∧
    ((0 ≤ state.consecutiveSixCount.getD 0 ∧
        state.consecutiveSixCount.getD 0 < MAX_CONSECUTIVE_SIXES) →
      ∃ count, (handleConsecutiveSixes state diceValue).consecutiveSixCount = some count ∧
        0 ≤ count ∧ count < MAX_CONSECUTIVE_SIXES) := by
  have h : (handleConsecutiveSixes state diceValue).consecutiveSixCount =
      some (if diceValue ≠ 6 then 0
        else if state.consecutiveSixCount.getD 0 + 1 < MAX_CONSECUTIVE_SIXES
          then state.consecutiveSixCount.getD 0 + 1
        else 0) := by
    unfold handleConsecutiveSixes
    rw [consecutiveSixCountOrZero_eq]
    simp only [MAX_CONSECUTIVE_SIXES]
    by_cases h6 : diceValue = 6
    · by_cases h3 : state.consecutiveSixCount.getD 0 + 1 ≥ 3
      · have : ¬ state.consecutiveSixCount.getD 0 + 1 < 3 := by omega
        simp [h6, h3, this]
      · have : state.consecutiveSixCount.getD 0 + 1 < 3 := by omega
        simp [h6, h3, this]
    · simp [h6]
  refine ⟨h, fun hc => ⟨_, h, ?_⟩⟩
  simp only [MAX_CONSECUTIVE_SIXES] at hc ⊢
  split_ifs <;> omega

/-- C15 (as amended): the state returned by `handleConsecutiveSixes` is
marked turnForfeited if and only if the input state was already marked or
the dice value is 6 and the incremented count reaches
MAX_CONSECUTIVE_SIXES (3); for an input state that is not marked, a roll
other than 6 or a first or second consecutive 6 yields a state that is not
marked. -/
theorem handleConsecutiveSixes_turnForfeited (state : GameState) (diceValue : Int) :
    ((handleConsecutiveSixes state diceValue).turnForfeited = true ↔
      state.turnForfeited = true ∨
        (diceValue = 6 ∧ state.consecutiveSixCount.getD 0 + 1 ≥ MAX_CONSECUTIVE_SIXES)) ∧
    (state.turnForfeited = false →
      ((handleConsecutiveSixes state diceValue).turnForfeited = true ↔
        (diceValue = 6 ∧ state.consecutiveSixCount.getD 0 + 1 ≥ MAX_CONSECUTIVE_SIXES))) := by
  have h : (handleConsecutiveSixes state diceValue).turnForfeited = true ↔
      state.turnForfeited = true ∨
        (diceValue = 6 ∧ state.consecutiveSixCount.getD 0 + 1 ≥ MAX_CONSECUTIVE_SIXES) := by
    unfold handleConsecutiveSixes
    rw [consecutiveSixCountOrZero_eq]
    by_cases h6 : diceValue = 6
    · by_cases h3 : state.consecutiveSixCount.getD 0 + 1 ≥ MAX_CONSECUTIVE_SIXES
      · simp [h6, h3]
      · simp [h6, h3]
    · simp [h6]
  refine ⟨h, fun hf => ?_⟩
  rw [h, hf]
  simp

/-- C15 as stated fails: a state that is already marked turnForfeited stays
marked after a roll of 1. -/
theorem handleConsecutiveSixes_keeps_turnForfeited :
    (handleConsecutiveSixes { sampleState with turnForfeited := true } 1).turnForfeited = true ∧
      ¬ ((handleConsecutiveSixes { sampleState with turnForfeited := true } 1).turnForfeited
            = true ↔
          ((1 : Int) = 6 ∧
            ({ sampleState with turnForfeited := true } : GameState).consecutiveSixCount.getD 0
              + 1 ≥ MAX_CONSECUTIVE_SIXES)) := by
  decide

/-- C16: starting from a state with consecutiveSixCount 0 (or missing) that
is not marked forfeited, three calls of `handleConsecutiveSixes` in a row
with dice value 6 yield the starting state with consecutiveSixCount = 0 and
turnForfeited = true, so that tokens and currentPlayerId are those of the
starting state; after the first two sixes the count is 2 and the turn is not
forfeited. -/
theorem handleConsecutiveSixes_three_sixes (state : GameState)
    (h0 : state.consecutiveSixCount.getD 0 = 0) (hf : state.turnForfeited = false) :
    (handleConsecutiveSixes (handleConsecutiveSixes state 6) 6).consecutiveSixCount = some 2 ∧
    (handleConsecutiveSixes (handleConsecutiveSixes state 6) 6).turnForfeited = false ∧
    handleConsecutiveSixes (handleConsecutiveSixes (handleConsecutiveSixes state 6) 6) 6
      = { state with consecutiveSixCount := some 0, turnForfeited := true } ∧
    (handleConsecutiveSixes (handleConsecutiveSixes (handleConsecutiveSixes state 6) 6) 6).tokens
      = state.tokens ∧
    (handleConsecutiveSixes (handleConsecutiveSixes (handleConsecutiveSixes state 6) 6)
      6).currentPlayerId = state.currentPlayerId := by
  have h1 : handleConsecutiveSixes state 6 = { state with consecutiveSixCount := some 1 } := by
    unfold handleConsecutiveSixes
    rw [consecutiveSixCountOrZero_eq, h0]
    simp [MAX_CONSECUTIVE_SIXES]
  have h2 : handleConsecutiveSixes { state with consecutiveSixCount := some 1 } 6
      = { state with consecutiveSixCount := some 2 } := by
    unfold handleConsecutiveSixes
    rw [consecutiveSixCountOrZero_eq]
    simp [MAX_CONSECUTIVE_SIXES]
  have h3 : handleConsecutiveSixes { state with consecutiveSixCount := some 2 } 6
      = { state with consecutiveSixCount := some 0, turnForfeited := true } := by
    unfold handleConsecutiveSixes
    rw [consecutiveSixCountOrZero_eq]
    simp [MAX_CONSECUTIVE_SIXES]
  rw [h1, h2, h3]
  exact ⟨rfl, hf, rfl, rfl, rfl⟩

/-- C16 at the sample state. -/
theorem handleConsecutiveSixes_three_sixes_witness :
    (handleConsecutiveSixes (handleConsecutiveSixes sampleState 6) 6).consecutiveSixCount
      = some 2 ∧
    (handleConsecutiveSixes (handleConsecutiveSixes sampleState 6) 6).turnForfeited = false ∧
    handleConsecutiveSixes (handleConsecutiveSixes (handleConsecutiveSixes sampleState 6) 6) 6
      = { sampleState with consecutiveSixCount := some 0, turnForfeited := true } ∧
    (handleConsecutiveSixes (handleConsecutiveSixes (handleConsecutiveSixes sampleState 6) 6)
      6).tokens = sampleState.tokens ∧
    (handleConsecutiveSixes (handleConsecutiveSixes (handleConsecutiveSixes sampleState 6) 6)
      6).currentPlayerId = sampleState.currentPlayerId :=
  handleConsecutiveSixes_three_sixes sampleState (by decide) (by decide)

/-- With pairwise distinct ids, `findIndex` on the id of the player at
index `i` returns `i` (counted from the start index `s`). -/
theorem findIdx?_player_id (players : List Player) :
    ∀ (s i : Nat) (p : Player), (players.map (fun q => q.id)).Nodup → players[i]? = some p →
      players.findIdx? (fun q => q.id = p.id) s = some (s + i) := by
  induction players with
  | nil => intro s i p _ hi; simp at hi
  | cons a rest ih =>
    intro s i p hnodup hi
    simp only [List.map_cons, List.nodup_cons, List.mem_map, not_exists, not_and] at hnodup
    rw [List.findIdx?_cons]
    cases i with
    | zero =>
      simp only [List.getElem?_cons_zero, Option.some.injEq] at hi
      simp [hi]
    | succ j =>
      simp only [List.getElem?_cons_succ] at hi
      have hp : p ∈ rest := List.getElem?_mem hi
      have hne : a.id ≠ p.id := fun h => hnodup.1 p hp h.symm
      simp only [hne, decide_False, Bool.false_eq_true, if_false]
      rw [ih (s + 1) j p hnodup.2 hi]
      congr 1
      omega

/-- One call of `getNextPlayer` on the id of the player at index `i`. -/
theorem getNextPlayer_of_getElem? (players : List Player)
    (hnodup : (players.map (fun q => q.id)).Nodup) (i : Nat) (p : Player)
    (hi : players[i]? = some p) :
    ∃ q, players[(i + 1) % players.length]? = some q ∧
      getNextPlayer players p.id = .ok q.id := by
  have hlt : i < players.length := by
    by_contra h
    rw [List.getElem?_eq_none (by omega)] at hi
    cases hi
  have hpos : 0 < players.length := by omega
  have hmod : (i + 1) % players.length < players.length := Nat.mod_lt _ hpos
  have hfind := findIdx?_player_id players 0 i p hnodup hi
  simp only [Nat.zero_add] at hfind
  refine ⟨players[(i + 1) % players.length], List.getElem?_eq_getElem hmod, ?_⟩
  unfold getNextPlayer
  have hlen : players.length ≠ 0 := by omega
  have hnext : Int.tmod ((i : Int) + 1) (players.length : Int)
      = (((i + 1) % players.length : Nat) : Int) := by
    rw [Int.tmod_eq_emod (by omega) (by omega)]
    push_cast
    rfl
  simp only [hfind, hlen, if_false, hnext]
  have hnn : ¬ ((((i + 1) % players.length : Nat) : Int) < 0) := by omega
  simp only [hnn, if_false, Int.toNat_ofNat, List.getElem?_eq_getElem hmod]

/-- The call `getNextPlayer` repeated `k` times moves `k` places on, wrapping. -/
theorem getNextPlayerTimes_of_getElem? (players : List Player)
    (hnodup : (players.map (fun q => q.id)).Nodup) :
    ∀ (k i : Nat) (p : Player), players[i]? = some p →
      ∃ q, players[(i + k) % players.length]? = some q ∧
        getNextPlayerTimes players k p.id = .ok q.id := by
  intro k
  induction k with
  | zero =>
    intro i p hi
    have hlt : i < players.length := by
      by_contra h
      rw [List.getElem?_eq_none (by omega)] at hi
      cases hi
    refine ⟨p, ?_, rfl⟩
    rw [Nat.add_zero, Nat.mod_eq_of_lt hlt]
    exact hi
  | succ k ih =>
    intro i p hi
    obtain ⟨q1, hq1, hnext⟩ := getNextPlayer_of_getElem? players hnodup i p hi
    obtain ⟨q, hq, htimes⟩ := ih ((i + 1) % players.length) q1 hq1
    refine ⟨q, ?_, ?_⟩
    · rw [Nat.mod_add_mod] at hq
      rw [← hq]
      congr 2
      omega
    · rw [getNextPlayerTimes, hnext]
      exact htimes

/-- C17: for every player list with pairwise distinct ids and every index
i of the list (so the list is not empty), `getNextPlayer(players,
players[i].id)` returns players[(i + 1) mod n].id, the following player in
the fixed order, wrapping from the last player to the first; the result is
the id of a member of players, and `getNextPlayer` applied n times returns
to the starting player. -/
theorem getNextPlayer_next_in_order (players : List Player)
    (hnodup : (players.map (fun q => q.id)).Nodup) (i : Nat) (p : Player)
    (hi : players[i]? = some p) :
    players ≠ [] ∧
    ∃ q, players[(i + 1) % players.length]? = some q ∧
      getNextPlayer players p.id = .ok q.id ∧
      q ∈ players ∧
      getNextPlayerTimes players players.length p.id = .ok p.id := by
  have hlt : i < players.length := by
    by_contra h
    rw [List.getElem?_eq_none (by omega)] at hi
    cases hi
  obtain ⟨q, hq, hnext⟩ := getNextPlayer_of_getElem? players hnodup i p hi
  obtain ⟨r, hr, htimes⟩ := getNextPlayerTimes_of_getElem? players hnodup players.length i p hi
  rw [Nat.add_mod_right, Nat.mod_eq_of_lt hlt, hi] at hr
  injection hr with hr
  subst hr
  refine ⟨?_, q, hq, hnext, List.getElem?_mem hq, htimes⟩
  intro hnil
  rw [hnil] at hlt
  simp at hlt

/-- C17 on the players `p1`, `p2`, `p3`, from the last one (index 2). -/
theorem getNextPlayer_next_in_order_witness :
    ([⟨"p1"⟩, ⟨"p2"⟩, ⟨"p3"⟩] : List Player) ≠ [] ∧
    ∃ q, ([⟨"p1"⟩, ⟨"p2"⟩, ⟨"p3"⟩] : List Player)[(2 + 1) %
        ([⟨"p1"⟩, ⟨"p2"⟩, ⟨"p3"⟩] : List Player).length]? = some q ∧
      getNextPlayer [⟨"p1"⟩, ⟨"p2"⟩, ⟨"p3"⟩] (⟨"p3"⟩ : Player).id = .ok q.id ∧
      q ∈ ([⟨"p1"⟩, ⟨"p2"⟩, ⟨"p3"⟩] : List Player) ∧
      getNextPlayerTimes [⟨"p1"⟩, ⟨"p2"⟩, ⟨"p3"⟩]
        ([⟨"p1"⟩, ⟨"p2"⟩, ⟨"p3"⟩] : List Player).length (⟨"p3"⟩ : Player).id
          = .ok (⟨"p3"⟩ : Player).id :=
  getNextPlayer_next_in_order [⟨"p1"⟩, ⟨"p2"⟩, ⟨"p3"⟩] (by decide) 2 ⟨"p3"⟩ (by decide)

/-! ## Claims on the move handler -/

/-- On a stored object without `tokens`, the object `create.js` and
`quick.js` insert and `roll.js` and the handler itself pass on, the handler
never answers 200: `applyMove` throws on every valid move. -/
theorem handler_created_not_success (supabase : SupabaseClient) (m : Match)
    (userId tokenId : String) (newPosition diceValue now : Int)
    (currentPlayerId : String) (turnStartTime consecutiveSixCount : Int)
    (lastDiceRoll : Option Int) (canMove : Option Bool)
    (hstate : m.game_state =
      .created currentPlayerId turnStartTime consecutiveSixCount lastDiceRoll canMove)
    (result : MoveResult) :
    handler supabase m userId tokenId newPosition diceValue now ≠ .ok (.success result) := by
  unfold handler
  rw [hstate]
  intro h
  split at h
  · cases h
  · split at h
    · cases h
    · split at h
      · split at h <;> cases h
      · simp only [] at h
        split at h <;> cases h

/-- On token rows without `playerId`, the rows `createTokensForPlayer`
writes, the game-over check of the handler is false for every user. -/
theorem Match.gameOver_eq_false (m : Match) (userId : String)
    (hrows : ∀ t ∈ m.tokens, t.playerId = none) : m.gameOver userId = false := by
  unfold Match.gameOver
  have : m.tokens.filter (fun t => t.playerId = some userId) = [] := by
    rw [List.filter_eq_nil_iff]
    intro t ht
    simp [hrows t ht]
  simp [this]

/-- When the handler answers 200, the game-over decision it reports is the
check on the token rows loaded before the move. -/
theorem handler_success_gameOver (supabase : SupabaseClient) (m : Match)
    (userId tokenId : String) (newPosition diceValue now : Int) (result : MoveResult)
    (h : handler supabase m userId tokenId newPosition diceValue now = .ok (.success result)) :
    result.gameOver = m.gameOver userId := by
  unfold handler at h
  iterate 16
    all_goals try first
      | (cases h; done)
      | (injection h with h; injection h with h; rw [← h])
      | split at h
      | split_ifs at h
      | simp only [] at h

/-- The forfeit guard on a row of the shape the rules engine needs (a shape
no endpoint writes): in `forfeitMatch` the player `p1` has two sixes
stored; the valid move of `p1-0` from home with a third 6 marks the turn
forfeited, and the handler keeps `p1` as the current player although
`getNextPlayer` of the participants is `p2`. -/
theorem handler_engine_forfeit_keeps_player :
    ∃ result, handler ⟨true, false, false⟩ forfeitMatch "p1" "p1-0" 0 6 0
        = .ok (.success result) ∧
      result.gameState.turnForfeited = true ∧
      result.gameOver = false ∧
      result.nextPlayerId = "p1" ∧
      result.gameState.currentPlayerId = "p1" ∧
      getNextPlayer (forfeitMatch.match_participants.map (fun p => ⟨p.id⟩)) "p1" = .ok "p2" := by
  refine ⟨_, rfl, ?_, ?_, ?_, ?_, ?_⟩ <;> decide

/-- The game-over check on a row of the shape the rules engine needs (a
shape no endpoint writes): in `engineFinishMatch` the valid move of `p1-3`
from 57 to 58 brings the fourth token of `p1` to the finish, so that
`checkGameOver` holds of the tokens `applyMove` returns, while the handler
checks the rows loaded before the move and reports no game over. -/
theorem handler_engine_stale_tokens :
    ∃ result applied, handler ⟨true, false, false⟩ engineFinishMatch "p1" "p1-3" 58 1 0
        = .ok (.success result) ∧
      applyMove { sampleState with tokens := finishTokens } ⟨"p1-3", 57, 58⟩ = .ok applied ∧
      checkGameOver applied.tokens "p1" = true ∧
      result.gameState.tokens = applied.tokens ∧
      result.gameOver = false ∧
      result.winner = none ∧
      result.nextPlayerId = "p2" := by
  refine ⟨_, _, rfl, rfl, ?_, ?_, ?_, ?_, ?_⟩ <;> decide

/-- C18 at a failing input: `quickMatch` is the row of a match in quick
mode that `u1` has created and `u2` has joined, after `u1` has rolled a 3.
The request of `u1` to move the token `t1` from 0 to 3 is valid, the roll
is not a 6 and the game has not ended, so that the turn is to pass to the
next player. The handler answers 500 instead, whatever the database client
does: `applyMove` is given `match.game_state`, which has no `tokens`, and
throws before anything is written, so that `u1` stays the current player. -/
theorem moveHandler_no_turn_advance :
    quickMatch.validMove ⟨"t1", 0, 3⟩ 3 = .ok true ∧
    quickMatch.game_state.currentPlayerId = "u1" ∧
    ∀ (supabase : SupabaseClient) (now : Int),
      handler supabase quickMatch "u1" "t1" 3 3 now = .ok .internalServerError := by
  refine ⟨by decide, by decide, ?_⟩
  intro supabase now
  rfl

/-- C19 at a failing input: `classicMatch` is the row of a match in classic
mode that `u1` has created and `u2` has joined, after `u1` has rolled a 6,
and `finishMatch` has rows of the same shape in which `u1` has three tokens
at 58 and the token `t4` at 57. The move of `t1` from home to 0 with the 6,
and the move of `t4` from 57 to 58 with a 1, which brings the fourth token
of `u1` to the finish, are valid. For neither does the handler report a
game-over decision: it answers 500, whatever the database client does,
because `applyMove` throws on the stored object without `tokens`. -/
theorem moveHandler_no_game_over_decision :
    classicMatch.validMove ⟨"t1", -1, 0⟩ 6 = .ok true ∧
    finishMatch.validMove ⟨"t4", 57, 58⟩ 1 = .ok true ∧
    ∀ (supabase : SupabaseClient) (now : Int),
      handler supabase classicMatch "u1" "t1" 0 6 now = .ok .internalServerError ∧
      handler supabase finishMatch "u1" "t4" 58 1 now = .ok .internalServerError := by
  refine ⟨by decide, by decide, ?_⟩
  intro supabase now
  exact ⟨rfl, rfl⟩

/-! ## Claims on the initial state -/

/-- The four tokens of a player, written out. -/
theorem createPlayerTokens_eq (player : Player) (color : String) (startPosition : Int) :
    createPlayerTokens player color startPosition =
      [⟨player.id ++ "-" ++ toString 0, player.id, color, startPosition⟩,
       ⟨player.id ++ "-" ++ toString 1, player.id, color, startPosition⟩,
       ⟨player.id ++ "-" ++ toString 2, player.id, color, startPosition⟩,
       ⟨player.id ++ "-" ++ toString 3, player.id, color, startPosition⟩] := rfl

/-- The start cells of the table are 0, 13, 26 and 39. -/
theorem COLOR_POSITIONS_start_mem (c : String) (e : ColorEntry)
    (h : COLOR_POSITIONS c = some e) : e.start ∈ [0, 13, 26, 39] := by
  unfold COLOR_POSITIONS at h
  split_ifs at h <;> simp at h <;> subst h <;> simp

/-- The first four indices of `colors` hold keys of `COLOR_POSITIONS`. -/
theorem colors_getElem? (index : Nat) (h : index < 4) :
    ∃ c e, colors[index]? = some c ∧ COLOR_POSITIONS c = some e := by
  have : index = 0 ∨ index = 1 ∨ index = 2 ∨ index = 3 := by omega
  rcases this with h | h | h | h <;> subst h
  · exact ⟨"red", _, rfl, rfl⟩
  · exact ⟨"blue", _, rfl, rfl⟩
  · exact ⟨"yellow", _, rfl, rfl⟩
  · exact ⟨"green", _, rfl, rfl⟩

/-- What the `forEach` of `createInitialGameState` pushes while the index
stays below 4: four tokens per player, owned by the player, with the colour
of the index and the start position of the mode. -/
theorem createTokensLoop_spec (mode : String) (players : List Player) :
    ∀ (index : Nat) (acc : List Token), index + players.length ≤ 4 →
      ∃ toks, createTokensLoop mode players index acc = .ok (acc ++ toks) ∧
        toks.length = 4 * players.length ∧
        (∀ t ∈ toks, ∃ j p, players[j]? = some p ∧ t.playerId = p.id ∧
          colors[index + j]? = some t.color ∧
          (mode ≠ GAME_MODES_QUICK → t.position = -1) ∧
          (mode = GAME_MODES_QUICK →
            ∃ e, COLOR_POSITIONS t.color = some e ∧ t.position = e.start)) ∧
        ((players.map (fun p => p.id)).Nodup →
          ∀ p ∈ players, (toks.filter (fun t => t.playerId = p.id)).length = 4) := by
  induction players with
  | nil =>
    intro index acc _
    exact ⟨[], by simp [createTokensLoop], rfl, by simp, by simp⟩
  | cons p rest ih =>
    intro index acc hle
    simp only [List.length_cons] at hle
    obtain ⟨c, e, hc, he⟩ := colors_getElem? index (by omega)
    -- the start position of this player
    obtain ⟨start, hstart, hs1, hs2⟩ : ∃ start : Int,
        (if mode = GAME_MODES_QUICK then colorStart c
          else Except.ok (-1)) = Except.ok start ∧
        (mode ≠ GAME_MODES_QUICK → start = -1) ∧
        (mode = GAME_MODES_QUICK → start = e.start) := by
      by_cases hq : mode = GAME_MODES_QUICK
      · exact ⟨e.start, by simp [hq, colorStart_of_some c e he], fun h => absurd hq h,
          fun _ => rfl⟩
      · exact ⟨-1, by simp [hq], fun _ => rfl, fun h => absurd h hq⟩
    obtain ⟨toks, hok, hlen, hmem, hcount⟩ :=
      ih (index + 1) (acc ++ createPlayerTokens p c start) (by omega)
    have hblock : ∀ t ∈ createPlayerTokens p c start,
        t.playerId = p.id ∧ t.color = c ∧ t.position = start := by
      intro t ht
      rw [createPlayerTokens_eq] at ht
      simp only [List.mem_cons, List.mem_singleton, List.not_mem_nil, or_false] at ht
      rcases ht with h | h | h | h <;> subst h <;> exact ⟨rfl, rfl, rfl⟩
    refine ⟨createPlayerTokens p c start ++ toks, ?_, ?_, ?_, ?_⟩
    · rw [createTokensLoop]
      simp only [hc, hstart]
      rw [hok, List.append_assoc]
    · rw [List.length_append, hlen, createPlayerTokens_eq]
      simp only [List.length_cons, List.length_nil]
      omega
    · intro t ht
      rcases List.mem_append.1 ht with ht | ht
      · obtain ⟨h1, h2, h3⟩ := hblock t ht
        refine ⟨0, p, by simp, h1, by rw [Nat.add_zero, h2]; exact hc, ?_, ?_⟩
        · intro hq; rw [h3]; exact hs1 hq
        · intro hq; exact ⟨e, by rw [h2]; exact he, by rw [h3]; exact hs2 hq⟩
      · obtain ⟨j, q, hj, h1, h2, h3⟩ := hmem t ht
        exact ⟨j + 1, q, by simpa using hj, h1, by rw [← h2]; congr 1; omega, h3⟩
    · intro hnodup q hq
      simp only [List.map_cons, List.nodup_cons, List.mem_map, not_exists, not_and] at hnodup
      have hrest : ∀ t ∈ toks, ∃ r ∈ rest, t.playerId = r.id := by
        intro t ht
        obtain ⟨j, r, hj, h1, _⟩ := hmem t ht
        exact ⟨r, List.getElem?_mem hj, h1⟩
      rw [List.filter_append, List.length_append]
      rcases List.mem_cons.1 hq with hq | hq
      · subst hq
        have h1 : (createPlayerTokens q c start).filter (fun t => t.playerId = q.id)
            = createPlayerTokens q c start := by
          rw [List.filter_eq_self]
          intro t ht
          simp [(hblock t ht).1]
        have h2 : toks.filter (fun t => t.playerId = q.id) = [] := by
          rw [List.filter_eq_nil_iff]
          intro t ht
          obtain ⟨r, hr, hid⟩ := hrest t ht
          have : r.id ≠ q.id := fun h => hnodup.1 r hr h
          simp [hid, this]
        rw [h1, h2, createPlayerTokens_eq]
        rfl
      · have h1 : (createPlayerTokens p c start).filter (fun t => t.playerId = q.id) = [] := by
          rw [List.filter_eq_nil_iff]
          intro t ht
          have : p.id ≠ q.id := fun h => hnodup.1 q hq h.symm
          simp [(hblock t ht).1, this]
        rw [h1, hcount hnodup.2 q hq]
        rfl

/-- C20: for every list of 1 to 4 players with pairwise distinct ids and
every mode, `createInitialGameState` returns a state with exactly 4 tokens
per player (4n in total), the tokens of the player at index i having colour
['red','blue','yellow','green'][i]; every token is at position -1 when the
mode is not quick (classic and speed) and at the start cell of its colour
(0, 13, 26, 39) in quick mode; currentPlayerId = players[0].id and
consecutiveSixCount = 0. -/
theorem createInitialGameState_spec (players : List Player) (mode : String)
    (turnNow gameNow : Int)
    (hlen : 1 ≤ players.length ∧ players.length ≤ 4)
    (hnodup : (players.map (fun p => p.id)).Nodup) :
    ∃ state first, createInitialGameState players mode turnNow gameNow = .ok state ∧
      state.tokens.length = 4 * players.length ∧
      (∀ p ∈ players, (state.tokens.filter (fun t => t.playerId = p.id)).length = 4) ∧
      (∀ (i : Nat) (p : Player), players[i]? = some p →
        ∃ color, ["red", "blue", "yellow", "green"][i]? = some color ∧
          ∀ t ∈ state.tokens, t.playerId = p.id → t.color = color) ∧
      (∀ t ∈ state.tokens,
        (mode ≠ GAME_MODES_QUICK → t.position = -1) ∧
        (mode = GAME_MODES_QUICK →
          ∃ entry, COLOR_POSITIONS t.color = some entry ∧ t.position = entry.start ∧
            t.position ∈ [0, 13, 26, 39])) ∧
      players[0]? = some first ∧
      state.currentPlayerId = first.id ∧
      state.consecutiveSixCount = some 0 := by
  obtain ⟨toks, hok, hlen4, hmem, hcount⟩ :=
    createTokensLoop_spec mode players 0 [] (by omega)
  simp only [List.nil_append] at hok
  obtain ⟨first, hfirst⟩ : ∃ first, players[0]? = some first := by
    cases players with
    | nil => simp at hlen
    | cons a rest => exact ⟨a, by simp⟩
  refine ⟨{ tokens := toks, currentPlayerId := first.id, players := players, mode := mode,
            lastDiceRoll := none, consecutiveSixCount := some 0, turnStartTime := turnNow,
            gameStartTime := gameNow, status := "playing", lastMove := none,
            capturedTokens := none, bonusSteps := none, turnForfeited := false },
    first, ?_, hlen4, hcount hnodup, ?_, ?_, hfirst, rfl, rfl⟩
  · simp only [createInitialGameState, hok, hfirst]
  · intro i p hi
    have hi4 : i < 4 := by
      by_contra h
      rw [List.getElem?_eq_none (by omega)] at hi
      cases hi
    obtain ⟨c, _, hc, _⟩ := colors_getElem? i hi4
    refine ⟨c, hc, ?_⟩
    intro t ht hpid
    obtain ⟨j, q, hj, hq, hcol, _⟩ := hmem t ht
    have h1 := findIdx?_player_id players 0 i p hnodup hi
    have h2 := findIdx?_player_id players 0 j q hnodup hj
    rw [← hq, hpid, h1] at h2
    have hij : i = j := by
      injection h2 with h2
      omega
    subst hij
    rw [Nat.zero_add, hc] at hcol
    injection hcol with hcol
    exact hcol.symm
  · intro t ht
    obtain ⟨_, _, _, _, _, hp1, hp2⟩ := hmem t ht
    refine ⟨hp1, fun hq => ?_⟩
    obtain ⟨e, he, hpos⟩ := hp2 hq
    exact ⟨e, he, hpos, by rw [hpos]; exact COLOR_POSITIONS_start_mem t.color e he⟩

/-- C20 for the two players `p1` and `p2` in quick mode. -/
theorem createInitialGameState_spec_witness :
    ∃ state first,
      createInitialGameState [⟨"p1"⟩, ⟨"p2"⟩] "quick" 1000 1001 = .ok state ∧
      state.tokens.length = 4 * ([⟨"p1"⟩, ⟨"p2"⟩] : List Player).length ∧
      (∀ p ∈ ([⟨"p1"⟩, ⟨"p2"⟩] : List Player),
        (state.tokens.filter (fun t => t.playerId = p.id)).length = 4) ∧
      (∀ (i : Nat) (p : Player), ([⟨"p1"⟩, ⟨"p2"⟩] : List Player)[i]? = some p →
        ∃ color, ["red", "blue", "yellow", "green"][i]? = some color ∧
          ∀ t ∈ state.tokens, t.playerId = p.id → t.color = color) ∧
      (∀ t ∈ state.tokens,
        ("quick" ≠ GAME_MODES_QUICK → t.position = -1) ∧
        ("quick" = GAME_MODES_QUICK →
          ∃ entry, COLOR_POSITIONS t.color = some entry ∧ t.position = entry.start ∧
            t.position ∈ [0, 13, 26, 39])) ∧
      ([⟨"p1"⟩, ⟨"p2"⟩] : List Player)[0]? = some first ∧
      state.currentPlayerId = first.id ∧
      state.consecutiveSixCount = some 0 :=
  createInitialGameState_spec [⟨"p1"⟩, ⟨"p2"⟩] "quick" 1000 1001 (by decide) (by decide)

/-! ## Lemmas on sorting and mapping -/

/-- The elements of a list after an insertion. -/
theorem mem_sortedInsert {α : Type} (compare : α → α → Int) (x y : α) (l : List α) :
    y ∈ sortedInsert compare x l ↔ y = x ∨ y ∈ l := by
  induction l with
  | nil => simp [sortedInsert]
  | cons z zs ih =>
    unfold sortedInsert
    split_ifs
    · simp
    · simp only [List.mem_cons, ih]
      tauto

/-- Sorting keeps the elements. -/
theorem mem_arraySort {α : Type} (compare : α → α → Int) (y : α) (l : List α) :
    y ∈ arraySort compare l ↔ y ∈ l := by
  induction l with
  | nil => simp [arraySort]
  | cons x xs ih => simp [arraySort, mem_sortedInsert, ih]

/-- The first element after an insertion. -/
theorem head_sortedInsert {α : Type} (compare : α → α → Int) (x : α) (l : List α) :
    (sortedInsert compare x l)[0]? =
      match l[0]? with
      | none => some x
      | some y => if compare x y ≤ 0 then some x else some y := by
  cases l with
  | nil => rfl
  | cons y ys =>
    unfold sortedInsert
    split_ifs <;> simp [*]

/-- The first element of a sorted array, for a comparator that sorts the
elements of the array by descending `key`: it is the earliest element of
the array with the greatest key. -/
theorem arraySort_head {α K : Type} [LinearOrder K] (compare : α → α → Int) (key : α → K)
    (l : List α) (hcmp : ∀ x ∈ l, ∀ y ∈ l, (compare x y ≤ 0 ↔ key y ≤ key x))
    (hne : l ≠ []) :
    ∃ (i : Nat) (x : α), l[i]? = some x ∧ (arraySort compare l)[0]? = some x ∧
      ∀ (j : Nat) (y : α), l[j]? = some y → key y ≤ key x ∧ (j < i → key y < key x) := by
  induction l with
  | nil => exact absurd rfl hne
  | cons a rest ih =>
    by_cases hrest : rest = []
    · subst hrest
      refine ⟨0, a, rfl, rfl, ?_⟩
      intro j y hj
      cases j with
      | zero =>
        simp only [List.getElem?_cons_zero, Option.some.injEq] at hj
        subst hj
        exact ⟨le_refl _, fun h => absurd h (Nat.lt_irrefl 0)⟩
      | succ j => simp at hj
    · obtain ⟨i, x, hi, hhead, hbest⟩ := ih
        (fun u hu v hv => hcmp u (List.mem_cons_of_mem a hu) v (List.mem_cons_of_mem a hv))
        hrest
      have hxmem : x ∈ a :: rest := List.mem_cons_of_mem a (List.getElem?_mem hi)
      have hax := hcmp a (List.mem_cons_self a rest) x hxmem
      rw [arraySort, head_sortedInsert, hhead]
      by_cases hc : compare a x ≤ 0
      · refine ⟨0, a, by simp, by simp [hc], ?_⟩
        intro j y hj
        refine ⟨?_, fun h => absurd h (Nat.not_lt_zero j)⟩
        cases j with
        | zero =>
          simp only [List.getElem?_cons_zero, Option.some.injEq] at hj
          subst hj
          exact le_refl _
        | succ j =>
          simp only [List.getElem?_cons_succ] at hj
          exact le_trans (hbest j y hj).1 (hax.1 hc)
      · have hlt : key a < key x := by
          rw [hax] at hc
          exact lt_of_not_le hc
        refine ⟨i + 1, x, by simpa using hi, by simp [hc], ?_⟩
        intro j y hj
        cases j with
        | zero =>
          simp only [List.getElem?_cons_zero, Option.some.injEq] at hj
          subst hj
          exact ⟨le_of_lt hlt, fun _ => hlt⟩
        | succ j =>
          simp only [List.getElem?_cons_succ] at hj
          exact ⟨(hbest j y hj).1, fun h => (hbest j y hj).2 (by omega)⟩

/-- A `map` whose callback returns for every element is the plain map. -/
theorem mapExcept_eq_map {α β : Type} (f : α → Except JsError β) (g : α → β) (l : List α)
    (h : ∀ x ∈ l, f x = .ok (g x)) : mapExcept f l = .ok (l.map g) := by
  induction l with
  | nil => rfl
  | cons x xs ih =>
    rw [mapExcept, h x (List.mem_cons_self x xs),
      ih (fun y hy => h y (List.mem_cons_of_mem x hy))]
    rfl

/-- The first element of the sorted array of the values `g x`: it comes
from the earliest element of the list with the greatest key. -/
theorem arraySort_map_head {α β K : Type} [LinearOrder K] (compare : β → β → Int)
    (key : β → K) (g : α → β) (l : List α)
    (hcmp : ∀ x ∈ l, ∀ y ∈ l, (compare (g x) (g y) ≤ 0 ↔ key (g y) ≤ key (g x)))
    (hne : l ≠ []) :
    ∃ (i : Nat) (x : α), l[i]? = some x ∧ (arraySort compare (l.map g))[0]? = some (g x) ∧
      ∀ (j : Nat) (y : α), l[j]? = some y →
        key (g y) ≤ key (g x) ∧ (j < i → key (g y) < key (g x)) := by
  obtain ⟨i, b, hi, hhead, hbest⟩ :=
    arraySort_head compare key (l.map g)
      (by
        intro u hu v hv
        obtain ⟨x, hx, rfl⟩ := List.mem_map.1 hu
        obtain ⟨y, hy, rfl⟩ := List.mem_map.1 hv
        exact hcmp x hx y hy)
      (by simpa using hne)
  rw [List.getElem?_map] at hi
  cases hx : l[i]? with
  | none => simp [hx] at hi
  | some x =>
    simp only [hx, Option.map_some', Option.some.injEq] at hi
    subst hi
    refine ⟨i, x, hx, hhead, ?_⟩
    intro j y hj
    exact hbest j (g y) (by rw [List.getElem?_map, hj]; rfl)

/-- Sorting keeps the length. -/
theorem length_arraySort {α : Type} (compare : α → α → Int) (l : List α) :
    (arraySort compare l).length = l.length := by
  have hins : ∀ (x : α) (l : List α), (sortedInsert compare x l).length = l.length + 1 := by
    intro x l
    induction l with
    | nil => rfl
    | cons y ys ih =>
      unfold sortedInsert
      split_ifs <;> simp [ih]
  induction l with
  | nil => rfl
  | cons x xs ih => rw [arraySort, hins, ih]; rfl

/-! ## Lemmas on the rounding of a product -/

/-- A number that exceeds 53 bits by `shift` bits is at least 2^(shift + 52). -/
theorem excessBits_pow_le (fuel : Nat) :
    ∀ a : Nat, 0 < excessBits fuel a → 2 ^ (excessBits fuel a + 52) ≤ a := by
  induction fuel with
  | zero => intro a h; simp [excessBits] at h
  | succ fuel ih =>
    intro a h
    unfold excessBits at h ⊢
    by_cases ha : a < 2 ^ 53
    · rw [if_pos ha] at h
      exact absurd h (Nat.lt_irrefl 0)
    · rw [if_neg ha] at h ⊢
      by_cases h0 : 0 < excessBits fuel (a / 2)
      · have := ih (a / 2) h0
        have h2 : 2 * (a / 2) ≤ a := Nat.mul_div_le a 2
        calc 2 ^ (excessBits fuel (a / 2) + 1 + 52)
            = 2 * 2 ^ (excessBits fuel (a / 2) + 52) := by ring
          _ ≤ 2 * (a / 2) := Nat.mul_le_mul_left 2 this
          _ ≤ a := h2
      · have h1 : excessBits fuel (a / 2) = 0 := by omega
        rw [h1]
        simpa using Nat.le_of_not_lt ha

/-- A number of more than 53 bits exceeds 53 bits by at least one bit. -/
theorem excessBits_pos (a : Nat) (h : 2 ^ 53 ≤ a) : 0 < excessBits a a := by
  cases a with
  | zero => simp at h
  | succ n =>
    unfold excessBits
    rw [if_neg (Nat.not_lt.2 h)]
    exact Nat.succ_pos _

/-- With enough fuel, the leading bits the halving keeps are at most 53. -/
theorem excessBits_div_lt (fuel : Nat) :
    ∀ a : Nat, a ≤ fuel → a / 2 ^ excessBits fuel a < 2 ^ 53 := by
  induction fuel with
  | zero => intro a h; have : a = 0 := by omega
            subst this; simp [excessBits]
  | succ fuel ih =>
    intro a h
    unfold excessBits
    by_cases ha : a < 2 ^ 53
    · rw [if_pos ha, Nat.pow_zero, Nat.div_one]
      exact ha
    · rw [if_neg ha]
      have h2 : a / 2 ≤ fuel := by
        have : 2 ≤ a := by
          have : (2:Nat) ≤ 2 ^ 53 := by norm_num
          omega
        omega
      have := ih (a / 2) h2
      rw [Nat.pow_succ, Nat.mul_comm, ← Nat.div_div_eq_div_mul]
      exact this

/-- Rounding adds at most half a unit of the last kept bit. -/
theorem roundSignificand_le (a : Nat) (h : 2 ^ 53 ≤ a) :
    roundSignificand a ≤ a + 2 ^ (excessBits a a - 1) := by
  have hpos := excessBits_pos a h
  have hlt : ¬ a < 2 ^ 53 := Nat.not_lt.2 h
  unfold roundSignificand
  rw [if_neg hlt]
  simp only []
  generalize excessBits a a = s at hpos ⊢
  obtain ⟨k, rfl⟩ : ∃ k, s = k + 1 := ⟨s - 1, by omega⟩
  simp only [Nat.add_sub_cancel]
  have hdm : 2 ^ (k + 1) * (a / 2 ^ (k + 1)) + a % 2 ^ (k + 1) = a := Nat.div_add_mod a _
  have hp : 2 ^ (k + 1) = 2 * 2 ^ k := by ring
  have hq : a / 2 ^ (k + 1) * 2 ^ (k + 1) ≤ a := Nat.div_mul_le_self a _
  have hmul : (a / 2 ^ (k + 1) + 1) * 2 ^ (k + 1) =
      a / 2 ^ (k + 1) * 2 ^ (k + 1) + 2 ^ (k + 1) := by ring
  have hcomm : 2 ^ (k + 1) * (a / 2 ^ (k + 1)) = a / 2 ^ (k + 1) * 2 ^ (k + 1) := Nat.mul_comm _ _
  split_ifs <;> omega

/-- The index a draw gives in a non-empty array is inside the array. -/
theorem floorTimes_lt (r : RandomDraw) (n : Nat) (hpos : 0 < n) : r.floorTimes n < n := by
  unfold RandomDraw.floorTimes
  rw [Nat.div_lt_iff_lt_mul (Nat.pow_pos (by norm_num))]
  have h1 : (r.mant + 1) * n ≤ 2 ^ r.exp * n := Nat.mul_le_mul_right n r.lt_one
  have h1a : (r.mant + 1) * n = r.mant * n + n := by ring
  have hcomm : n * 2 ^ r.exp = 2 ^ r.exp * n := Nat.mul_comm _ _
  by_cases h : r.mant * n < 2 ^ 53
  · have : roundSignificand (r.mant * n) = r.mant * n := by
      unfold roundSignificand
      rw [if_pos h]
    omega
  · have hge : 2 ^ 53 ≤ r.mant * n := Nat.le_of_not_lt h
    have hle := roundSignificand_le _ hge
    have hs := excessBits_pow_le _ _ (excessBits_pos _ hge)
    have hs0 := excessBits_pos _ hge
    generalize excessBits (r.mant * n) (r.mant * n) = s at hle hs hs0
    obtain ⟨k, rfl⟩ : ∃ k, s = k + 1 := ⟨s - 1, by omega⟩
    simp only [Nat.add_sub_cancel] at hle
    have h2 : 2 ^ (k + 1 + 52) = 2 ^ k * 2 ^ 53 := by ring
    have h3 : r.mant * n < 2 ^ 53 * n := Nat.mul_lt_mul_of_pos_right r.mant_lt hpos
    have h4 : 2 ^ k * 2 ^ 53 < n * 2 ^ 53 := by
      calc 2 ^ k * 2 ^ 53 ≤ r.mant * n := by rw [← h2]; exact hs
        _ < 2 ^ 53 * n := h3
        _ = n * 2 ^ 53 := Nat.mul_comm _ _
    have h5 : 2 ^ k < n := Nat.lt_of_mul_lt_mul_right h4
    omega

/-- The test `Math.random() < 0.1`: a double in [0, 1) is below the double
`0.1` exactly when it is below 1/10. -/
theorem below_tenth (r : RandomDraw) :
    r.below 1 10 = r.below 3602879701896397 (2 ^ 55) := by
  obtain ⟨m, e, hm, he, hlt⟩ := r
  unfold RandomDraw.below
  simp only [decide_eq_decide]
  have hm1 : m < 9007199254740992 := by norm_num at hm; exact hm
  by_cases h57 : 57 ≤ e
  · obtain ⟨k, rfl⟩ : ∃ k, e = 57 + k := ⟨e - 57, by omega⟩
    have hk : 1 ≤ 2 ^ k := Nat.one_le_two_pow
    have hp : 2 ^ (57 + k) = 144115188075855872 * 2 ^ k := by rw [pow_add]; norm_num
    rw [hp]
    generalize 2 ^ k = x at hk
    norm_num
    constructor <;> intro _ <;> nlinarith
  · have he1 : e ≤ 56 := by omega
    clear he h57
    interval_cases e <;> norm_num at hlt ⊢ <;> omega

/-- A random move of a non-empty array is one of its elements. -/
theorem makeRandomMove_mem (ms : List Move) (r : RandomDraw) (hne : ms ≠ []) :
    ∃ m ∈ ms, makeRandomMove ms r = some m := by
  have hpos : 0 < ms.length := List.length_pos.2 hne
  have hlt : r.floorTimes ms.length < ms.length := floorTimes_lt r ms.length hpos
  refine ⟨ms[r.floorTimes ms.length], List.getElem_mem _, ?_⟩
  unfold makeRandomMove
  exact List.getElem?_eq_getElem hlt

/-! ## Lemmas on the bot scores -/

/-- Every legal move carries the id of a token of the list. -/
theorem token_mem_of_mem_getLegalMoves (tokens : List Token) (d : Int) (mode pid : String)
    (ms : List Move) (h : getLegalMoves tokens d mode pid = .ok ms) (m : Move) (hm : m ∈ ms) :
    ∃ t ∈ tokens, t.id = m.tokenId := by
  obtain ⟨u, hu, _, c, hc, hmc⟩ := (mem_getLegalMoves tokens d mode pid ms h m).1 hm
  exact ⟨u, hu, (mem_getLegalMovesStep d mode u c m hc hmc).1.symm⟩

/-- The capture check returns when the token of the move is in the list. -/
theorem checkForCapture_returns_of_mem (tokens : List Token) (move : Move)
    (h : ∃ t ∈ tokens, t.id = move.tokenId) : ∃ ids, checkForCapture tokens move = .ok ids := by
  obtain ⟨mt, hmt⟩ := (find?_id_isSome tokens move.tokenId).1 h
  exact ⟨_, checkForCapture_of_find tokens move mt hmt⟩

/-- The score the medium bot gives to a move, from the captured ids. -/
theorem mediumMoveScore_eq (state : GameState) (move : Move) (capturedTokens : List String)
    (h : checkForCapture state.tokens move = .ok capturedTokens) :
    mediumMoveScore state move = .ok ⟨move,
      100 * (capturedTokens.length : Int)
        + (if move.to ≥ PATH_LENGTH then 50 else if move.from = -1 then 30 else 0)
        + 2 * move.to
        - (if (state.tokens.filter (fun t => t.position = move.to ∧
              t.playerId = state.currentPlayerId)).length ≥ 2 then 20 else 0)⟩ := by
  unfold mediumMoveScore
  simp only [h, isTokenSafe, Bool.false_eq_true, if_false]
  congr 2
  generalize (state.tokens.filter (fun t => t.position = move.to ∧
    t.playerId = state.currentPlayerId)).length = n
  have hcap : (if capturedTokens.length > 0 then (0 : Int) + 100 * (capturedTokens.length : Int)
      else 0) = 100 * (capturedTokens.length : Int) := by
    by_cases h0 : capturedTokens.length > 0
    · simp [h0]
    · have : capturedTokens.length = 0 := by omega
      simp [this]
  rw [hcap]
  by_cases h1 : n > 1
  · have h1a : n ≥ 2 := h1
    simp only [h1, h1a, if_true]
    split_ifs <;> omega
  · have h1a : ¬ n ≥ 2 := by omega
    simp only [h1, h1a, if_false]
    split_ifs <;> omega

/-- The object the medium bot builds for a move holds that move. -/
theorem mediumMoveScore_move (state : GameState) (move : Move) (s : ScoredMove)
    (h : mediumMoveScore state move = .ok s) : s.move = move := by
  unfold mediumMoveScore at h
  cases hc : checkForCapture state.tokens move with
  | error e => simp [hc] at h
  | ok ids =>
    simp only [hc] at h
    injection h with h
    rw [← h]

/-- The score the hard bot gives to a move, from the captured ids. -/
theorem hardMoveScore_eq (state : GameState) (move : Move) (capturedTokens : List String)
    (h : checkForCapture state.tokens move = .ok capturedTokens) :
    hardMoveScore state move =
      .ok ⟨move, 2 * move.to + 100 * (capturedTokens.length : Int)⟩ := by
  unfold hardMoveScore scoreMoveForMediumBot
  simp only [h, assessThreats, calculatePositionalAdvantage, calculateEndgameScore,
    calculateBlockingScore]
  congr 2
  have hcap : (if capturedTokens.length > 0
      then move.to * 2 + 100 * (capturedTokens.length : Int) else move.to * 2)
        = 2 * move.to + 100 * (capturedTokens.length : Int) := by
    by_cases h0 : capturedTokens.length > 0
    · simp only [h0, if_true]; omega
    · have : capturedTokens.length = 0 := by omega
      simp only [this]; simp; omega
  rw [hcap]
  split_ifs <;> omega

/-- What `makeMediumMove` returns on a non-empty array of moves whose
scores can be computed: the earliest move with the highest score. -/
theorem makeMediumMove_spec (state : GameState) (ms : List Move) (hne : ms ≠ [])
    (hscore : ∀ m ∈ ms, ∃ s, mediumMoveScore state m = .ok s) :
    ∃ (i : Nat) (m : Move) (s : ScoredMove), ms[i]? = some m ∧
      mediumMoveScore state m = .ok s ∧ makeMediumMove state ms = .ok m ∧
      ∀ (j : Nat) (m1 : Move) (s1 : ScoredMove), ms[j]? = some m1 →
        mediumMoveScore state m1 = .ok s1 →
          s1.score ≤ s.score ∧ (j < i → s1.score < s.score) := by
  have hg : ∀ x ∈ ms, mediumMoveScore state x =
      .ok (match mediumMoveScore state x with | .ok y => y | .error _ => ⟨x, 0⟩) := by
    intro x hx
    obtain ⟨sx, hsx⟩ := hscore x hx
    rw [hsx]
  obtain ⟨i, m, hi, hhead, hbest⟩ := arraySort_map_head
    (fun (a b : ScoredMove) => b.score - a.score) (fun a => a.score)
    (fun x => match mediumMoveScore state x with | .ok y => y | .error _ => ⟨x, 0⟩) ms
    (fun x _ y _ => by simp only; omega) hne
  obtain ⟨s, hs⟩ := hscore m (List.getElem?_mem hi)
  refine ⟨i, m, s, hi, hs, ?_, ?_⟩
  · unfold makeMediumMove
    rw [mapExcept_eq_map _ _ ms hg]
    simp only [hhead, hs]
    rw [mediumMoveScore_move state m s hs]
  · intro j m1 s1 hj hs1
    have := hbest j m1 hj
    simp only [hs, hs1] at this
    exact this

/-- The object the hard bot builds for a move holds that move. -/
theorem hardMoveScore_move (state : GameState) (move : Move) (s : ScoredMove)
    (h : hardMoveScore state move = .ok s) : s.move = move := by
  unfold hardMoveScore at h
  cases hc : scoreMoveForMediumBot state move with
  | error e => simp [hc] at h
  | ok v =>
    simp only [hc] at h
    injection h with h
    rw [← h]

/-- What `makeHardMove` returns on a non-empty array of moves whose scores
can be computed: a move of the array, and the earliest move with the
highest score when the first draw is not below 1/10. -/
theorem makeHardMove_spec (state : GameState) (ms : List Move) (random : Nat → RandomDraw)
    (hne : ms ≠ []) (hscore : ∀ m ∈ ms, ∃ s, hardMoveScore state m = .ok s) :
    (∃ m ∈ ms, makeHardMove state ms random = .ok m) ∧
    ((random 0).below 1 10 = false →
      ∃ (i : Nat) (m : Move) (s : ScoredMove), ms[i]? = some m ∧
        hardMoveScore state m = .ok s ∧ makeHardMove state ms random = .ok m ∧
        ∀ (j : Nat) (m1 : Move) (s1 : ScoredMove), ms[j]? = some m1 →
          hardMoveScore state m1 = .ok s1 →
            s1.score ≤ s.score ∧ (j < i → s1.score < s.score)) := by
  have hg : ∀ x ∈ ms, hardMoveScore state x =
      .ok (match hardMoveScore state x with | .ok y => y | .error _ => ⟨x, 0⟩) := by
    intro x hx
    obtain ⟨sx, hsx⟩ := hscore x hx
    rw [hsx]
  obtain ⟨i, m, hi, hhead, hbest⟩ := arraySort_map_head
    (fun (a b : ScoredMove) => b.score - a.score) (fun a => a.score)
    (fun x => match hardMoveScore state x with | .ok y => y | .error _ => ⟨x, 0⟩) ms
    (fun x _ y _ => by simp only; omega) hne
  obtain ⟨s, hs⟩ := hscore m (List.getElem?_mem hi)
  have hmap := mapExcept_eq_map _ _ ms hg
  have hfirst : (random 0).below 1 10 = false → makeHardMove state ms random = .ok m := by
    intro hr
    unfold makeHardMove
    rw [hmap]
    simp only [hr, hhead, hs]
    rw [hardMoveScore_move state m s hs]
    rfl
  constructor
  · cases hr : (random 0).below 1 10 with
    | false => exact ⟨m, List.getElem?_mem hi, hfirst hr⟩
    | true =>
      unfold makeHardMove
      rw [hmap]
      simp only [hr, if_true]
      have hlen : 0 < ((arraySort (fun (a b : ScoredMove) => b.score - a.score)
          (ms.map (fun x => match hardMoveScore state x with
            | .ok y => y | .error _ => ⟨x, 0⟩))).take
          (min 3 (arraySort (fun (a b : ScoredMove) => b.score - a.score)
            (ms.map (fun x => match hardMoveScore state x with
              | .ok y => y | .error _ => ⟨x, 0⟩))).length)).length := by
        have hpos : 0 < ms.length := List.length_pos.2 hne
        simp only [List.length_take, length_arraySort, List.length_map]
        omega
      have hlt := floorTimes_lt (random 1) _ hlen
      rw [List.getElem?_eq_getElem hlt]
      have hmem := List.mem_of_mem_take (List.getElem_mem hlt)
      rw [mem_arraySort] at hmem
      obtain ⟨x, hx, hxe⟩ := List.mem_map.1 hmem
      obtain ⟨sx, hsx⟩ := hscore x hx
      refine ⟨x, hx, ?_⟩
      simp only
      rw [← hxe, hsx]
      simp only
      rw [hardMoveScore_move state x sx hsx]
  · intro hr
    refine ⟨i, m, s, hi, hs, hfirst hr, ?_⟩
    intro j m1 s1 hj hs1
    have := hbest j m1 hj
    simp only [hs, hs1] at this
    exact this

/-- The comparator of the speedster sorts by descending destination. -/
theorem compareProgress_le_iff (x y : Move) :
    compareProgress ⟨x, x.to, decide (x.to ≥ PATH_LENGTH)⟩
        ⟨y, y.to, decide (y.to ≥ PATH_LENGTH)⟩ ≤ 0 ↔ y.to ≤ x.to := by
  unfold compareProgress
  simp only [decide_eq_true_eq, PATH_LENGTH]
  split_ifs <;> omega

/-- What `makeSpeedsterMove` returns on a non-empty array of moves: the
earliest move with the greatest destination. -/
theorem makeSpeedsterMove_spec (state : GameState) (ms : List Move) (hne : ms ≠ []) :
    ∃ (i : Nat) (m : Move), ms[i]? = some m ∧ makeSpeedsterMove state ms = .ok m ∧
      ∀ (j : Nat) (m1 : Move), ms[j]? = some m1 → m1.to ≤ m.to ∧ (j < i → m1.to < m.to) := by
  obtain ⟨i, m, hi, hhead, hbest⟩ := arraySort_map_head compareProgress
    (fun a => a.progress)
    (fun (move : Move) => (⟨move, move.to, decide (move.to ≥ PATH_LENGTH)⟩ : ProgressMove)) ms
    (fun x _ y _ => compareProgress_le_iff x y) hne
  refine ⟨i, m, hi, ?_, hbest⟩
  unfold makeSpeedsterMove
  simp only [hhead]

/-- What the capture loop of the aggressive bot returns: the earliest move
that captures, or nothing when no move captures. -/
theorem firstCapturingMove_spec (state : GameState) (ms : List Move)
    (hcap : ∀ m ∈ ms, ∃ ids, checkForCapture state.tokens m = .ok ids) :
    (∃ (i : Nat) (m : Move) (ids : List String), ms[i]? = some m ∧
        checkForCapture state.tokens m = .ok ids ∧ ids ≠ [] ∧
        (∀ (j : Nat) (m1 : Move), j < i → ms[j]? = some m1 →
          checkForCapture state.tokens m1 = .ok []) ∧
        firstCapturingMove state ms = .ok (some m)) ∨
    ((∀ m ∈ ms, checkForCapture state.tokens m = .ok []) ∧
      firstCapturingMove state ms = .ok none) := by
  induction ms with
  | nil => exact Or.inr ⟨by simp, rfl⟩
  | cons a rest ih =>
    obtain ⟨ids, hids⟩ := hcap a (List.mem_cons_self a rest)
    by_cases hempty : ids = []
    · subst hempty
      have hstep : firstCapturingMove state (a :: rest) = firstCapturingMove state rest := by
        rw [firstCapturingMove, hids]
        simp
      rcases ih (fun m hm => hcap m (List.mem_cons_of_mem a hm)) with
        ⟨i, m, ids1, hi, hm, hne1, hbefore, hres⟩ | ⟨hall, hres⟩
      · refine Or.inl ⟨i + 1, m, ids1, by simpa using hi, hm, hne1, ?_, by rw [hstep, hres]⟩
        intro j m1 hj hj1
        cases j with
        | zero =>
          simp only [List.getElem?_cons_zero, Option.some.injEq] at hj1
          subst hj1
          exact hids
        | succ j =>
          simp only [List.getElem?_cons_succ] at hj1
          exact hbefore j m1 (by omega) hj1
      · refine Or.inr ⟨?_, by rw [hstep, hres]⟩
        intro m hm
        rcases List.mem_cons.1 hm with h | h
        · subst h; exact hids
        · exact hall m h
    · refine Or.inl ⟨0, a, ids, by simp, hids, hempty, fun j m1 hj _ => absurd hj (Nat.not_lt_zero j), ?_⟩
      rw [firstCapturingMove, hids]
      have : ids.length > 0 := List.length_pos.2 hempty
      simp [this]

/-- The risk scores are computed from the moves and their indices. -/
theorem riskScoresFrom_eq (state : GameState) (random : Nat → RandomDraw) (l : List Move) :
    ∀ k : Nat, riskScoresFrom state random l k =
      (l.enumFrom k).map (fun p => ⟨p.2, calculateRiskScore state p.2 (random p.1)⟩) := by
  induction l with
  | nil => intro k; rfl
  | cons a rest ih =>
    intro k
    rw [riskScoresFrom, ih (k + 1)]
    rfl

/-- The comparator of the risks sorts by ascending risk score. -/
theorem compareRisk_le_iff (state : GameState) (x y : Move) (rx ry : RandomDraw) :
    compareRisk ⟨x, calculateRiskScore state x rx⟩ ⟨y, calculateRiskScore state y ry⟩ ≤ 0 ↔
      -(calculateRiskScore state y ry).value ≤ -(calculateRiskScore state x rx).value := by
  have hx : (0 : ℚ) < ((2 ^ rx.exp : Nat) : ℚ) := by
    exact_mod_cast Nat.pow_pos (by norm_num : 0 < 2)
  have hy : (0 : ℚ) < ((2 ^ ry.exp : Nat) : ℚ) := by
    exact_mod_cast Nat.pow_pos (by norm_num : 0 < 2)
  unfold compareRisk calculateRiskScore RiskScore.value
  simp only
  rw [neg_le_neg_iff, div_le_div_iff₀ hx hy, sub_nonpos]
  constructor
  · intro h
    exact_mod_cast h
  · intro h
    exact_mod_cast h

/-- What `makeDefensiveMove` returns on a non-empty array of moves: the
earliest move with the least risk score, the move at index `i` having the
risk score of the draw `i`. -/
theorem makeDefensiveMove_spec (state : GameState) (ms : List Move)
    (random : Nat → RandomDraw) (hne : ms ≠ []) :
    ∃ (i : Nat) (m : Move), ms[i]? = some m ∧ makeDefensiveMove state ms random = .ok m ∧
      ∀ (j : Nat) (m1 : Move), ms[j]? = some m1 →
        (calculateRiskScore state m (random i)).value
            ≤ (calculateRiskScore state m1 (random j)).value ∧
        (j < i → (calculateRiskScore state m (random i)).value
            < (calculateRiskScore state m1 (random j)).value) := by
  obtain ⟨i, x, hi, hhead, hbest⟩ := arraySort_map_head compareRisk
    (fun a => -a.risk.value)
    (fun (p : Nat × Move) => (⟨p.2, calculateRiskScore state p.2 (random p.1)⟩ : RiskedMove))
    (ms.enumFrom 0)
    (fun x _ y _ => compareRisk_le_iff state x.2 y.2 (random x.1) (random y.1))
    (by simpa [List.enumFrom_eq_nil] using hne)
  rw [List.getElem?_enumFrom] at hi
  cases hm : ms[i]? with
  | none => simp [hm] at hi
  | some m =>
    simp only [hm, Option.map_some', Option.some.injEq, Nat.zero_add] at hi
    subst hi
    refine ⟨i, m, hm, ?_, ?_⟩
    · unfold makeDefensiveMove
      have hsafe : ms.filter (fun move => isTokenSafe state move.to) = [] := by
        simp [isTokenSafe]
      simp only [hsafe, List.length_nil, gt_iff_lt, Nat.lt_irrefl, if_false,
        riskScoresFrom_eq, hhead]
    · intro j m1 hj
      have := hbest j (j, m1) (by rw [List.getElem?_enumFrom, hj]; simp)
      simp only [neg_le_neg_iff, neg_lt_neg_iff] at this
      exact this

/-- What `makeAggressiveMove` returns on a non-empty array of moves whose
captures can be computed: the earliest move that captures, or the move of
`makeMediumMove` when no move captures. -/
theorem makeAggressiveMove_spec (state : GameState) (ms : List Move)
    (hcap : ∀ m ∈ ms, ∃ ids, checkForCapture state.tokens m = .ok ids) :
    (∃ (i : Nat) (m : Move) (ids : List String), ms[i]? = some m ∧
        checkForCapture state.tokens m = .ok ids ∧ ids ≠ [] ∧
        (∀ (j : Nat) (m1 : Move), j < i → ms[j]? = some m1 →
          checkForCapture state.tokens m1 = .ok []) ∧
        makeAggressiveMove state ms = .ok m) ∨
    ((∀ m ∈ ms, checkForCapture state.tokens m = .ok []) ∧
      makeAggressiveMove state ms = makeMediumMove state ms) := by
  rcases firstCapturingMove_spec state ms hcap with
    ⟨i, m, ids, hi, hm, hne, hbefore, hres⟩ | ⟨hall, hres⟩
  · exact Or.inl ⟨i, m, ids, hi, hm, hne, hbefore, by simp only [makeAggressiveMove, hres]⟩
  · refine Or.inr ⟨hall, ?_⟩
    have hthreat : ms.filter (fun move => canThreatenOpponents state move) = [] := by
      simp [canThreatenOpponents]
    simp only [makeAggressiveMove, hres, hthreat]

/-- The medium score of a legal move can be computed. -/
theorem mediumMoveScore_returns_of_legal (state : GameState) (d : Int) (mode : String)
    (ms : List Move)
    (hok : getLegalMoves state.tokens d mode state.currentPlayerId = .ok ms) :
    ∀ m ∈ ms, ∃ s, mediumMoveScore state m = .ok s := by
  intro m hm
  obtain ⟨ids, hids⟩ := checkForCapture_returns_of_mem state.tokens m
    (token_mem_of_mem_getLegalMoves _ d mode _ ms hok m hm)
  exact ⟨_, mediumMoveScore_eq state m ids hids⟩

/-- The hard score of a legal move can be computed. -/
theorem hardMoveScore_returns_of_legal (state : GameState) (d : Int) (mode : String)
    (ms : List Move)
    (hok : getLegalMoves state.tokens d mode state.currentPlayerId = .ok ms) :
    ∀ m ∈ ms, ∃ s, hardMoveScore state m = .ok s := by
  intro m hm
  obtain ⟨ids, hids⟩ := checkForCapture_returns_of_mem state.tokens m
    (token_mem_of_mem_getLegalMoves _ d mode _ ms hok m hm)
  exact ⟨_, hardMoveScore_eq state m ids hids⟩

/-- A move of the legal list is accepted by `isValidMove`. -/
theorem isValidMove_of_mem (state : GameState) (d : Int) (mode : String) (ms : List Move)
    (hok : getLegalMoves state.tokens d mode state.currentPlayerId = .ok ms)
    (m : Move) (hm : m ∈ ms) : isValidMove state m d mode = .ok true := by
  unfold isValidMove
  rw [hok]
  simp only [Except.ok.injEq, List.any_eq_true, decide_eq_true_eq]
  exact ⟨m, hm, rfl, rfl, rfl⟩

/-- The three cases of `makeBotMove`: no legal move, one legal move, and
two or more, where a move of the legal list is returned. -/
theorem makeBotMove_cases (state : GameState) (d : Int) (mode : String)
    (difficulty : Option String) (random : Nat → RandomDraw) (ms : List Move)
    (hok : getLegalMoves state.tokens d mode state.currentPlayerId = .ok ms) :
    (ms = [] ∧ makeBotMove state d mode difficulty random = .ok none) ∨
    (∃ m, ms = [m] ∧ makeBotMove state d mode difficulty random = .ok (some m)) ∨
    (2 ≤ ms.length ∧ ∃ m ∈ ms, makeBotMove state d mode difficulty random = .ok (some m)) := by
  have hmedium := mediumMoveScore_returns_of_legal state d mode ms hok
  have hhard := hardMoveScore_returns_of_legal state d mode ms hok
  unfold makeBotMove
  rw [hok]
  rcases ms with _ | ⟨a, _ | ⟨b, rest⟩⟩
  · exact Or.inl ⟨rfl, rfl⟩
  · exact Or.inr (Or.inl ⟨a, rfl, rfl⟩)
  · refine Or.inr (Or.inr ⟨by simp, ?_⟩)
    have hne : a :: b :: rest ≠ [] := by simp
    have h0 : ¬ (a :: b :: rest).length = 0 := by simp
    have h1 : ¬ (a :: b :: rest).length = 1 := by simp
    simp only [h0, h1, if_false]
    obtain ⟨_, m, _, hi, _, hmed, _⟩ := makeMediumMove_spec state _ hne hmedium
    have hmmem := List.getElem?_mem hi
    split_ifs
    · -- easy
      unfold makeEasyMove
      split_ifs
      · exact ⟨m, hmmem, by rw [hmed]⟩
      · obtain ⟨r, hr, hres⟩ := makeRandomMove_mem (a :: b :: rest) (random 1) hne
        exact ⟨r, hr, by rw [hres]⟩
    · -- medium
      exact ⟨m, hmmem, by rw [hmed]⟩
    · -- hard
      obtain ⟨⟨h, hh, hres⟩, _⟩ := makeHardMove_spec state _ random hne hhard
      exact ⟨h, hh, by rw [hres]⟩
    · -- default
      obtain ⟨r, hr, hres⟩ := makeRandomMove_mem (a :: b :: rest) (random 0) hne
      exact ⟨r, hr, by rw [hres]⟩

/-- The three cases of `makePersonalityMove`: no legal move, one legal
move, and two or more, where a move of the legal list is returned. -/
theorem makePersonalityMove_cases (state : GameState) (d : Int) (mode : String)
    (personality : String) (random : Nat → RandomDraw) (ms : List Move)
    (hok : getLegalMoves state.tokens d mode state.currentPlayerId = .ok ms) :
    (ms = [] ∧ makePersonalityMove state d mode personality random = .ok none) ∨
    (∃ m, ms = [m] ∧ makePersonalityMove state d mode personality random = .ok (some m)) ∨
    (2 ≤ ms.length ∧
      ∃ m ∈ ms, makePersonalityMove state d mode personality random = .ok (some m)) := by
  have hmedium := mediumMoveScore_returns_of_legal state d mode ms hok
  have hcap : ∀ m ∈ ms, ∃ ids, checkForCapture state.tokens m = .ok ids := fun m hm =>
    checkForCapture_returns_of_mem state.tokens m
      (token_mem_of_mem_getLegalMoves _ d mode _ ms hok m hm)
  unfold makePersonalityMove
  rw [hok]
  rcases ms with _ | ⟨a, _ | ⟨b, rest⟩⟩
  · exact Or.inl ⟨rfl, rfl⟩
  · exact Or.inr (Or.inl ⟨a, rfl, rfl⟩)
  · refine Or.inr (Or.inr ⟨by simp, ?_⟩)
    have hne : a :: b :: rest ≠ [] := by simp
    have h0 : ¬ (a :: b :: rest).length = 0 := by simp
    have h1 : ¬ (a :: b :: rest).length = 1 := by simp
    simp only [h0, h1, if_false]
    obtain ⟨_, m, _, hi, _, hmed, _⟩ := makeMediumMove_spec state _ hne hmedium
    have hmmem := List.getElem?_mem hi
    split_ifs
    · -- aggressive
      rcases makeAggressiveMove_spec state _ hcap with
        ⟨_, g, _, hg, _, _, _, hres⟩ | ⟨_, hres⟩
      · exact ⟨g, List.getElem?_mem hg, by rw [hres]⟩
      · exact ⟨m, hmmem, by rw [hres, hmed]⟩
    · -- defensive
      obtain ⟨_, g, hg, hres, _⟩ := makeDefensiveMove_spec state _ random hne
      exact ⟨g, List.getElem?_mem hg, by rw [hres]⟩
    · -- speedster
      obtain ⟨_, g, hg, hres, _⟩ := makeSpeedsterMove_spec state _ hne
      exact ⟨g, List.getElem?_mem hg, by rw [hres]⟩
    · -- default
      exact ⟨m, hmmem, by rw [hmed]⟩

/-! ## Claims on the bot decision engine -/

/-- C21: for every state, dice value, mode, difficulty (omitted and unknown
ones included), personality and every outcome of the random draws, when
`getLegalMoves` for the current player returns the list `ms`: `makeBotMove`
and `makePersonalityMove` return null if and only if `ms` is empty, a move
they return is an element of `ms` and is accepted by `isValidMove`, and
when `ms` holds exactly one move that move is returned. When
`getLegalMoves` throws, both bots throw (and a run of `getLegalMoves` with
an undefined destination, which the embedding does not follow, is not
followed in the bots either). -/
theorem bot_move_is_legal (state : GameState) (diceValue : Int) (mode : String)
    (difficulty : Option String) (personality : String) (random : Nat → RandomDraw) :
    (∀ ms, getLegalMoves state.tokens diceValue mode state.currentPlayerId = .ok ms →
      (∃ result, makeBotMove state diceValue mode difficulty random = .ok result ∧
        (result = none ↔ ms = []) ∧
        (∀ m, result = some m → m ∈ ms ∧ isValidMove state m diceValue mode = .ok true) ∧
        (∀ m, ms = [m] → result = some m)) ∧
      (∃ result, makePersonalityMove state diceValue mode personality random = .ok result ∧
        (result = none ↔ ms = []) ∧
        (∀ m, result = some m → m ∈ ms ∧ isValidMove state m diceValue mode = .ok true) ∧
        (∀ m, ms = [m] → result = some m))) ∧
    (∀ e, getLegalMoves state.tokens diceValue mode state.currentPlayerId = .error e →
      makeBotMove state diceValue mode difficulty random = .error e ∧
      makePersonalityMove state diceValue mode personality random = .error e) := by
  have key : ∀ (ms : List Move) (f : Except JsError (Option Move)),
      getLegalMoves state.tokens diceValue mode state.currentPlayerId = .ok ms →
      ((ms = [] ∧ f = .ok none) ∨ (∃ m, ms = [m] ∧ f = .ok (some m)) ∨
        (2 ≤ ms.length ∧ ∃ m ∈ ms, f = .ok (some m))) →
      ∃ result, f = .ok result ∧ (result = none ↔ ms = []) ∧
        (∀ m, result = some m → m ∈ ms ∧ isValidMove state m diceValue mode = .ok true) ∧
        (∀ m, ms = [m] → result = some m) := by
    intro ms f hok hcases
    rcases hcases with ⟨hms, hf⟩ | ⟨m, hms, hf⟩ | ⟨hlen, m, hm, hf⟩
    · subst hms
      exact ⟨none, hf, by simp, by simp, by simp⟩
    · subst hms
      refine ⟨some m, hf, by simp, ?_, ?_⟩
      · intro m1 h1
        injection h1 with h1
        subst h1
        exact ⟨by simp, isValidMove_of_mem state diceValue mode _ hok _ (by simp)⟩
      · intro m1 h1
        injection h1 with h1
        rw [h1]
    · refine ⟨some m, hf, ?_, ?_, ?_⟩
      · constructor
        · intro h; cases h
        · intro h; subst h; simp at hlen
      · intro m1 h1
        injection h1 with h1
        subst h1
        exact ⟨hm, isValidMove_of_mem state diceValue mode _ hok _ hm⟩
      · intro m1 h1
        subst h1
        simp at hlen
  refine ⟨fun ms hok => ⟨?_, ?_⟩, fun e he => ⟨?_, ?_⟩⟩
  · exact key ms _ hok (makeBotMove_cases state diceValue mode difficulty random ms hok)
  · exact key ms _ hok
      (makePersonalityMove_cases state diceValue mode personality random ms hok)
  · simp only [makeBotMove, he]
  · simp only [makePersonalityMove, he]

/-- C22 (as amended): the score `makeMediumMove` assigns to a move for
which `checkForCapture` reports the list `capturedTokens` is
100 × (length of capturedTokens) + 50 if move.to >= PATH_LENGTH, otherwise
+ 30 if move.from = -1, + 2 × move.to, − 20 if at least two tokens of the
current player are at the destination; no term is added for a safe cell,
`isTokenSafe` being false for every position. -/
theorem mediumMoveScore_formula (state : GameState) (move : Move)
    (capturedTokens : List String)
    (hcap : checkForCapture state.tokens move = .ok capturedTokens) :
    mediumMoveScore state move = .ok ⟨move,
      100 * (capturedTokens.length : Int)
        + (if move.to ≥ PATH_LENGTH then 50 else if move.from = -1 then 30 else 0)
        + 2 * move.to
        - (if (state.tokens.filter (fun t => t.position = move.to ∧
              t.playerId = state.currentPlayerId)).length ≥ 2 then 20 else 0)⟩ ∧
    isTokenSafe state move.to = false :=
  ⟨mediumMoveScore_eq state move capturedTokens hcap, rfl⟩

/-- C22 (as amended) at the bot position: the move of `p1-1` from 2 to the
star cell 8. -/
theorem mediumMoveScore_formula_witness :
    mediumMoveScore botState ⟨"p1-1", 2, 8⟩ = .ok ⟨⟨"p1-1", 2, 8⟩,
      100 * (([] : List String).length : Int)
        + (if (8 : Int) ≥ PATH_LENGTH then 50 else if (2 : Int) = -1 then 30 else 0)
        + 2 * 8
        - (if (botState.tokens.filter (fun t => t.position = 8 ∧
              t.playerId = botState.currentPlayerId)).length ≥ 2 then 20 else 0)⟩ ∧
    isTokenSafe botState 8 = false :=
  mediumMoveScore_formula botState ⟨"p1-1", 2, 8⟩ [] (by decide)

/-- C22 as stated fails: the legal move of `p1-1` from 2 to the safe cell 8
captures nothing, neither enters the home stretch nor leaves home and meets
no own token, so the claimed score is 2 × 8 + 10 = 26, while the score of
`makeMediumMove` is 16. -/
theorem mediumMoveScore_no_safe_bonus :
    getLegalMoves botState.tokens 6 "classic" botState.currentPlayerId
      = .ok [⟨"p1-0", -1, 0⟩, ⟨"p1-1", 2, 8⟩, ⟨"p1-2", 4, 10⟩] ∧
    checkForCapture botState.tokens ⟨"p1-1", 2, 8⟩ = .ok [] ∧
    isSafeCell 8 = true ∧
    mediumMoveScore botState ⟨"p1-1", 2, 8⟩ = .ok ⟨⟨"p1-1", 2, 8⟩, 16⟩ ∧
    mediumMoveScore botState ⟨"p1-1", 2, 8⟩ ≠
      .ok ⟨⟨"p1-1", 2, 8⟩, 100 * 0 + 0 + 0 + 2 * 8 + 10 - 0⟩ := by
  decide

/-- C23 (as amended): the score of the hard bot for a move is the score of
`scoreMoveForMediumBot`, 2 × move.to + 100 × (number of captured tokens),
plus the threat, positional, endgame and blocking terms, which are 0; when
the first draw is not below 1/10, `makeHardMove` returns the earliest legal
move with the highest such score. -/
theorem makeHardMove_simplified_score (state : GameState) (diceValue : Int) (mode : String)
    (random : Nat → RandomDraw) (ms : List Move)
    (hok : getLegalMoves state.tokens diceValue mode state.currentPlayerId = .ok ms)
    (hne : ms ≠ []) (hdraw : (random 0).below 1 10 = false) :
    (∀ m ∈ ms, ∃ capturedTokens, checkForCapture state.tokens m = .ok capturedTokens ∧
      scoreMoveForMediumBot state m
        = .ok (2 * m.to + 100 * (capturedTokens.length : Int)) ∧
      hardMoveScore state m
        = .ok ⟨m, 2 * m.to + 100 * (capturedTokens.length : Int) + assessThreats state m
          + calculatePositionalAdvantage state m + calculateEndgameScore state m
          + calculateBlockingScore state m⟩ ∧
      assessThreats state m = 0 ∧ calculatePositionalAdvantage state m = 0 ∧
      calculateEndgameScore state m = 0 ∧ calculateBlockingScore state m = 0) ∧
    ∃ (i : Nat) (m : Move) (s : ScoredMove), ms[i]? = some m ∧
      hardMoveScore state m = .ok s ∧ makeHardMove state ms random = .ok m ∧
      ∀ (j : Nat) (m1 : Move) (s1 : ScoredMove), ms[j]? = some m1 →
        hardMoveScore state m1 = .ok s1 →
          s1.score ≤ s.score ∧ (j < i → s1.score < s.score) := by
  refine ⟨?_, (makeHardMove_spec state ms random hne
    (hardMoveScore_returns_of_legal state diceValue mode ms hok)).2 hdraw⟩
  intro m hm
  obtain ⟨ids, hids⟩ := checkForCapture_returns_of_mem state.tokens m
    (token_mem_of_mem_getLegalMoves _ diceValue mode _ ms hok m hm)
  refine ⟨ids, hids, ?_, ?_, rfl, rfl, rfl, rfl⟩
  · unfold scoreMoveForMediumBot
    simp only [hids]
    by_cases h0 : ids.length > 0
    · simp only [h0, if_true]
      congr 1
      omega
    · have : ids.length = 0 := by omega
      simp only [this]
      simp
      omega
  · rw [hardMoveScore_eq state m ids hids]
    simp [assessThreats, calculatePositionalAdvantage, calculateEndgameScore,
      calculateBlockingScore]

/-- C23 (as amended) at the bot position, dice value 6, classic mode. -/
theorem makeHardMove_simplified_score_witness :
    (∀ m ∈ [(⟨"p1-0", -1, 0⟩ : Move), ⟨"p1-1", 2, 8⟩, ⟨"p1-2", 4, 10⟩],
      ∃ capturedTokens, checkForCapture botState.tokens m = .ok capturedTokens ∧
      scoreMoveForMediumBot botState m
        = .ok (2 * m.to + 100 * (capturedTokens.length : Int)) ∧
      hardMoveScore botState m
        = .ok ⟨m, 2 * m.to + 100 * (capturedTokens.length : Int) + assessThreats botState m
          + calculatePositionalAdvantage botState m + calculateEndgameScore botState m
          + calculateBlockingScore botState m⟩ ∧
      assessThreats botState m = 0 ∧ calculatePositionalAdvantage botState m = 0 ∧
      calculateEndgameScore botState m = 0 ∧ calculateBlockingScore botState m = 0) ∧
    ∃ (i : Nat) (m : Move) (s : ScoredMove),
      [(⟨"p1-0", -1, 0⟩ : Move), ⟨"p1-1", 2, 8⟩, ⟨"p1-2", 4, 10⟩][i]? = some m ∧
      hardMoveScore botState m = .ok s ∧
      makeHardMove botState [⟨"p1-0", -1, 0⟩, ⟨"p1-1", 2, 8⟩, ⟨"p1-2", 4, 10⟩] sampleRandom
        = .ok m ∧
      ∀ (j : Nat) (m1 : Move) (s1 : ScoredMove),
        [(⟨"p1-0", -1, 0⟩ : Move), ⟨"p1-1", 2, 8⟩, ⟨"p1-2", 4, 10⟩][j]? = some m1 →
        hardMoveScore botState m1 = .ok s1 →
          s1.score ≤ s.score ∧ (j < i → s1.score < s.score) :=
  makeHardMove_simplified_score botState 6 "classic" sampleRandom _ (by decide) (by decide)
    (by decide)

/-- C23 as stated fails: at the bot position with dice value 6 the move from
home has the medium score 30 and the hard score 0, and with the first draw
0.5 (the randomisation branch is not taken) `makeHardMove` returns the move
of `p1-2` to 10 while `makeMediumMove` returns the move from home. -/
theorem makeHardMove_differs_from_makeMediumMove :
    getLegalMoves botState.tokens 6 "classic" botState.currentPlayerId
      = .ok [⟨"p1-0", -1, 0⟩, ⟨"p1-1", 2, 8⟩, ⟨"p1-2", 4, 10⟩] ∧
    mediumMoveScore botState ⟨"p1-0", -1, 0⟩ = .ok ⟨⟨"p1-0", -1, 0⟩, 30⟩ ∧
    hardMoveScore botState ⟨"p1-0", -1, 0⟩ = .ok ⟨⟨"p1-0", -1, 0⟩, 0⟩ ∧
    (sampleRandom 0).below 1 10 = false ∧
    makeMediumMove botState [⟨"p1-0", -1, 0⟩, ⟨"p1-1", 2, 8⟩, ⟨"p1-2", 4, 10⟩]
      = .ok ⟨"p1-0", -1, 0⟩ ∧
    makeHardMove botState [⟨"p1-0", -1, 0⟩, ⟨"p1-1", 2, 8⟩, ⟨"p1-2", 4, 10⟩] sampleRandom
      = .ok ⟨"p1-2", 4, 10⟩ := by
  decide

/-- C24: when `getLegalMoves` for the current player returns the list
`ms`: if some legal move captures (`checkForCapture` on the tokens of the
state reports a non-empty list), `makePersonalityMove` with personality
'aggressive' returns the first capturing move in legal-move order; if no
legal move captures and there is a legal move, it returns the move
`makeMediumMove` selects. -/
theorem makePersonalityMove_aggressive (state : GameState) (diceValue : Int) (mode : String)
    (random : Nat → RandomDraw) (ms : List Move)
    (hok : getLegalMoves state.tokens diceValue mode state.currentPlayerId = .ok ms) :
    ((∃ m ∈ ms, ∃ ids, checkForCapture state.tokens m = .ok ids ∧ ids ≠ []) →
      ∃ (i : Nat) (m : Move) (ids : List String), ms[i]? = some m ∧
        checkForCapture state.tokens m = .ok ids ∧ ids ≠ [] ∧
        (∀ (j : Nat) (m1 : Move), j < i → ms[j]? = some m1 →
          checkForCapture state.tokens m1 = .ok []) ∧
        makePersonalityMove state diceValue mode BOT_PERSONALITIES_AGGRESSIVE random
          = .ok (some m)) ∧
    ((∀ m ∈ ms, checkForCapture state.tokens m = .ok []) → ms ≠ [] →
      ∃ m, makeMediumMove state ms = .ok m ∧
        makePersonalityMove state diceValue mode BOT_PERSONALITIES_AGGRESSIVE random
          = .ok (some m)) := by
  have hmedium := mediumMoveScore_returns_of_legal state diceValue mode ms hok
  have hcap : ∀ m ∈ ms, ∃ ids, checkForCapture state.tokens m = .ok ids := fun m hm =>
    checkForCapture_returns_of_mem state.tokens m
      (token_mem_of_mem_getLegalMoves _ diceValue mode _ ms hok m hm)
  have hspec := makeAggressiveMove_spec state ms hcap
  unfold makePersonalityMove
  rw [hok]
  rcases ms with _ | ⟨a, _ | ⟨b, rest⟩⟩
  · exact ⟨fun h => by simp at h, fun _ h => absurd rfl h⟩
  · constructor
    · rintro ⟨m, hm, ids, hids, hne⟩
      simp only [List.mem_singleton] at hm
      subst hm
      exact ⟨0, m, ids, rfl, hids, hne, fun j _ hj => absurd hj (Nat.not_lt_zero j), rfl⟩
    · intro _ _
      obtain ⟨i, m, _, hi, _, hmed, _⟩ := makeMediumMove_spec state [a] (by simp) hmedium
      have hma : m = a := by
        have := List.getElem?_mem hi
        simpa using this
      subst hma
      exact ⟨m, hmed, rfl⟩
  · have h0 : ¬ (a :: b :: rest).length = 0 := by simp
    have h1 : ¬ (a :: b :: rest).length = 1 := by simp
    simp only [h0, h1, if_false, BOT_PERSONALITIES_AGGRESSIVE, if_true]
    constructor
    · rintro ⟨m, hm, ids, hids, hne⟩
      rcases hspec with ⟨i, g, gids, hg, hgids, hgne, hbefore, hres⟩ | ⟨hall, _⟩
      · exact ⟨i, g, gids, hg, hgids, hgne, hbefore, by rw [hres]⟩
      · rw [hall m hm] at hids
        injection hids with hids
        exact absurd hids.symm hne
    · intro hall _
      rcases hspec with ⟨i, g, gids, hg, hgids, hgne, _, _⟩ | ⟨_, hres⟩
      · rw [hall g (List.getElem?_mem hg)] at hgids
        injection hgids with hgids
        exact absurd hgids.symm hgne
      · obtain ⟨_, m, _, _, _, hmed, _⟩ :=
          makeMediumMove_spec state (a :: b :: rest) (by simp) hmedium
        exact ⟨m, hmed, by rw [hres, hmed]⟩

/-- C24 at the sample position with dice value 6 in quick mode, where no
legal move of `p1` captures. -/
theorem makePersonalityMove_aggressive_witness :
    ((∃ m ∈ [(⟨"p1-0", -1, 0⟩ : Move), ⟨"p1-1", 50, 56⟩],
        ∃ ids, checkForCapture sampleState.tokens m = .ok ids ∧ ids ≠ []) →
      ∃ (i : Nat) (m : Move) (ids : List String),
        [(⟨"p1-0", -1, 0⟩ : Move), ⟨"p1-1", 50, 56⟩][i]? = some m ∧
        checkForCapture sampleState.tokens m = .ok ids ∧ ids ≠ [] ∧
        (∀ (j : Nat) (m1 : Move), j < i →
          [(⟨"p1-0", -1, 0⟩ : Move), ⟨"p1-1", 50, 56⟩][j]? = some m1 →
          checkForCapture sampleState.tokens m1 = .ok []) ∧
        makePersonalityMove sampleState 6 "quick" BOT_PERSONALITIES_AGGRESSIVE sampleRandom
          = .ok (some m)) ∧
    ((∀ m ∈ [(⟨"p1-0", -1, 0⟩ : Move), ⟨"p1-1", 50, 56⟩],
        checkForCapture sampleState.tokens m = .ok []) →
      [(⟨"p1-0", -1, 0⟩ : Move), ⟨"p1-1", 50, 56⟩] ≠ [] →
      ∃ m, makeMediumMove sampleState [⟨"p1-0", -1, 0⟩, ⟨"p1-1", 50, 56⟩] = .ok m ∧
        makePersonalityMove sampleState 6 "quick" BOT_PERSONALITIES_AGGRESSIVE sampleRandom
          = .ok (some m)) :=
  makePersonalityMove_aggressive sampleState 6 "quick" sampleRandom _ (by decide)

/-- C25 (as amended): when `getLegalMoves` for the current player returns a
list `ms` of at least two moves, `makePersonalityMove` with personality
'defensive' returns the earliest legal move with the least risk score, the
risk score of the move at index `i` being the double `Math.random() * 10`
of the draw `i`, that is 10 times the draw rounded to a double; whether a
move lands on a safe cell plays no part, `isTokenSafe` being false for
every position. -/
theorem makePersonalityMove_defensive (state : GameState) (diceValue : Int) (mode : String)
    (random : Nat → RandomDraw) (ms : List Move)
    (hok : getLegalMoves state.tokens diceValue mode state.currentPlayerId = .ok ms)
    (hlen : 2 ≤ ms.length) :
    ∃ (i : Nat) (m : Move), ms[i]? = some m ∧
      makePersonalityMove state diceValue mode BOT_PERSONALITIES_DEFENSIVE random
        = .ok (some m) ∧
      (∀ (j : Nat) (m1 : Move), ms[j]? = some m1 →
        (calculateRiskScore state m (random i)).value
            ≤ (calculateRiskScore state m1 (random j)).value ∧
        (j < i → (calculateRiskScore state m (random i)).value
            < (calculateRiskScore state m1 (random j)).value)) ∧
      (∀ position, isTokenSafe state position = false) := by
  have hne : ms ≠ [] := by
    intro h
    subst h
    simp at hlen
  obtain ⟨i, m, hi, hres, hbest⟩ := makeDefensiveMove_spec state ms random hne
  refine ⟨i, m, hi, ?_, hbest, fun _ => rfl⟩
  unfold makePersonalityMove
  rw [hok]
  have h0 : ¬ ms.length = 0 := by omega
  have h1 : ¬ ms.length = 1 := by omega
  have hp : ¬ BOT_PERSONALITIES_DEFENSIVE = BOT_PERSONALITIES_AGGRESSIVE := by decide
  simp only [h0, h1, if_false, hp, if_true, hres]

/-- C25 (as amended) at the bot position, dice value 6, classic mode. -/
theorem makePersonalityMove_defensive_witness :
    ∃ (i : Nat) (m : Move),
      [(⟨"p1-0", -1, 0⟩ : Move), ⟨"p1-1", 2, 8⟩, ⟨"p1-2", 4, 10⟩][i]? = some m ∧
      makePersonalityMove botState 6 "classic" BOT_PERSONALITIES_DEFENSIVE sampleRandom
        = .ok (some m) ∧
      (∀ (j : Nat) (m1 : Move),
        [(⟨"p1-0", -1, 0⟩ : Move), ⟨"p1-1", 2, 8⟩, ⟨"p1-2", 4, 10⟩][j]? = some m1 →
        (calculateRiskScore botState m (sampleRandom i)).value
            ≤ (calculateRiskScore botState m1 (sampleRandom j)).value ∧
        (j < i → (calculateRiskScore botState m (sampleRandom i)).value
            < (calculateRiskScore botState m1 (sampleRandom j)).value)) ∧
      (∀ position, isTokenSafe botState position = false) :=
  makePersonalityMove_defensive botState 6 "classic" sampleRandom _ (by decide) (by decide)

/-- C25 as stated fails: at the bot position with dice value 6 there are
three legal moves, of which the move of `p1-1` lands on the safe cell 8;
with the draws 0.5, 0.9, 0.1 the defensive bot returns the move of
`p1-2` to cell 10, which is not a safe cell. -/
theorem makePersonalityMove_defensive_ignores_safe_cells :
    getLegalMoves botState.tokens 6 "classic" botState.currentPlayerId
      = .ok [⟨"p1-0", -1, 0⟩, ⟨"p1-1", 2, 8⟩, ⟨"p1-2", 4, 10⟩] ∧
    isSafeCell 8 = true ∧
    makePersonalityMove botState 6 "classic" BOT_PERSONALITIES_DEFENSIVE sampleRandom
      = .ok (some ⟨"p1-2", 4, 10⟩) ∧
    isSafeCell 10 = false := by
  decide

/-- Risk scores that tie after rounding: the draws `tiedRandom 0` and
`tiedRandom 1` differ, but their products with 10 are the same double, and
the third product is greater; the sort is stable, and the defensive bot
returns the first legal move. -/
theorem makeDefensiveMove_rounded_tie :
    (tiedRandom 0).mant ≠ (tiedRandom 1).mant ∧
    calculateRiskScore botState ⟨"p1-0", -1, 0⟩ (tiedRandom 0)
      = calculateRiskScore botState ⟨"p1-1", 2, 8⟩ (tiedRandom 1) ∧
    makePersonalityMove botState 6 "classic" BOT_PERSONALITIES_DEFENSIVE tiedRandom
      = .ok (some ⟨"p1-0", -1, 0⟩) := by
  decide

/-- C26: when `getLegalMoves` for the current player returns a non-empty
list `ms`, `makePersonalityMove` with personality 'speedster' returns the
first move in legal-move order whose destination move.to is maximal among
the legal moves. -/
theorem makePersonalityMove_speedster (state : GameState) (diceValue : Int) (mode : String)
    (random : Nat → RandomDraw) (ms : List Move)
    (hok : getLegalMoves state.tokens diceValue mode state.currentPlayerId = .ok ms)
    (hne : ms ≠ []) :
    ∃ (i : Nat) (m : Move), ms[i]? = some m ∧
      makePersonalityMove state diceValue mode BOT_PERSONALITIES_SPEEDSTER random
        = .ok (some m) ∧
      ∀ (j : Nat) (m1 : Move), ms[j]? = some m1 →
        m1.to ≤ m.to ∧ (j < i → m1.to < m.to) := by
  unfold makePersonalityMove
  rw [hok]
  rcases ms with _ | ⟨a, _ | ⟨b, rest⟩⟩
  · exact absurd rfl hne
  · refine ⟨0, a, rfl, rfl, ?_⟩
    intro j m1 hj
    cases j with
    | zero =>
      simp only [List.getElem?_cons_zero, Option.some.injEq] at hj
      subst hj
      exact ⟨le_refl _, fun h => absurd h (Nat.lt_irrefl 0)⟩
    | succ j => simp at hj
  · obtain ⟨i, m, hi, hres, hbest⟩ := makeSpeedsterMove_spec state (a :: b :: rest) hne
    refine ⟨i, m, hi, ?_, hbest⟩
    have h0 : ¬ (a :: b :: rest).length = 0 := by simp
    have h1 : ¬ (a :: b :: rest).length = 1 := by simp
    have hp1 : ¬ BOT_PERSONALITIES_SPEEDSTER = BOT_PERSONALITIES_AGGRESSIVE := by decide
    have hp2 : ¬ BOT_PERSONALITIES_SPEEDSTER = BOT_PERSONALITIES_DEFENSIVE := by decide
    simp only [h0, h1, if_false, hp1, hp2, if_true, hres]

/-- C26 at the bot position, dice value 6, classic mode. -/
theorem makePersonalityMove_speedster_witness :
    ∃ (i : Nat) (m : Move),
      [(⟨"p1-0", -1, 0⟩ : Move), ⟨"p1-1", 2, 8⟩, ⟨"p1-2", 4, 10⟩][i]? = some m ∧
      makePersonalityMove botState 6 "classic" BOT_PERSONALITIES_SPEEDSTER sampleRandom
        = .ok (some m) ∧
      ∀ (j : Nat) (m1 : Move),
        [(⟨"p1-0", -1, 0⟩ : Move), ⟨"p1-1", 2, 8⟩, ⟨"p1-2", 4, 10⟩][j]? = some m1 →
        m1.to ≤ m.to ∧ (j < i → m1.to < m.to) :=
  makePersonalityMove_speedster botState 6 "classic" sampleRandom _ (by decide) (by decide)

/-- C27: for every state and every non-empty legal-move list of the state,
`makeMediumMove` returns the earliest move in legal-move order among the
moves with the highest score; the function takes no random draw. -/
theorem makeMediumMove_first_highest (state : GameState) (diceValue : Int) (mode : String)
    (ms : List Move)
    (hok : getLegalMoves state.tokens diceValue mode state.currentPlayerId = .ok ms)
    (hne : ms ≠ []) :
    ∃ (i : Nat) (m : Move) (s : ScoredMove), ms[i]? = some m ∧
      mediumMoveScore state m = .ok s ∧ makeMediumMove state ms = .ok m ∧
      ∀ (j : Nat) (m1 : Move) (s1 : ScoredMove), ms[j]? = some m1 →
        mediumMoveScore state m1 = .ok s1 →
          s1.score ≤ s.score ∧ (j < i → s1.score < s.score) :=
  makeMediumMove_spec state ms hne (mediumMoveScore_returns_of_legal state diceValue mode ms hok)

/-- C27 at the bot position, dice value 6, classic mode. -/
theorem makeMediumMove_first_highest_witness :
    ∃ (i : Nat) (m : Move) (s : ScoredMove),
      [(⟨"p1-0", -1, 0⟩ : Move), ⟨"p1-1", 2, 8⟩, ⟨"p1-2", 4, 10⟩][i]? = some m ∧
      mediumMoveScore botState m = .ok s ∧
      makeMediumMove botState [⟨"p1-0", -1, 0⟩, ⟨"p1-1", 2, 8⟩, ⟨"p1-2", 4, 10⟩] = .ok m ∧
      ∀ (j : Nat) (m1 : Move) (s1 : ScoredMove),
        [(⟨"p1-0", -1, 0⟩ : Move), ⟨"p1-1", 2, 8⟩, ⟨"p1-2", 4, 10⟩][j]? = some m1 →
        mediumMoveScore botState m1 = .ok s1 →
          s1.score ≤ s.score ∧ (j < i → s1.score < s.score) :=
  makeMediumMove_first_highest botState 6 "classic" _ (by decide) (by decide)

/-! ## Further claims on captures and move application -/

/-- C28 at a failing input: in `stretchState` the finished token `p1-0` is
at 58 and the token `p1-1` at 54 in the home stretch; the legal move of
`p2-0` from 57 to 58 (dice value 1) captures `p1-0` and resets it to -1, and
the legal move of `p2-1` from 52 to 54 (dice value 2) captures `p1-1`. -/
theorem applyMove_captures_in_home_stretch :
    getLegalMoves stretchState.tokens 1 "classic" stretchState.currentPlayerId
      = .ok [⟨"p2-0", 57, 58⟩, ⟨"p2-1", 52, 53⟩] ∧
    (∃ newState, applyMove stretchState ⟨"p2-0", 57, 58⟩ = .ok newState ∧
      newState.capturedTokens = some ["p1-0"] ∧
      newState.tokens = [⟨"p1-0", "p1", "red", -1⟩, ⟨"p1-1", "p1", "red", 54⟩,
        ⟨"p2-0", "p2", "blue", 58⟩, ⟨"p2-1", "p2", "blue", 52⟩]) ∧
    getLegalMoves stretchState.tokens 2 "classic" stretchState.currentPlayerId
      = .ok [⟨"p2-1", 52, 54⟩] ∧
    (∃ newState, applyMove stretchState ⟨"p2-1", 52, 54⟩ = .ok newState ∧
      newState.capturedTokens = some ["p1-1"] ∧
      newState.tokens = [⟨"p1-0", "p1", "red", 58⟩, ⟨"p1-1", "p1", "red", -1⟩,
        ⟨"p2-0", "p2", "blue", 57⟩, ⟨"p2-1", "p2", "blue", 54⟩]) := by
  refine ⟨by decide, ⟨_, rfl, by decide, by decide⟩, by decide, ⟨_, rfl, by decide, by decide⟩⟩

/-- The token `find` returns after repositioning is the token it returned
before, repositioned. -/
theorem find?_setPositionOfFirst (id : String) (position : Int) (tokens : List Token) :
    (setPositionOfFirst id position tokens).find? (fun t => t.id = id) =
      (tokens.find? (fun t => t.id = id)).map (fun t => { t with position := position }) := by
  induction tokens with
  | nil => rfl
  | cons t rest ih =>
    unfold setPositionOfFirst
    by_cases hid : t.id = id
    · simp [hid, List.find?_cons]
    · simp [hid, List.find?_cons, ih]

/-- Repositioning the moving token does not change which tokens of other
players are at a given cell. -/
theorem filter_setPositionOfFirst (id : String) (position cell : Int) (moving : Token)
    (tokens : List Token) (hfind : tokens.find? (fun t => t.id = id) = some moving) :
    (setPositionOfFirst id position tokens).filter
        (fun t => t.position = cell ∧ t.playerId ≠ moving.playerId) =
      tokens.filter (fun t => t.position = cell ∧ t.playerId ≠ moving.playerId) := by
  induction tokens with
  | nil => rfl
  | cons t rest ih =>
    unfold setPositionOfFirst
    by_cases hid : t.id = id
    · have hm : moving = t := by
        simp [List.find?_cons, hid] at hfind
        exact hfind.symm
      subst hm
      simp [hid, List.filter_cons]
    · have hrest : rest.find? (fun t => t.id = id) = some moving := by
        simpa [List.find?_cons, hid] using hfind
      simp only [hid, if_false, List.filter_cons, ih hrest]

/-- The capture check gives the same list before and after the moving token
is repositioned. -/
theorem checkForCapture_setPositionOfFirst (tokens : List Token) (move : Move)
    (position : Int) (hmem : ∃ t ∈ tokens, t.id = move.tokenId) :
    checkForCapture (setPositionOfFirst move.tokenId position tokens) move =
      checkForCapture tokens move := by
  obtain ⟨mt, hmt⟩ := (find?_id_isSome tokens move.tokenId).1 hmem
  have hfind := find?_setPositionOfFirst move.tokenId position tokens
  rw [hmt] at hfind
  rw [checkForCapture_of_find _ move _ hfind, checkForCapture_of_find tokens move mt hmt]
  simp only [Option.map_some']
  rw [filter_setPositionOfFirst move.tokenId position move.to mt tokens hmt]

/-- With the token of the move present, `applyMove` returns the input state
with the four fields `tokens`, `lastMove`, `capturedTokens` and
`bonusSteps` set. -/
theorem applyMove_record (state : GameState) (move : Move)
    (hmem : ∃ t ∈ state.tokens, t.id = move.tokenId) :
    ∃ ids, checkForCapture (setPositionOfFirst move.tokenId move.to state.tokens) move
        = .ok ids ∧
      applyMove state move = .ok { state with
        tokens := ids.foldl (fun toks tokenId => setPositionOfFirst tokenId (-1) toks)
          (setPositionOfFirst move.tokenId move.to state.tokens)
        lastMove := some move
        capturedTokens := some ids
        bonusSteps := if ids.length > 0 then some CAPTURE_BONUS_STEPS
                      else state.bonusSteps } := by
  obtain ⟨mt, hmt⟩ := find?_setPositionOfFirst_isSome state.tokens move.tokenId move.tokenId
    move.to hmem
  have hcap := checkForCapture_of_find _ move mt hmt
  exact ⟨_, hcap, by simp only [applyMove, hcap]⟩

/-- C29: for every state and every move whose tokenId is present in
state.tokens, `checkForCapture` evaluated on the tokens before the move
returns the same list as `checkForCapture` on the tokens after the moved
token has been repositioned, which is the capturedTokens of `applyMove`. -/
theorem checkForCapture_before_eq_capturedTokens (state : GameState) (move : Move)
    (hmem : ∃ t ∈ state.tokens, t.id = move.tokenId) :
    ∃ ids newState, checkForCapture state.tokens move = .ok ids ∧
      checkForCapture (setPositionOfFirst move.tokenId move.to state.tokens) move = .ok ids ∧
      applyMove state move = .ok newState ∧
      newState.capturedTokens = some ids := by
  obtain ⟨ids, hcap, hok⟩ := applyMove_record state move hmem
  refine ⟨ids, _, ?_, hcap, hok, rfl⟩
  rw [← checkForCapture_setPositionOfFirst state.tokens move move.to hmem]
  exact hcap

/-- C29 at the sample position: `p1-1` moves from 50 to 20 and captures `p2-1`. -/
theorem checkForCapture_before_eq_capturedTokens_witness :
    ∃ ids newState, checkForCapture sampleState.tokens ⟨"p1-1", 50, 20⟩ = .ok ids ∧
      checkForCapture (setPositionOfFirst "p1-1" 20 sampleState.tokens) ⟨"p1-1", 50, 20⟩
        = .ok ids ∧
      applyMove sampleState ⟨"p1-1", 50, 20⟩ = .ok newState ∧
      newState.capturedTokens = some ids :=
  checkForCapture_before_eq_capturedTokens sampleState ⟨"p1-1", 50, 20⟩ (by decide)

/-- C30: for every state with pairwise distinct token ids and every move
whose tokenId is present, `applyMove` returns the input state with only the
fields tokens, lastMove, capturedTokens and bonusSteps set; bonusSteps is
kept when nothing is captured; every token keeps its index, id, playerId
and colour, and every token that is neither the moved token nor a captured
token is returned unchanged. -/
theorem applyMove_frame (state : GameState) (move : Move)
    (hnodup : (state.tokens.map (fun t => t.id)).Nodup)
    (hmem : ∃ t ∈ state.tokens, t.id = move.tokenId) :
    ∃ newState ids, applyMove state move = .ok newState ∧
      newState.capturedTokens = some ids ∧
      newState.lastMove = some move ∧
      (ids = [] → newState.bonusSteps = state.bonusSteps) ∧
      (ids ≠ [] → newState.bonusSteps = some CAPTURE_BONUS_STEPS) ∧
      newState.currentPlayerId = state.currentPlayerId ∧
      newState.players = state.players ∧
      newState.mode = state.mode ∧
      newState.lastDiceRoll = state.lastDiceRoll ∧
      newState.consecutiveSixCount = state.consecutiveSixCount ∧
      newState.turnStartTime = state.turnStartTime ∧
      newState.gameStartTime = state.gameStartTime ∧
      newState.status = state.status ∧
      newState.turnForfeited = state.turnForfeited ∧
      newState.tokens.length = state.tokens.length ∧
      ∀ (i : Nat) (t : Token), state.tokens[i]? = some t →
        ∃ t1, newState.tokens[i]? = some t1 ∧
          t1.id = t.id ∧ t1.playerId = t.playerId ∧ t1.color = t.color ∧
          (t.id ≠ move.tokenId → t.id ∉ ids → t1 = t) := by
  obtain ⟨ids, hcap, hok⟩ := applyMove_record state move hmem
  have hids1 : (setPositionOfFirst move.tokenId move.to state.tokens).map (fun t => t.id)
      = state.tokens.map (fun t => t.id) :=
    map_setPositionOfFirst (fun t => t.id) (fun _ _ => rfl) _ _ _
  have htok : ids.foldl (fun toks tokenId => setPositionOfFirst tokenId (-1) toks)
      (setPositionOfFirst move.tokenId move.to state.tokens) =
      state.tokens.map ((fun t => if t.id ∈ ids then { t with position := -1 } else t) ∘
        (fun t => if t.id = move.tokenId then { t with position := move.to } else t)) := by
    rw [foldl_setPositionOfFirst_eq_map (-1) ids _ (by rw [hids1]; exact hnodup),
      setPositionOfFirst_eq_map move.tokenId move.to state.tokens hnodup, List.map_map]
  refine ⟨_, ids, hok, rfl, rfl, ?_, ?_, rfl, rfl, rfl, rfl, rfl, rfl, rfl, rfl, rfl, ?_, ?_⟩
  · intro h
    subst h
    rfl
  · intro h
    have : ids.length > 0 := List.length_pos.2 h
    simp only [this, if_true]
  · simp only [htok, List.length_map]
  · intro i t hi
    simp only [htok, List.getElem?_map, hi, Option.map_some', Function.comp]
    refine ⟨_, rfl, ?_, ?_, ?_, ?_⟩
    · split_ifs <;> rfl
    · split_ifs <;> rfl
    · split_ifs <;> rfl
    · intro h1 h2
      simp [h1, h2]

/-- C30 at the sample position: `p1-1` moves from 50 to 20 and captures `p2-1`. -/
theorem applyMove_frame_witness :
    ∃ newState ids, applyMove sampleState ⟨"p1-1", 50, 20⟩ = .ok newState ∧
      newState.capturedTokens = some ids ∧
      newState.lastMove = some ⟨"p1-1", 50, 20⟩ ∧
      (ids = [] → newState.bonusSteps = sampleState.bonusSteps) ∧
      (ids ≠ [] → newState.bonusSteps = some CAPTURE_BONUS_STEPS) ∧
      newState.currentPlayerId = sampleState.currentPlayerId ∧
      newState.players = sampleState.players ∧
      newState.mode = sampleState.mode ∧
      newState.lastDiceRoll = sampleState.lastDiceRoll ∧
      newState.consecutiveSixCount = sampleState.consecutiveSixCount ∧
      newState.turnStartTime = sampleState.turnStartTime ∧
      newState.gameStartTime = sampleState.gameStartTime ∧
      newState.status = sampleState.status ∧
      newState.turnForfeited = sampleState.turnForfeited ∧
      newState.tokens.length = sampleState.tokens.length ∧
      ∀ (i : Nat) (t : Token), sampleState.tokens[i]? = some t →
        ∃ t1, newState.tokens[i]? = some t1 ∧
          t1.id = t.id ∧ t1.playerId = t.playerId ∧ t1.color = t.color ∧
          (t.id ≠ "p1-1" → t.id ∉ ids → t1 = t) :=
  applyMove_frame sampleState ⟨"p1-1", 50, 20⟩ (by decide) (by decide)

end Ludo
